import Mathlib

/-!
# Sequential measurement update (MeasUpdate) : embedding and properties

Shallow embedding of `src/lib/Procframe/MeasUpdate.cpp` (namespace `gpstk`).

Conventions of the embedding:

* `double` values are modelled by exact rationals `ℚ` (the properties below are
  statements in exact arithmetic; rounding is outside the model).  A division
  by zero gives an infinity or a NaN in the program, whereas `ℚ` evaluates
  `x / 0` to `0`: the definitions over `ℚ` (`applyRow`, `rowUpdate`, `Process`)
  stand for the program where the divisors `weight` and `beta` are nonzero.
  The row at a zero divisor is `rowUpdateDouble`, over the type `Double` with
  infinities and NaN; it agrees with `rowUpdate` where both divisors are
  nonzero (`rowUpdateDouble_of_ne_zero`).
* `Vector<double>` of size `n` is `Fin n → ℚ`, `Matrix<double>` of size `n × n`
  is `Fin n → Fin n → ℚ`; an index returned by `Variable::getNowIndex()` is a
  `Fin n`, so it is in range by its type.
* `typeValueMap` (a `std::map<TypeID,double>`) is a function `TypeID → Option ℚ`:
  `find(t) != end()` is `(m t).isSome`, and `operator()(t)` throws
  `TypeIDNotFound` when `m t = none`.
* C++ exceptions are modelled with `Except`.
* `std::sqrt` is a parameter `sqrt : ℚ → ℚ` of the definitions that call it: its
  result is a `double`, a rational close to the root.  A statement that needs
  its value says how accurate it is on the argument concerned (exact,
  `IsSqrtOf`, where the argument is a rational square; within a bound `eps` in
  the square otherwise).
* The data map (`gnssDataMap`) and its parts are association lists in iteration
  order.

Embedded besides `MeasUpdate.cpp`: `SimpleFilter::Process` (`SimpleFilter.cpp`),
`getTAImGPS`, `GPS2UTC`, `UTC2GPS` and `Anpm` (`ReferenceSystem.cpp`, `.hpp`),
`IonoCorr::asString` and `IonoCorr::fromString` (`Rinex3NavHeader.cpp`), and the
lists of `ComputeLinear` (`ComputeLinear.hpp`).
-/

namespace gpstk

/-! ## Data model -/

/-- The type tags used by the filter.  Only four of the enumerators of the
    original `TypeID` are named by `MeasUpdate.cpp`; every other enumerator is
    `other k`. -/
inductive TypeID where
  | prefitC
  | prefitL
  | weightC
  | weightL
  | other (k : Nat)
  deriving DecidableEq, Repr

/-- A `typeValueMap` is a finite map from `TypeID` to `double`. -/
abbrev typeValueMap := TypeID → Option ℚ

/-- Exceptions raised inside the `try` block of `Process`. -/
inductive Exception where
  | TypeIDNotFound
  | other (code : Nat)
  deriving DecidableEq, Repr

/-- The exception that `Process` rethrows from its `catch(Exception& u)` handler. -/
structure ProcessingException where
  cause : Exception
  deriving DecidableEq, Repr

/-- Lookup `tData(type)` : `typeValueMap::operator()`, which throws when the type
    has no entry (`SimpleFilter::Process` relies on it: its handler treats the
    exception as "some value is missing"). -/
def typeValueMap.getValue (tData : typeValueMap) (type : TypeID) : Except Exception ℚ :=
  match tData type with
  | some v => Except.ok v
  | none => Except.error Exception.TypeIDNotFound

/-- An unknown of the current epoch: its type (`getType()`) and its index in the
    state vector (`getNowIndex()`), for a system with `n` unknowns. -/
structure Variable (n : Nat) where
  varType : TypeID
  nowIndex : Fin n
  deriving DecidableEq

/-- The coefficient information attached to a variable of an equation. -/
structure Coefficient where
  forceDefault : Bool
  defaultCoefficient : ℚ
  deriving DecidableEq

/-- A receiver (observation source). -/
abbrev SourceID := Nat

/-- A satellite. -/
abbrev SatID := Nat

/-- The header of an equation: the typed-value bag, the type of the independent
    term (`indTerm.getType()`), the constant weight, and the source and the
    satellite the equation belongs to. -/
structure equationHeader where
  typeValueData : typeValueMap
  indTerm : TypeID
  constWeight : ℚ
  equationSource : SourceID := 0
  equationSat : SatID := 0

/-- An equation: header and body; the body is the `VarCoeffMap` in its iteration
    order. -/
structure Equation (n : Nat) where
  header : equationHeader
  body : List (Variable n × Coefficient)

/-- The set of unknowns handed over by the equation system. -/
abbrev VariableSet (n : Nat) := List (Variable n)

/-- The committed state of the State Store: state vector, covariance matrix and
    variable set, for the number of unknowns of the epoch that committed them. -/
structure StateStore where
  numUnknowns : Nat
  stateVector : Fin numUnknowns → ℚ
  covarMatrix : Fin numUnknowns → Fin numUnknowns → ℚ
  variableSet : VariableSet numUnknowns

/-- What `equSystem.Prepare` leaves in the equation system for an epoch with `n`
    unknowns: `getCurrentUnknowns()` and `getCurrentEquationsList()`. -/
structure EquationSystem (n : Nat) where
  currentUnknowns : VariableSet n
  equList : List (Equation n)

/-! ## One row of `MeasUpdate::Process` -/

/-- Lines 221-252: the weight of an equation, `constWeight`, multiplied by the
    `weightC` (resp. `weightL`) entry of the bag for a `prefitC` (resp. `prefitL`)
    equation when that entry exists. -/
def effectiveWeight (header : equationHeader) : ℚ :=
  let tData := header.typeValueData
  let indepType := header.indTerm
  let weight := header.constWeight
  if indepType = TypeID.prefitC then
    match tData TypeID.weightC with
    | some v => weight * v
    | none => weight
  else if indepType = TypeID.prefitL then
    match tData TypeID.weightL with
    | some v => weight * v
    | none => weight
  else weight

/-- Lines 275-305: the coefficient `tempCoef` of one variable of an equation. -/
def tempCoef {n : Nat} (tData : typeValueMap) (var : Variable n) (coef : Coefficient) : ℚ :=
  if coef.forceDefault then
    coef.defaultCoefficient
  else
    match tData var.varType with
    | some v => v
    | none => coef.defaultCoefficient

/-- Lines 264-316, the vectors `index` and `G`: entry `j` is the pair
    `(index(j), G(j))` of the `j`-th variable of the body. -/
def indexG {n : Nat} (eq : Equation n) : List (Fin n × ℚ) :=
  eq.body.map (fun vc => (vc.1.nowIndex, tempCoef eq.header.typeValueData vc.1 vc.2))

/-- Line 310 over the loop of lines 264-316: the row of `hMatrix` after the
    assignments `hMatrix(row, var.getNowIndex()) = tempCoef`, starting from the
    row `h0`. -/
def hRow {n : Nat} (eq : Equation n) (h0 : Fin n → ℚ) : Fin n → ℚ :=
  eq.body.foldl
    (fun h vc => Function.update h vc.1.nowIndex (tempCoef eq.header.typeValueData vc.1 vc.2))
    h0

/-- Lines 337-344: `M(i) = M(i) + P(i,index(j)) * G(j)` for `j = 0 .. numVar-1`,
    from `M(i) = 0`. -/
def computeM {n : Nat} (P : Fin n → Fin n → ℚ) (ig : List (Fin n × ℚ)) : Fin n → ℚ :=
  fun i => ig.foldl (fun acc p => acc + P i p.1 * p.2) 0

/-- Lines 346-351: `dotGM = dotGM + G(i)*M(index(i))`, from `0`. -/
def computeDotGM {n : Nat} (M : Fin n → ℚ) (ig : List (Fin n × ℚ)) : ℚ :=
  ig.foldl (fun acc p => acc + p.2 * M p.1) 0

/-- Lines 369-373: `dotGX = dotGX + G(i)*xhat(index(i))`, from `0`. -/
def computeDotGX {n : Nat} (xhat : Fin n → ℚ) (ig : List (Fin n × ℚ)) : ℚ :=
  ig.foldl (fun acc p => acc + p.2 * xhat p.1) 0

/-- Assignment `P(i,j) = v` on a matrix. -/
def setCell {n : Nat} (P : Fin n → Fin n → ℚ) (i j : Fin n) (v : ℚ) : Fin n → Fin n → ℚ :=
  fun a b => if a = i ∧ b = j then v else P a b

/-- Line 405: `P(j,i) = P(i,j) = P(i,j) - K(i)*M(j)`. -/
def covarCell {n : Nat} (K M : Fin n → ℚ) (i : Fin n) (P : Fin n → Fin n → ℚ) (j : Fin n) :
    Fin n → Fin n → ℚ :=
  let v := P i j - K i * M j
  setCell (setCell P i j v) j i v

/-- Lines 399-406: the body of the outer loop for index `i`: the diagonal
    element, then the inner loop `j = i+1 .. numUnknowns-1`. -/
def covarOuter {n : Nat} (K M : Fin n → ℚ) (P : Fin n → Fin n → ℚ) (i : Fin n) :
    Fin n → Fin n → ℚ :=
  let P1 := setCell P i i (P i i - K i * M i)
  ((List.finRange n).filter (fun j => i < j)).foldl (covarCell K M i) P1

/-- Lines 397-408: the in-place covariance update, outer loop
    `i = 0 .. numUnknowns-1`. -/
def covarUpdate {n : Nat} (K M : Fin n → ℚ) (P : Fin n → Fin n → ℚ) : Fin n → Fin n → ℚ :=
  (List.finRange n).foldl (covarOuter K M) P

/-- The working variables of the pass that live across rows. -/
structure PassState (n : Nat) where
  xhat : Fin n → ℚ
  P : Fin n → Fin n → ℚ
  M : Fin n → ℚ
  K : Fin n → ℚ
  hMatrix : Nat → Fin n → ℚ
  prefitResiduals : Nat → ℚ
  row : Nat

/-- Lines 221-414 for an equation whose independent term has the value
    `tempPrefit`: weight, coefficients, gain, state update, covariance update,
    bookkeeping of the row.  The quotients `1/weight` and `M(i)/beta` are those of
    the program where `weight` and `beta` are nonzero; the row at a zero divisor
    is `rowUpdateDouble`. -/
def applyRow {n : Nat} (eq : Equation n) (tempPrefit : ℚ) (s : PassState n) : PassState n :=
  let weight := effectiveWeight eq.header
  let ig := indexG eq
  let hMatrix := Function.update s.hMatrix s.row (hRow eq (s.hMatrix s.row))
  let z := tempPrefit
  let inv_W := 1 / weight
  let M := computeM s.P ig
  let dotGM := computeDotGM M ig
  let beta := inv_W + dotGM
  let K : Fin n → ℚ := fun i => M i / beta
  let dotGX := computeDotGX s.xhat ig
  let xhat : Fin n → ℚ := fun i => s.xhat i + K i * (z - dotGX)
  let P := covarUpdate K M s.P
  let prefitResiduals := Function.update s.prefitResiduals s.row tempPrefit
  { xhat := xhat, P := P, M := M, K := K, hMatrix := hMatrix,
    prefitResiduals := prefitResiduals, row := s.row + 1 }

/-- Lines 212-414: one iteration of the loop over `equList`; the lookup of the
    independent term (line 219) throws when the bag has no such entry. -/
def processRow {n : Nat} (eq : Equation n) (s : PassState n) : Except Exception (PassState n) :=
  match eq.header.typeValueData.getValue eq.header.indTerm with
  | Except.error u => Except.error u
  | Except.ok tempPrefit => Except.ok (applyRow eq tempPrefit s)

/-- Lines 208-416: the loop over `equList`, in list order. -/
def rowLoop {n : Nat} : List (Equation n) → PassState n → Except Exception (PassState n)
  | [], s => Except.ok s
  | eq :: rest, s =>
    match processRow eq s with
    | Except.error u => Except.error u
    | Except.ok s1 => rowLoop rest s1

/-- Line 419: `postfitResiduals = prefitResiduals - (hMatrix * xhat)`, a vector
    with `numEquations` entries. -/
def computePostfit {n : Nat} (numEquations : Nat) (s : PassState n) : List ℚ :=
  (List.range numEquations).map
    (fun r => s.prefitResiduals r - (List.finRange n).foldl (fun acc k => acc + s.hMatrix r k * s.xhat k) 0)

/-- The result of a completed call of `Process`: the State Store after the three
    `set...` calls of lines 456-458, the `postfitResiduals` member, and the
    counter `times`. -/
structure ProcessResult where
  store : StateStore
  postfitResiduals : List ℚ
  times : Nat

/-- Lines 138-476, `MeasUpdate::Process(gnssDataMap&)`.  The equation system after
    `Prepare` is `sys`; `getStateVector` and `getCovarMatrix` are the two read
    operations of the State Store (not part of the sources at hand), which may
    throw.  Any exception is rethrown as a `ProcessingException`, and in that
    case nothing is committed. -/
def Process {n : Nat} (getStateVector : VariableSet n → Except Exception (Fin n → ℚ))
    (getCovarMatrix : VariableSet n → Except Exception (Fin n → Fin n → ℚ))
    (sys : EquationSystem n) : Except ProcessingException ProcessResult :=
  let currentUnknowns := sys.currentUnknowns
  let equList := sys.equList
  let numEquations := equList.length
  match getStateVector currentUnknowns with
  | Except.error u => Except.error { cause := u }
  | Except.ok xhat0 =>
    match getCovarMatrix currentUnknowns with
    | Except.error u => Except.error { cause := u }
    | Except.ok P0 =>
      let s0 : PassState n :=
        { xhat := xhat0, P := P0, M := fun _ => 0, K := fun _ => 0,
          hMatrix := fun _ _ => 0, prefitResiduals := fun _ => 0, row := 0 }
      match rowLoop equList s0 with
      | Except.error u => Except.error { cause := u }
      | Except.ok s =>
        Except.ok
          { store :=
              { numUnknowns := n, stateVector := s.xhat, covarMatrix := s.P,
                variableSet := sys.currentUnknowns },
            postfitResiduals := computePostfit numEquations s,
            times := 1 }

/-- The effect of one row on the pair `(xhat, P)`: lines 333-408 for an equation
    whose independent term has the value `z` (the `xhat` and `P` components of
    `applyRow`), where `weight` and `beta` are nonzero; the row at a zero divisor
    is `rowUpdateDouble`. -/
def rowUpdate {n : Nat} (eq : Equation n) (z : ℚ)
    (xP : (Fin n → ℚ) × (Fin n → Fin n → ℚ)) : (Fin n → ℚ) × (Fin n → Fin n → ℚ) :=
  let ig := indexG eq
  let inv_W := 1 / effectiveWeight eq.header
  let M := computeM xP.2 ig
  let dotGM := computeDotGM M ig
  let beta := inv_W + dotGM
  let K : Fin n → ℚ := fun i => M i / beta
  let dotGX := computeDotGX xP.1 ig
  (fun i => xP.1 i + K i * (z - dotGX), covarUpdate K M xP.2)

/-- The row that the loops of lines 337-373 effectively use: entry `k` is the sum
    of the `G(j)` with `index(j) = k`. -/
def accRow {n : Nat} (ig : List (Fin n × ℚ)) : Fin n → ℚ :=
  fun k => (ig.map (fun p => if p.1 = k then p.2 else 0)).sum

/-! ## The specification side -/

/-- The full-length row of an equation, in the words of the specification: `h`
    holds `G(j)` at `index(j)` and `0` elsewhere. -/
def IsFullRow {n : Nat} (ig : List (Fin n × ℚ)) (h : Fin n → ℚ) : Prop :=
  (∀ p ∈ ig, h p.1 = p.2) ∧ (∀ k, (∀ p ∈ ig, p.1 ≠ k) → h k = 0)

/-- A symmetric matrix. -/
def IsSymmetric {n : Nat} (P : Fin n → Fin n → ℚ) : Prop :=
  ∀ i j, P i j = P j i

/-- A symmetric positive-semidefinite matrix. -/
def IsPosSemidef {n : Nat} (P : Fin n → Fin n → ℚ) : Prop :=
  IsSymmetric P ∧ ∀ v : Fin n → ℚ, 0 ≤ Matrix.dotProduct v (Matrix.mulVec (Matrix.of P) v)

/-- A symmetric positive-definite matrix. -/
def IsPosDef {n : Nat} (P : Fin n → Fin n → ℚ) : Prop :=
  IsSymmetric P ∧ ∀ v : Fin n → ℚ, v ≠ 0 → 0 < Matrix.dotProduct v (Matrix.mulVec (Matrix.of P) v)

/-- Two equations with no shared unknown: no index is referenced by both. -/
def DisjointUnknowns {n : Nat} (e1 e2 : Equation n) : Prop :=
  List.Disjoint (e1.body.map (fun vc => vc.1.nowIndex)) (e2.body.map (fun vc => vc.1.nowIndex))

/-- The scalar-measurement Kalman update of the specification (section 4.3, steps
    3 to 6) for the full-length row `h`: `M = P·hᵗ`, `β = 1/w + h·M`, `K = M/β`,
    `x ← x + K·(z − h·x)`, `P ← P − K·Mᵗ`. -/
def kalmanRow {n : Nat} (w z : ℚ) (h : Fin n → ℚ)
    (xP : (Fin n → ℚ) × (Fin n → Fin n → ℚ)) : (Fin n → ℚ) × (Fin n → Fin n → ℚ) :=
  let M := Matrix.mulVec (Matrix.of xP.2) h
  let beta := 1 / w + Matrix.dotProduct h M
  let K : Fin n → ℚ := fun i => M i / beta
  (fun i => xP.1 i + K i * (z - Matrix.dotProduct h xP.1), fun i j => xP.2 i j - K i * M j)

/-! ## The call as a whole: State Store and pass loop -/

/-- The call `MeasUpdate::Process(gnssDataMap&)` as a transition of the State
    Store behind `m_pStateStore`: the store after the call, and the outcome.
    `Prepare` is the outcome of `equSystem.Prepare(gdsMap)` (line 162); the two
    reads act on the store as it is before the call; the three `set...` calls of
    lines 456-458 are reached only when nothing was thrown before them, and an
    exception leaves the `try` block for the handler of lines 461-468. -/
def ProcessOnStore {n : Nat} (Prepare : Except Exception (EquationSystem n))
    (getStateVector : StateStore → VariableSet n → Except Exception (Fin n → ℚ))
    (getCovarMatrix : StateStore → VariableSet n → Except Exception (Fin n → Fin n → ℚ))
    (store : StateStore) : StateStore × Except ProcessingException ProcessResult :=
  match Prepare with
  | Except.error u => (store, Except.error { cause := u })
  | Except.ok sys =>
    match Process (getStateVector store) (getCovarMatrix store) sys with
    | Except.error e => (store, Except.error e)
    | Except.ok r => (r.store, Except.ok r)

/-- A loop `do body while (cond)` : the body runs, then the condition decides on
    another round.  The result is `none` when the rounds allowed by `fuel` are
    used up. -/
def doWhile {σ : Type} (body : σ → Except Exception σ) (cond : σ → Bool) :
    Nat → σ → Except Exception (Option σ)
  | 0, _ => Except.ok none
  | fuel + 1, s =>
    match body s with
    | Except.error u => Except.error u
    | Except.ok s1 => if cond s1 then doWhile body cond fuel s1 else Except.ok (some s1)

/-- What lives across the rounds of the loop of lines 157-447: the counter `times`
    and the members `xhat`, `P`, `postfitResiduals` and `equSystem` of the
    object. -/
structure LoopState (n : Nat) where
  times : Nat
  xhat : Fin n → ℚ
  P : Fin n → Fin n → ℚ
  postfitResiduals : List ℚ
  equSystem : EquationSystem n

/-- Lines 158-445: one round of the loop.  `Prepare k` is the outcome of the call
    `equSystem.Prepare(gdsMap)` made after `k` earlier rounds. -/
def loopBody {n : Nat} (Prepare : Nat → Except Exception (EquationSystem n))
    (getStateVector : VariableSet n → Except Exception (Fin n → ℚ))
    (getCovarMatrix : VariableSet n → Except Exception (Fin n → Fin n → ℚ))
    (s : LoopState n) : Except Exception (LoopState n) :=
  match Prepare s.times with
  | Except.error u => Except.error u
  | Except.ok sys =>
    let currentUnknowns := sys.currentUnknowns
    let equList := sys.equList
    let numEquations := equList.length
    let times := s.times + 1
    match getStateVector currentUnknowns with
    | Except.error u => Except.error u
    | Except.ok xhat0 =>
      match getCovarMatrix currentUnknowns with
      | Except.error u => Except.error u
      | Except.ok P0 =>
        let s0 : PassState n :=
          { xhat := xhat0, P := P0, M := fun _ => 0, K := fun _ => 0,
            hMatrix := fun _ _ => 0, prefitResiduals := fun _ => 0, row := 0 }
        match rowLoop equList s0 with
        | Except.error u => Except.error u
        | Except.ok p =>
          Except.ok
            { times := times, xhat := p.xhat, P := p.P,
              postfitResiduals := computePostfit numEquations p, equSystem := sys }

/-- Lines 144-476 with the loop spelled out: `times` starts at `0`, the loop is
    `do ... while( false )` (line 447), and the members are committed after it.
    `members` is the state of the object before the call. -/
def ProcessDoWhile {n : Nat} (fuel : Nat) (Prepare : Nat → Except Exception (EquationSystem n))
    (getStateVector : VariableSet n → Except Exception (Fin n → ℚ))
    (getCovarMatrix : VariableSet n → Except Exception (Fin n → Fin n → ℚ))
    (members : LoopState n) : Except ProcessingException (Option ProcessResult) :=
  match doWhile (loopBody Prepare getStateVector getCovarMatrix) (fun _ => false) fuel
      { members with times := 0 } with
  | Except.error u => Except.error { cause := u }
  | Except.ok none => Except.ok none
  | Except.ok (some s) =>
    Except.ok (some
      { store :=
          { numUnknowns := n, stateVector := s.xhat, covarMatrix := s.P,
            variableSet := s.equSystem.currentUnknowns },
        postfitResiduals := s.postfitResiduals,
        times := s.times })

/-! ## The outlier policy: `MeasUpdate::postfitFilter` -/

/-- An epoch (`CommonTime`). -/
abbrev CommonTime := Nat

/-- The data of one source at one epoch: satellite and bag, in iteration order. -/
abbrev satTypeValueMap := List (SatID × typeValueMap)

/-- The data of one epoch: source and collection, in iteration order. -/
abbrev sourceDataMap := List (SourceID × satTypeValueMap)

/-- The data map: epoch and its collections, in iteration order. -/
abbrev gnssDataMap := List (CommonTime × sourceDataMap)

/-- Modelled from the spec: `satTypeValueMap::numSats()`, which is not part of the
    sources at hand: the number of satellites (simultaneous observations) that
    a collection holds. -/
def numSats (m : satTypeValueMap) : Nat :=
  m.length

/-- Modelled from the spec: `gnssDataMap::removeSatID(source, sat)`, which is not
    part of the sources at hand: the data of the pair (source, satellite) is
    removed from the map, in every epoch; nothing else changes. -/
def removeSatID (gdsMap : gnssDataMap) (source : SourceID) (sat : SatID) : gnssDataMap :=
  gdsMap.map (fun ep =>
    (ep.1, ep.2.map (fun c =>
      if c.1 = source then (c.1, c.2.filter (fun s => decide (s.1 ≠ sat))) else c)))

/-- Lines 496-505 and 530-540: the weight that `postfitFilter` gives an equation;
    the lookups of `weightC` and `weightL` are not guarded and throw when the
    bag has no such entry. -/
def postfitWeight (header : equationHeader) : Except Exception ℚ :=
  let residualType := header.indTerm
  let tvm := header.typeValueData
  let weight := header.constWeight
  if residualType = TypeID.prefitC then
    match tvm.getValue TypeID.weightC with
    | Except.error u => Except.error u
    | Except.ok v => Except.ok (weight * v)
  else if residualType = TypeID.prefitL then
    match tvm.getValue TypeID.weightL with
    | Except.error u => Except.error u
    | Except.ok v => Except.ok (weight * v)
  else Except.ok weight

/-- Lines 488-510: the first loop, on the pair `(sigma, i)`:
    `sigma += pow(postfitResiduals(i), 2) * weight; i++`. -/
def sigmaLoop {n : Nat} (postfitResiduals : List ℚ) :
    List (Equation n) → ℚ × Nat → Except Exception (ℚ × Nat)
  | [], s => Except.ok s
  | eq :: rest, s =>
    match postfitWeight eq.header with
    | Except.error u => Except.error u
    | Except.ok weight =>
      sigmaLoop postfitResiduals rest
        (s.1 + (postfitResiduals.getD s.2 0) ^ 2 * weight, s.2 + 1)

/-- Lines 485-514: `sigma = sqrt( sigma/(n-t) )` after the first loop, with
    `n = equList.size()` and `t = equSystem.getCurrentNumVariables()` of type
    `int`.  The function `sqrt` stands for `std::sqrt`, whose result is a
    `double`: a rational close to the root of its argument, equal to it only
    where the argument is a rational square. -/
def postfitSigma {n : Nat} (sqrt : ℚ → ℚ) (equList : List (Equation n)) (numVariables : Nat)
    (postfitResiduals : List ℚ) : Except Exception ℚ :=
  match sigmaLoop postfitResiduals equList (0, 0) with
  | Except.error u => Except.error u
  | Except.ok s =>
    let nEq : Int := equList.length
    let t : Int := numVariables
    Except.ok (sqrt (s.1 / ((nEq - t : Int) : ℚ)))

/-- The variables of the second loop of `postfitFilter` (lines 518-589). -/
structure RejectState where
  i : Nat
  isValid : Bool
  sourceRemoved : SourceID
  satRemoved : SatID
  gdsMap : gnssDataMap

/-- Lines 522-589: the second loop; an equation with `v > 2.5*sigma` has its
    (source, satellite) pair removed from the data map. -/
def rejectLoop {n : Nat} (sqrt : ℚ → ℚ) (sigma : ℚ) (postfitResiduals : List ℚ) :
    List (Equation n) → RejectState → Except Exception RejectState
  | [], s => Except.ok s
  | eq :: rest, s =>
    let source := eq.header.equationSource
    let sat := eq.header.equationSat
    match postfitWeight eq.header with
    | Except.error u => Except.error u
    | Except.ok weight =>
      let v := sqrt weight * abs (postfitResiduals.getD s.i 0)
      if v > 5 / 2 * sigma then
        rejectLoop sqrt sigma postfitResiduals rest
          { i := s.i + 1, isValid := false, sourceRemoved := source, satRemoved := sat,
            gdsMap := removeSatID s.gdsMap source sat }
      else
        rejectLoop sqrt sigma postfitResiduals rest
          { i := s.i + 1, isValid := s.isValid, sourceRemoved := s.sourceRemoved,
            satRemoved := s.satRemoved, gdsMap := s.gdsMap }

/-- Lines 595-606: the inner loop over the collections of one epoch; a collection
    with `numSats() <= 3` is erased. -/
def pruneSources : sourceDataMap → sourceDataMap
  | [] => []
  | c :: rest => if numSats c.2 ≤ 3 then pruneSources rest else c :: pruneSources rest

/-- Lines 592-616: the loop over the epochs; after its collections are pruned, an
    epoch with `size() <= 0` is erased. -/
def pruneMap : gnssDataMap → gnssDataMap
  | [] => []
  | ep :: rest =>
    let sdm := pruneSources ep.2
    if sdm.length ≤ 0 then pruneMap rest else (ep.1, sdm) :: pruneMap rest

/-- Lines 480-621, `MeasUpdate::postfitFilter`: the value returned (`isValid`)
    and the data map after the call.  `postfitResiduals` is the member left by
    the last pass, `numVariables` is `equSystem.getCurrentNumVariables()`. -/
def postfitFilter {n : Nat} (sqrt : ℚ → ℚ) (equList : List (Equation n)) (numVariables : Nat)
    (postfitResiduals : List ℚ) (gdsMap : gnssDataMap) : Except Exception (Bool × gnssDataMap) :=
  match postfitSigma sqrt equList numVariables postfitResiduals with
  | Except.error u => Except.error u
  | Except.ok sigma =>
    match rejectLoop sqrt sigma postfitResiduals equList
        { i := 0, isValid := true, sourceRemoved := 0, satRemoved := 0, gdsMap := gdsMap } with
    | Except.error u => Except.error u
    | Except.ok s => Except.ok (s.isValid, pruneMap s.gdsMap)

/-- Lines 138-474: the data map that `Process(gnssDataMap&)` returns (line 474)
    when the pass completes; `gdsMap` is the map as `equSystem.Prepare` leaves
    it.  Nothing between line 162 and line 474 touches the map: the call of
    `postfitFilter` in the loop condition is commented out (line 446). -/
def ProcessReturn {n : Nat} (gdsMap : gnssDataMap)
    (getStateVector : VariableSet n → Except Exception (Fin n → ℚ))
    (getCovarMatrix : VariableSet n → Except Exception (Fin n → Fin n → ℚ))
    (sys : EquationSystem n) : Except ProcessingException gnssDataMap :=
  match Process getStateVector getCovarMatrix sys with
  | Except.error e => Except.error e
  | Except.ok _ => Except.ok gdsMap

/-! ## The specification side of the outlier policy -/

/-- The number `s` is the square root of `y`: nonnegative with square `y`. -/
def IsSqrtOf (s y : ℚ) : Prop :=
  0 ≤ s ∧ s * s = y

/-- The sum `Σ wᵢ·residualᵢ²` over the equations, with `wᵢ` the effective weight
    of equation `i` and `residualᵢ` its entry of the residual vector. -/
def weightedSquares {n : Nat} (equList : List (Equation n)) (residuals : List ℚ) : ℚ :=
  ((equList.zip residuals).map (fun p => effectiveWeight p.1.header * p.2 ^ 2)).sum

/-- The normalized residual `v = sqrt(w)·|residual|` of an equation. -/
def normalizedResidual {n : Nat} (sqrt : ℚ → ℚ) (eq : Equation n) (residual : ℚ) : ℚ :=
  sqrt (effectiveWeight eq.header) * abs residual

/-- The (source, satellite) pairs marked for removal: those of the equations whose
    normalized residual exceeds `2.5·σ`, in list order. -/
def rejectedPairs {n : Nat} (sqrt : ℚ → ℚ) (sigma : ℚ) (equList : List (Equation n))
    (residuals : List ℚ) : List (SourceID × SatID) :=
  ((equList.zip residuals).filter
      (fun p => decide (normalizedResidual sqrt p.1 p.2 > 5 / 2 * sigma))).map
    (fun p => (p.1.header.equationSource, p.1.header.equationSat))

/-- The data map holds data of the pair (source, satellite). -/
def HasPair (gdsMap : gnssDataMap) (source : SourceID) (sat : SatID) : Prop :=
  ∃ ep ∈ gdsMap, ∃ c ∈ ep.2, c.1 = source ∧ ∃ s ∈ c.2, s.1 = sat

/-- The secondary weight that `postfitFilter` looks up for an equation is in its
    bag. -/
def HasSecondaryWeight (header : equationHeader) : Prop :=
  (header.indTerm = TypeID.prefitC → (header.typeValueData TypeID.weightC).isSome = true) ∧
  (header.indTerm = TypeID.prefitL → (header.typeValueData TypeID.weightL).isSome = true)

/-! ## The outer loop of the covariance update, cell by cell -/

/-- The cells that iteration `i` of the outer loop of lines 397-408 assigns:
    `(i,i)` at line 400, then `(i,j)` and `(j,i)` for `j > i` at line 405. -/
def writtenCell {n : Nat} (i a b : Fin n) : Prop :=
  (a = i ∧ b = i) ∨ (a = i ∧ i < b) ∨ (b = i ∧ i < a)

/-- The cells of `P` that iteration `i` of the outer loop reads: `(i,i)` at
    line 400 and `(i,j)` for `j > i` at line 405. -/
def readCell {n : Nat} (i a b : Fin n) : Prop :=
  a = i ∧ i ≤ b

/-! ## The State Store read of the prior covariance -/

/-- Modelled from the spec: an Unknown as the State Store sees it (section 3,
    "Unknown"; the class `Variable` with these attributes is not part of the
    sources at hand): its identity `(parameter type, owning entity)` and the
    default variance used when it is newly introduced. -/
structure Unknown where
  ident : Nat × Nat
  defaultVariance : ℚ

/-- Modelled from the spec: the stored covariance map of the State Store (the
    `covarianceMap` of the file header of `MeasUpdate.cpp`, lines 32-38; the
    State Store itself is not part of the sources at hand).  An unknown that is
    found has a row holding its covariance with every stored unknown; an
    unknown that is not found (`none`) is NEW. -/
abbrev covarianceMap := Nat × Nat → Option (Nat × Nat → ℚ)

/-- Modelled from the spec: `getCovarMatrix(unknowns)` of the State Store
    (section 4.2), which is not part of the sources at hand.  The matrix is
    indexed like the ordered unknown set; an entry between two retained unknowns
    is the stored value; a NEW unknown gets its default variance on the diagonal
    and zero in every other entry of its row and column. -/
def StateStore.getCovarMatrix {n : Nat} (stored : covarianceMap) (unknowns : Fin n → Unknown) :
    Fin n → Fin n → ℚ :=
  fun i j =>
    match stored (unknowns i).ident, stored (unknowns j).ident with
    | some row, some _ => row (unknowns j).ident
    | _, _ => if i = j then (unknowns i).defaultVariance else 0

/-! ## SimpleFilter -/

/-- Modelled from the spec: `satTypeValueMap::removeSatID(const SatIDSet&)`, which
    is not part of the sources at hand: every satellite of the set is removed,
    the other entries stay as they are. -/
def satTypeValueMap.removeSatID (gData : satTypeValueMap) (satSet : List SatID) :
    satTypeValueMap :=
  gData.filter (fun it => decide (it.1 ∉ satSet))

/-- The loop of `SimpleFilter.cpp`, lines 67-88, for the type `pos`: a satellite
    whose value of that type is missing (the lookup throws, line 82) or is not
    accepted by `checkValue` (line 75) is inserted into `satRejectedSet`.
    `checkValue` is the virtual range check of the class, declared in
    `SimpleFilter.hpp`. -/
def checkSatellites (checkValue : ℚ → Bool) (pos : TypeID) :
    satTypeValueMap → List SatID → List SatID
  | [], satRejectedSet => satRejectedSet
  | it :: rest, satRejectedSet =>
    match it.2.getValue pos with
    | Except.ok value =>
      if !(checkValue value) then
        checkSatellites checkValue pos rest (satRejectedSet.insert it.1)
      else checkSatellites checkValue pos rest satRejectedSet
    | Except.error _ => checkSatellites checkValue pos rest (satRejectedSet.insert it.1)

/-- The loop of `SimpleFilter.cpp`, lines 60-93, over `filterTypeSet`:
    `satRejectedSet` is declared before the loop (line 56) and lives across the
    types; after each type the rejected satellites are removed (line 92). -/
def checkTypes (checkValue : ℚ → Bool) :
    List TypeID → satTypeValueMap × List SatID → satTypeValueMap × List SatID
  | [], st => st
  | pos :: rest, st =>
    let satRejectedSet := checkSatellites checkValue pos st.1 st.2
    checkTypes checkValue rest (st.1.removeSatID satRejectedSet, satRejectedSet)

/-- Lines 46-114 of `SimpleFilter.cpp`, `SimpleFilter::Process(satTypeValueMap&)`.
    Nothing inside the `try` block throws past the inner `catch(...)`, so the
    call returns the filtered map. -/
def SimpleFilter.Process (checkValue : ℚ → Bool) (filterTypeSet : List TypeID)
    (gData : satTypeValueMap) : satTypeValueMap :=
  (checkTypes checkValue filterTypeSet (gData, [])).1

/-- A satellite entry passes the type `t`: it holds a value of that type and
    `checkValue` accepts the value. -/
def PassesType (checkValue : ℚ → Bool) (tData : typeValueMap) (t : TypeID) : Prop :=
  ∃ v, tData t = some v ∧ checkValue v = true

/-! ## ReferenceSystem: time systems and angles -/

/-- The time systems named by `ReferenceSystem.cpp`. -/
inductive TimeSystem where
  | Unknown
  | GPS
  | UTC
  | TAI
  | TT
  | UT1
  deriving DecidableEq

/-- A `CommonTime` as `ReferenceSystem` uses it: an instant counted in seconds on
    a continuous scale, and the tag set by `setTimeSystem`.  `t - d` for a
    `double` moves the instant and keeps the tag. -/
structure ReferenceSystem.CommonTime where
  seconds : ℚ
  timeSystem : TimeSystem
  deriving DecidableEq

/-- The operator `CommonTime - double`. -/
def ReferenceSystem.CommonTime.sub (t : ReferenceSystem.CommonTime) (d : ℚ) :
    ReferenceSystem.CommonTime :=
  { t with seconds := t.seconds - d }

/-- The operator `CommonTime + double`. -/
def ReferenceSystem.CommonTime.add (t : ReferenceSystem.CommonTime) (d : ℚ) :
    ReferenceSystem.CommonTime :=
  { t with seconds := t.seconds + d }

/-- Lines 304-369, `GPS2UTC`: the leap seconds are looked up at the GPS instant
    tagged as UTC, and looked up again at the first result. -/
def ReferenceSystem.GPS2UTC (getLeapSec : ReferenceSystem.CommonTime → ℚ)
    (GPS : ReferenceSystem.CommonTime) : ReferenceSystem.CommonTime :=
  let GPS1 : ReferenceSystem.CommonTime := { GPS with timeSystem := TimeSystem.UTC }
  let leapSec := getLeapSec GPS1
  let UTC1 := GPS1.sub (leapSec - 19)
  let leapSec := getLeapSec UTC1
  let UTC := GPS1.sub (leapSec - 19)
  UTC

/-- The leap-second table with one step: `L` before the UTC instant `T`, `L + 1`
    from `T` on. -/
def stepTable (T L : ℚ) : ReferenceSystem.CommonTime → ℚ :=
  fun t => if t.seconds < T then L else L + 1

/-- The integer part of a quotient, rounded toward zero. -/
def truncQ (q : ℚ) : ℤ :=
  if 0 ≤ q then ⌊q⌋ else ⌈q⌉

/-- The function `std::fmod` in exact arithmetic: the remainder of `x / y` with
    the quotient truncated toward zero. -/
def fmod (x y : ℚ) : ℚ :=
  x - y * (truncQ (x / y) : ℚ)

/-- Lines 612-622 of `ReferenceSystem.hpp`, `Anpm`.  The constants `PI` and
    `TWO_PI` are defined outside the sources at hand and are parameters. -/
def ReferenceSystem.Anpm (PI TWO_PI : ℚ) (a : ℚ) : ℚ :=
  let w := fmod a TWO_PI
  if |w| ≥ PI then
    if a > 0 then w - TWO_PI else w - (-TWO_PI)
  else w

/-! ## IonoCorr: the correction type and its name -/

/-- The correction types of `IonoCorr` (the enumerators named by `asString`). -/
inductive CorrType where
  | GAL
  | GPSA
  | GPSB
  | QZSA
  | QZSB
  | BDSA
  | BDSB
  | IRNA
  | IRNB
  | Unknown
  deriving DecidableEq

/-- An `IonoCorr` object: the correction type and the four parameters. -/
structure IonoCorr where
  type : CorrType
  param : Fin 4 → ℚ

/-- Modelled from the spec: `StringUtils::upperCase`, which is not part of the
    sources at hand: every character is replaced by its upper-case form. -/
def upperCase (str : String) : String :=
  String.mk (str.data.map Char.toUpper)

/-- Lines 98-116 of `Rinex3NavHeader.cpp`, `IonoCorr::asString`. -/
def IonoCorr.asString (self : IonoCorr) : String :=
  match self.type with
  | CorrType.GAL => "GAL"
  | CorrType.GPSA => "GPSA"
  | CorrType.GPSB => "GPSB"
  | CorrType.QZSA => "QZSA"
  | CorrType.QZSB => "QZSB"
  | CorrType.BDSA => "BDSA"
  | CorrType.BDSB => "BDSB"
  | CorrType.IRNA => "IRNA"
  | CorrType.IRNB => "IRNB"
  | CorrType.Unknown => "ERROR"

/-- Lines 119-137 of `Rinex3NavHeader.cpp`, `IonoCorr::fromString`: the type is
    set from the upper-cased string; for any other string an exception with the
    message `"Unknown IonoCorr type: " + str` is thrown and the object is left as
    it is. -/
def IonoCorr.fromString (self : IonoCorr) (str : String) : Except String IonoCorr :=
  let STR := upperCase str
  if STR = "GAL" then Except.ok { self with type := CorrType.GAL }
  else if STR = "GPSA" then Except.ok { self with type := CorrType.GPSA }
  else if STR = "GPSB" then Except.ok { self with type := CorrType.GPSB }
  else if STR = "QZSA" then Except.ok { self with type := CorrType.QZSA }
  else if STR = "QZSB" then Except.ok { self with type := CorrType.QZSB }
  else if STR = "BDSA" then Except.ok { self with type := CorrType.BDSA }
  else if STR = "BDSB" then Except.ok { self with type := CorrType.BDSB }
  else if STR = "IRNA" then Except.ok { self with type := CorrType.IRNA }
  else if STR = "IRNB" then Except.ok { self with type := CorrType.IRNB }
  else Except.error ("Unknown IonoCorr type: " ++ str)

/-- The nine names that `fromString` accepts. -/
def corrNames : List String :=
  ["GAL", "GPSA", "GPSB", "QZSA", "QZSB", "BDSA", "BDSB", "IRNA", "IRNB"]

/-! ## ComputeLinear: the lists of linear combinations -/

/-- The satellite systems, `SatID::SatelliteSystem`: the three that
    `ComputeLinear` keeps a list for, and any other one. -/
inductive SatelliteSystem where
  | systemGPS
  | systemGalileo
  | systemBDS
  | systemOther (k : Nat)
  deriving DecidableEq

/-- The private members of `ComputeLinear` (lines 325-327 of
    `ComputeLinear.hpp`): one list of linear combinations per system.  The type
    `C` stands for `gnssLinearCombination`. -/
structure ComputeLinear (C : Type) where
  linearListOfGPS : List C
  linearListOfGAL : List C
  linearListOfBDS : List C

/-- Lines 225-231, `clearAll`. -/
def ComputeLinear.clearAll {C : Type} (_self : ComputeLinear C) : ComputeLinear C :=
  { linearListOfGPS := [], linearListOfGAL := [], linearListOfBDS := [] }

/-- Lines 136-137, the default constructor: the members are default-constructed
    lists and `clearAll()` is called. -/
def ComputeLinear.new (C : Type) : ComputeLinear C :=
  ComputeLinear.clearAll
    { linearListOfGPS := [], linearListOfGAL := [], linearListOfBDS := [] }

/-- Lines 298-309, `addLinear`: `push_back` on the list of the system; nothing
    is done for a system other than the three. -/
def ComputeLinear.addLinear {C : Type} (self : ComputeLinear C) (sys : SatelliteSystem)
    (linear : C) : ComputeLinear C :=
  if sys = SatelliteSystem.systemGPS then
    { self with linearListOfGPS := self.linearListOfGPS ++ [linear] }
  else if sys = SatelliteSystem.systemGalileo then
    { self with linearListOfGAL := self.linearListOfGAL ++ [linear] }
  else if sys = SatelliteSystem.systemBDS then
    { self with linearListOfBDS := self.linearListOfBDS ++ [linear] }
  else self

/-- Lines 213-222, `getLinearCombinations`: the list of the system; for a system
    other than the three the function has no return statement, which is `none`
    here. -/
def ComputeLinear.getLinearCombinations {C : Type} (self : ComputeLinear C)
    (sys : SatelliteSystem) : Option (List C) :=
  if sys = SatelliteSystem.systemGPS then some self.linearListOfGPS
  else if sys = SatelliteSystem.systemGalileo then some self.linearListOfGAL
  else if sys = SatelliteSystem.systemBDS then some self.linearListOfBDS
  else none

/-- The system is one of the three that `ComputeLinear` keeps a list for. -/
def IsListedSystem (sys : SatelliteSystem) : Prop :=
  sys = SatelliteSystem.systemGPS ∨ sys = SatelliteSystem.systemGalileo ∨
    sys = SatelliteSystem.systemBDS

/-! ## The row in the arithmetic of `double` at a zero divisor -/

/-- A value of type `double`: a finite number, an infinity with its sign, or a
    NaN.  A finite value is an exact rational (rounding and overflow are not
    modelled), and a zero is taken as `+0`. -/
inductive Double where
  | finite (q : ℚ)
  | infinity (negative : Bool)
  | nan
  deriving DecidableEq

/-- The negation of a `double`. -/
def Double.neg : Double → Double
  | Double.finite q => Double.finite (-q)
  | Double.infinity s => Double.infinity (!s)
  | Double.nan => Double.nan

/-- The sum of two `double` values: `inf + (-inf)` is a NaN. -/
def Double.add : Double → Double → Double
  | Double.finite a, Double.finite b => Double.finite (a + b)
  | Double.finite _, Double.infinity s => Double.infinity s
  | Double.infinity s, Double.finite _ => Double.infinity s
  | Double.infinity s, Double.infinity r => if s = r then Double.infinity s else Double.nan
  | Double.nan, _ => Double.nan
  | _, Double.nan => Double.nan

/-- The difference of two `double` values. -/
def Double.sub (a b : Double) : Double :=
  a.add b.neg

/-- The product of two `double` values: `0 * inf` is a NaN. -/
def Double.mul : Double → Double → Double
  | Double.finite a, Double.finite b => Double.finite (a * b)
  | Double.finite a, Double.infinity s =>
    if a = 0 then Double.nan else Double.infinity (s != decide (a < 0))
  | Double.infinity s, Double.finite b =>
    if b = 0 then Double.nan else Double.infinity (s != decide (b < 0))
  | Double.infinity s, Double.infinity r => Double.infinity (s != r)
  | Double.nan, _ => Double.nan
  | _, Double.nan => Double.nan

/-- The quotient of two `double` values: `x / 0` is an infinity for `x ≠ 0` and a
    NaN for `x = 0`; `x / inf` is `0` for a finite `x`. -/
def Double.div : Double → Double → Double
  | Double.finite a, Double.finite b =>
    if b = 0 then (if a = 0 then Double.nan else Double.infinity (decide (a < 0)))
    else Double.finite (a / b)
  | Double.finite _, Double.infinity _ => Double.finite 0
  | Double.infinity s, Double.finite b => Double.infinity (s != decide (b < 0))
  | Double.infinity _, Double.infinity _ => Double.nan
  | Double.nan, _ => Double.nan
  | _, Double.nan => Double.nan

/-- The value is a finite number. -/
def Double.isFinite : Double → Bool
  | Double.finite _ => true
  | _ => false

/-- The number held by a finite value (`0` for an infinity or a NaN). -/
def Double.toRat : Double → ℚ
  | Double.finite q => q
  | _ => 0

/-- Assignment `P(i,j) = v` on a matrix of `double`. -/
def setCellDouble {n : Nat} (P : Fin n → Fin n → Double) (i j : Fin n) (v : Double) :
    Fin n → Fin n → Double :=
  fun a b => if a = i ∧ b = j then v else P a b

/-- Line 405 in the arithmetic of `double`:
    `P(j,i) = P(i,j) = P(i,j) - K(i)*M(j)`. -/
def covarCellDouble {n : Nat} (K M : Fin n → Double) (i : Fin n) (P : Fin n → Fin n → Double)
    (j : Fin n) : Fin n → Fin n → Double :=
  let v := (P i j).sub ((K i).mul (M j))
  setCellDouble (setCellDouble P i j v) j i v

/-- Lines 399-406 in the arithmetic of `double`: the body of the outer loop for
    the index `i`. -/
def covarOuterDouble {n : Nat} (K M : Fin n → Double) (P : Fin n → Fin n → Double) (i : Fin n) :
    Fin n → Fin n → Double :=
  let P1 := setCellDouble P i i ((P i i).sub ((K i).mul (M i)))
  ((List.finRange n).filter (fun j => i < j)).foldl (covarCellDouble K M i) P1

/-- Lines 397-408 in the arithmetic of `double`: the in-place covariance
    update. -/
def covarUpdateDouble {n : Nat} (K M : Fin n → Double) (P : Fin n → Fin n → Double) :
    Fin n → Fin n → Double :=
  (List.finRange n).foldl (covarOuterDouble K M) P

/-- Lines 333-352 in the arithmetic of `double`, for a covariance with finite
    entries: `inv_W = 1.0/weight` and `beta = inv_W + dotGM`.  With `weight = 0`
    the inverse weight and `beta` are infinite. -/
def betaDouble {n : Nat} (eq : Equation n) (P : Fin n → Fin n → ℚ) : Double :=
  let weight := effectiveWeight eq.header
  let ig := indexG eq
  let inv_W := (Double.finite 1).div (Double.finite weight)
  let M := computeM P ig
  let dotGM := computeDotGM M ig
  inv_W.add (Double.finite dotGM)

/-- Lines 333-408 in the arithmetic of `double`, for an equation whose
    independent term has the value `z` and a state `(xhat, P)` with finite
    entries: `K(i) = M(i)/beta`, `xhat(i) = xhat(i) + K(i)*(z - dotGX)` and the
    covariance loop.  The sums `M`, `dotGM` and `dotGX` of finite numbers are
    finite. -/
def rowUpdateDouble {n : Nat} (eq : Equation n) (z : ℚ)
    (xP : (Fin n → ℚ) × (Fin n → Fin n → ℚ)) :
    (Fin n → Double) × (Fin n → Fin n → Double) :=
  let ig := indexG eq
  let M := computeM xP.2 ig
  let beta := betaDouble eq xP.2
  let K : Fin n → Double := fun i => (Double.finite (M i)).div beta
  let dotGX := computeDotGX xP.1 ig
  (fun i => (Double.finite (xP.1 i)).add ((K i).mul (Double.finite (z - dotGX))),
   covarUpdateDouble K (fun j => Double.finite (M j)) (fun i j => Double.finite (xP.2 i j)))

/-- The state after the row of `rowUpdateDouble` when all its entries are finite
    numbers; `none` when an entry is an infinity or a NaN. -/
def rowUpdateFinite {n : Nat} (eq : Equation n) (z : ℚ)
    (xP : (Fin n → ℚ) × (Fin n → Fin n → ℚ)) :
    Option ((Fin n → ℚ) × (Fin n → Fin n → ℚ)) :=
  let r := rowUpdateDouble eq z xP
  if (∀ i, (r.1 i).isFinite = true) ∧ (∀ i j, (r.2 i j).isFinite = true) then
    some (fun i => (r.1 i).toRat, fun i j => (r.2 i j).toRat)
  else none

/-- A bag holding the code prefit `5` only. -/
def bagAB : typeValueMap :=
  fun t => if t = TypeID.prefitC then some 5 else none

/-- The equation `z = 5, w = 1, G = [1, 1]` over the unknowns `A` (index 0) and
    `B` (index 1). -/
def eqAB : Equation 2 :=
  { header := { typeValueData := bagAB, indTerm := TypeID.prefitC, constWeight := 1 },
    body := [ ({ varType := TypeID.other 0, nowIndex := 0 }, { forceDefault := true, defaultCoefficient := 1 }),
              ({ varType := TypeID.other 1, nowIndex := 1 }, { forceDefault := true, defaultCoefficient := 1 }) ] }

/-- The prior of two new unknowns with default variance `10000`. -/
def priorAB : Fin 2 → Fin 2 → ℚ :=
  fun i j => if i = j then 10000 else 0

/-- The working variables at the start of a pass over two new unknowns. -/
def stateAB : PassState 2 :=
  { xhat := (fun _ => 0), P := priorAB, M := (fun _ => 0), K := (fun _ => 0),
    hMatrix := (fun _ _ => 0), prefitResiduals := (fun _ => 0), row := 0 }

/-- The vector `M = P·Gᵗ` of the equation `eqAB` on the prior `priorAB`. -/
def gainAB : Fin 2 → ℚ :=
  fun _ => 10000

/-- A bag holding both prefits and both secondary weights. -/
def bagW : typeValueMap :=
  fun t =>
    if t = TypeID.prefitC then some 5
    else if t = TypeID.prefitL then some 7
    else if t = TypeID.weightC then some 3
    else if t = TypeID.weightL then some 4
    else none

/-- The header of a code equation with base weight `2`. -/
def headerC : equationHeader :=
  { typeValueData := bagW, indTerm := TypeID.prefitC, constWeight := 2 }

/-- The header of a phase equation with base weight `2`. -/
def headerL : equationHeader :=
  { typeValueData := bagW, indTerm := TypeID.prefitL, constWeight := 2 }

/-- A variable whose type has no entry in `bagAB`. -/
def varAbsent : Variable 2 :=
  { varType := TypeID.other 7, nowIndex := 1 }

/-- A coefficient that is looked up in the bag, with default `1`. -/
def coefLookup : Coefficient :=
  { forceDefault := false, defaultCoefficient := 1 }

/-- An equation with one forced coefficient and one coefficient whose type is
    absent from the bag. -/
def eqLookup : Equation 2 :=
  { header := { typeValueData := bagAB, indTerm := TypeID.prefitC, constWeight := 1 },
    body := [ ({ varType := TypeID.other 0, nowIndex := 0 }, { forceDefault := true, defaultCoefficient := 1 }),
              (varAbsent, coefLookup) ] }

/-- The equation `z = 5, w = 1, G = [1]` over a single unknown. -/
def eqNew : Equation 1 :=
  { header := { typeValueData := bagAB, indTerm := TypeID.prefitC, constWeight := 1 },
    body := [ ({ varType := TypeID.other 0, nowIndex := 0 }, { forceDefault := true, defaultCoefficient := 1 }) ] }

/-- The equation `z = 5, w = 1` over the unknown `A` (index 0) alone. -/
def eqA : Equation 2 :=
  { header := { typeValueData := bagAB, indTerm := TypeID.prefitC, constWeight := 1 },
    body := [ ({ varType := TypeID.other 0, nowIndex := 0 }, { forceDefault := true, defaultCoefficient := 1 }) ] }

/-- The equation `z = 7, w = 2·4` over the unknown `B` (index 1) alone. -/
def eqB : Equation 2 :=
  { header := headerL,
    body := [ ({ varType := TypeID.other 1, nowIndex := 1 }, { forceDefault := true, defaultCoefficient := 1 }) ] }

/-- An equation whose independent-term type has no entry in its bag. -/
def eqUnresolved : Equation 2 :=
  { header := { typeValueData := bagAB, indTerm := TypeID.prefitL, constWeight := 1 },
    body := [ ({ varType := TypeID.other 0, nowIndex := 0 }, { forceDefault := true, defaultCoefficient := 1 }) ] }

/-- An equation that references no unknown. -/
def eqEmpty : Equation 2 :=
  { header := { typeValueData := bagAB, indTerm := TypeID.prefitC, constWeight := 1 },
    body := [] }

/-- A State Store holding one unknown from an earlier epoch. -/
def storeOld : StateStore :=
  { numUnknowns := 1, stateVector := (fun _ => 3), covarMatrix := (fun _ _ => 2),
    variableSet := [ { varType := TypeID.other 0, nowIndex := 0 } ] }

/-- The members of the object before a call. -/
def membersAB : LoopState 2 :=
  { times := 7, xhat := (fun _ => 0), P := priorAB, postfitResiduals := [],
    equSystem := { currentUnknowns := [], equList := [] } }

/-- An equation over one unknown with coefficient `0`, base weight `w`,
    independent term `z`, belonging to the pair (`source`, `sat`). -/
def eqPlain (w z : ℚ) (source sat : Nat) : Equation 1 :=
  { header := { typeValueData := (fun t => if t = TypeID.other 9 then some z else none),
                indTerm := TypeID.other 9, constWeight := w,
                equationSource := source, equationSat := sat },
    body := [ ({ varType := TypeID.other 0, nowIndex := 0 }, { forceDefault := true, defaultCoefficient := 0 }) ] }

/-- A stand-in for `std::sqrt` that is exact on `0`, `1`, `4` and `9`. -/
def sqrtTable : ℚ → ℚ :=
  fun y => if y = 1 then 1 else if y = 4 then 2 else if y = 9 then 3 else 0

/-- Ten equations of source `1`: the first two belong to satellite `1`, the
    others to the satellites `2` to `9`; the first has the independent term `3`,
    all others `0`. -/
def eqsOutlier : List (Equation 1) :=
  [eqPlain 1 3 1 1, eqPlain 1 0 1 1, eqPlain 1 0 1 2, eqPlain 1 0 1 3, eqPlain 1 0 1 4,
   eqPlain 1 0 1 5, eqPlain 1 0 1 6, eqPlain 1 0 1 7, eqPlain 1 0 1 8, eqPlain 1 0 1 9]

/-- The residuals of `eqsOutlier` after a pass from `x = [0]`. -/
def resOutlier : List ℚ :=
  [3, 0, 0, 0, 0, 0, 0, 0, 0, 0]

/-- A bag without entries. -/
def bagNone : typeValueMap :=
  fun _ => none

/-- A data map with one epoch and one source holding the satellites `1` to `5`. -/
def gdsOne : gnssDataMap :=
  [(0, [(1, [(1, bagNone), (2, bagNone), (3, bagNone), (4, bagNone), (5, bagNone)])])]

/-! ## Concrete inputs for the State Store read, the filter and the time conversions -/

/-- The unknowns `A` and `B` of the first epoch, both with default variance
    `10000`. -/
def unknownsAB : Fin 2 → Unknown :=
  fun i => { ident := (i.val, 0), defaultVariance := 10000 }

/-- The stored covariance map before the first epoch: nothing is found. -/
def storedNone : covarianceMap :=
  fun _ => none

/-- A stored covariance map that holds the unknown `A` only, with variance `2`. -/
def storedA : covarianceMap :=
  fun u => if u = (0, 0) then some (fun _ => 2) else none

/-- A range check accepting the values between `0` and `10`. -/
def checkRange : ℚ → Bool :=
  fun v => decide (0 ≤ v ∧ v ≤ 10)

/-- Two satellites: satellite `1` holds the code prefit `5` only, satellite `2`
    holds no value at all. -/
def gDataTwo : satTypeValueMap :=
  [(1, bagAB), (2, bagNone)]

/-- The GPS instant `s` seconds after 01-JUL-1993 00:00:00. -/
def gpsInstant (s : ℚ) : ReferenceSystem.CommonTime :=
  { seconds := s, timeSystem := TimeSystem.GPS }

/-- The UTC instant `s` seconds after 01-JUL-1993 00:00:00. -/
def utcInstant (s : ℚ) : ReferenceSystem.CommonTime :=
  { seconds := s, timeSystem := TimeSystem.UTC }

/-- A default-constructed `IonoCorr`: type `Unknown`, parameters `0`. -/
def ionoDefault : IonoCorr :=
  { type := CorrType.Unknown, param := fun _ => 0 }

/-- An `IonoCorr` of type `GPSA`. -/
def ionoGPSA : IonoCorr :=
  { type := CorrType.GPSA, param := fun _ => 0 }

/-- The name of `GPSA` in lower case. -/
def lowerGPSA : String := "gpsa"

theorem foldl_add_eq_sum {α : Type} (f : α → ℚ) (l : List α) (a : ℚ) :
    l.foldl (fun acc p => acc + f p) a = a + (l.map f).sum := by
  induction l generalizing a with
  | nil => simp
  | cons p l ih => simp [List.foldl_cons, ih, add_assoc]

theorem sum_mul_accRow {n : Nat} (f : Fin n → ℚ) (ig : List (Fin n × ℚ)) :
    (ig.map (fun p => f p.1 * p.2)).sum = ∑ k, f k * accRow ig k := by
  induction ig with
  | nil => simp [accRow]
  | cons p ig ih =>
    have hstep : ∀ k, accRow (p :: ig) k = (if p.1 = k then p.2 else 0) + accRow ig k := by
      intro k; simp [accRow]
    simp only [List.map_cons, List.sum_cons, ih, hstep, mul_add, Finset.sum_add_distrib]
    simp

theorem computeM_eq_mulVec {n : Nat} (P : Fin n → Fin n → ℚ) (ig : List (Fin n × ℚ)) :
    computeM P ig = Matrix.mulVec (Matrix.of P) (accRow ig) := by
  funext i
  simp only [computeM, foldl_add_eq_sum, zero_add, Matrix.mulVec, Matrix.dotProduct, Matrix.of_apply]
  exact sum_mul_accRow (fun k => P i k) ig

theorem computeDotGM_eq_dotProduct {n : Nat} (M : Fin n → ℚ) (ig : List (Fin n × ℚ)) :
    computeDotGM M ig = Matrix.dotProduct (accRow ig) M := by
  simp only [computeDotGM, foldl_add_eq_sum, zero_add, Matrix.dotProduct]
  rw [show (fun p : Fin n × ℚ => p.2 * M p.1) = (fun p => M p.1 * p.2) from
    funext (fun p => mul_comm _ _), sum_mul_accRow]
  exact Finset.sum_congr rfl (fun k _ => mul_comm _ _)

theorem computeDotGX_eq_dotProduct {n : Nat} (x : Fin n → ℚ) (ig : List (Fin n × ℚ)) :
    computeDotGX x ig = Matrix.dotProduct (accRow ig) x :=
  computeDotGM_eq_dotProduct x ig

theorem accRow_eq_zero {n : Nat} (ig : List (Fin n × ℚ)) (k : Fin n)
    (hk : ∀ p ∈ ig, p.1 ≠ k) : accRow ig k = 0 := by
  unfold accRow
  apply List.sum_eq_zero
  intro y hy
  obtain ⟨p, hp, rfl⟩ := List.mem_map.mp hy
  simp [hk p hp]

theorem accRow_of_mem {n : Nat} (ig : List (Fin n × ℚ)) (hnd : (ig.map Prod.fst).Nodup)
    (q : Fin n × ℚ) (hq : q ∈ ig) : accRow ig q.1 = q.2 := by
  induction ig with
  | nil => simp at hq
  | cons p ig ih =>
    have hnd1 : (ig.map Prod.fst).Nodup := (List.nodup_cons.mp hnd).2
    have hp : p.1 ∉ ig.map Prod.fst := (List.nodup_cons.mp hnd).1
    have hstep : accRow (p :: ig) q.1 = (if p.1 = q.1 then p.2 else 0) + accRow ig q.1 := by
      simp [accRow]
    rw [hstep]
    rcases List.mem_cons.mp hq with hqp | hqi
    · subst hqp
      have h0 : accRow ig q.1 = 0 :=
        accRow_eq_zero ig q.1 (fun r hr hrq => hp (hrq ▸ List.mem_map_of_mem Prod.fst hr))
      simp [h0]
    · have hne : p.1 ≠ q.1 := fun h => hp (h ▸ List.mem_map_of_mem Prod.fst hqi)
      simp [hne, ih hnd1 hqi]

theorem accRow_eq_of_isFullRow {n : Nat} (ig : List (Fin n × ℚ)) (h : Fin n → ℚ)
    (hnd : (ig.map Prod.fst).Nodup) (hh : IsFullRow ig h) : accRow ig = h := by
  funext k
  by_cases hk : ∃ p ∈ ig, p.1 = k
  · obtain ⟨p, hp, rfl⟩ := hk
    rw [accRow_of_mem ig hnd p hp, hh.1 p hp]
  · have hk1 : ∀ p ∈ ig, p.1 ≠ k := fun p hp hpk => hk ⟨p, hp, hpk⟩
    rw [accRow_eq_zero ig k hk1, hh.2 k hk1]

theorem foldl_update_of_not_mem {n : Nat} (ig : List (Fin n × ℚ)) (h0 : Fin n → ℚ) (k : Fin n)
    (hk : ∀ p ∈ ig, p.1 ≠ k) :
    ig.foldl (fun h p => Function.update h p.1 p.2) h0 k = h0 k := by
  induction ig generalizing h0 with
  | nil => rfl
  | cons p ig ih =>
    rw [List.foldl_cons, ih _ (fun q hq => hk q (List.mem_cons_of_mem _ hq))]
    exact Function.update_noteq (hk p (List.mem_cons_self _ _)).symm _ _

theorem foldl_update_of_mem {n : Nat} (ig : List (Fin n × ℚ)) (h0 : Fin n → ℚ)
    (hnd : (ig.map Prod.fst).Nodup) (q : Fin n × ℚ) (hq : q ∈ ig) :
    ig.foldl (fun h p => Function.update h p.1 p.2) h0 q.1 = q.2 := by
  induction ig generalizing h0 with
  | nil => simp at hq
  | cons p ig ih =>
    have hnd1 : (ig.map Prod.fst).Nodup := (List.nodup_cons.mp hnd).2
    have hp : p.1 ∉ ig.map Prod.fst := (List.nodup_cons.mp hnd).1
    rw [List.foldl_cons]
    rcases List.mem_cons.mp hq with hqp | hqi
    · subst hqp
      rw [foldl_update_of_not_mem ig _ q.1
        (fun r hr hrq => hp (hrq ▸ List.mem_map_of_mem Prod.fst hr))]
      exact Function.update_same _ _ _
    · exact ih _ hnd1 hqi

theorem hRow_eq_foldl {n : Nat} (eq : Equation n) (h0 : Fin n → ℚ) :
    hRow eq h0 = (indexG eq).foldl (fun h p => Function.update h p.1 p.2) h0 := by
  simp [hRow, indexG, List.foldl_map]

theorem hRow_isFullRow {n : Nat} (eq : Equation n)
    (hnd : ((indexG eq).map Prod.fst).Nodup) : IsFullRow (indexG eq) (hRow eq (fun _ => 0)) := by
  rw [hRow_eq_foldl]
  exact ⟨fun p hp => foldl_update_of_mem _ _ hnd p hp,
    fun k hk => foldl_update_of_not_mem _ _ k hk⟩

theorem indexG_map_fst {n : Nat} (eq : Equation n) :
    (indexG eq).map Prod.fst = eq.body.map (fun vc => vc.1.nowIndex) := by
  simp [indexG, List.map_map, Function.comp_def]

theorem foldl_covarCell_apply {n : Nat} (K M : Fin n → ℚ) (i : Fin n) (js : List (Fin n))
    (hnd : js.Nodup) (hi : ∀ j ∈ js, j ≠ i) (P : Fin n → Fin n → ℚ) (a b : Fin n) :
    js.foldl (covarCell K M i) P a b =
      if a = i ∧ b ∈ js then P i b - K i * M b
      else if b = i ∧ a ∈ js then P i a - K i * M a
      else P a b := by
  induction js generalizing P with
  | nil => simp
  | cons j js ih =>
    have hnd1 : js.Nodup := (List.nodup_cons.mp hnd).2
    have hj : j ∉ js := (List.nodup_cons.mp hnd).1
    have hji : j ≠ i := hi j (List.mem_cons_self _ _)
    have hi1 : ∀ k ∈ js, k ≠ i := fun k hk => hi k (List.mem_cons_of_mem _ hk)
    rw [List.foldl_cons, ih hnd1 hi1]
    have hread : ∀ c, c ∈ js → covarCell K M i P j i c = P i c := by
      intro c hc
      have hcj : c ≠ j := fun h => hj (h ▸ hc)
      have hci : c ≠ i := hi1 c hc
      simp [covarCell, setCell, hcj, hci, hji.symm]
    by_cases ha : a = i
    · subst ha
      by_cases hb : b ∈ js
      · simp [hb, hread b hb]
      · by_cases hbj : b = j
        · subst hbj
          simp [hb, covarCell, setCell, hji]
        · have hba : ¬ (b = a ∧ a ∈ js) := fun h => hi1 a h.2 rfl
          simp [hb, hbj, covarCell, setCell, hji.symm, hba]
    · by_cases hb : b = i
      · subst hb
        by_cases haj : a ∈ js
        · simp [ha, haj, hread a haj]
        · by_cases haj2 : a = j
          · subst haj2
            simp [ha, haj, covarCell, setCell]
          · simp [ha, haj, haj2, covarCell, setCell]
      · simp [ha, hb, covarCell, setCell]


theorem covarOuter_apply {n : Nat} (K M : Fin n → ℚ) (P : Fin n → Fin n → ℚ) (i a b : Fin n) :
    covarOuter K M P i a b =
      if a = i ∧ b = i then P i i - K i * M i
      else if a = i ∧ i < b then P i b - K i * M b
      else if b = i ∧ i < a then P i a - K i * M a
      else P a b := by
  unfold covarOuter
  rw [foldl_covarCell_apply K M i _ ((List.nodup_finRange n).filter _)
    (by intro j hj; simp at hj; exact (ne_of_lt hj).symm)]
  simp only [List.mem_filter, List.mem_finRange, true_and, decide_eq_true_eq]
  by_cases ha : a = i
  · by_cases hb : b = i
    · subst ha; subst hb; simp [setCell]
    · by_cases hlt : i < b
      · have : ¬ (i = i ∧ b = i) := fun h => hb h.2
        simp [ha, hb, hlt, setCell]
      · simp [ha, hb, hlt, setCell]
  · by_cases hb : b = i
    · by_cases hlt : i < a
      · simp [ha, hb, hlt, setCell]
      · simp [ha, hb, hlt, setCell]
    · simp [ha, hb, setCell]

theorem foldl_covarOuter_apply {n : Nat} (K M : Fin n → ℚ) (is : List (Fin n))
    (hnd : is.Nodup) (P : Fin n → Fin n → ℚ) (a b : Fin n) :
    is.foldl (covarOuter K M) P a b =
      if a = b then (if a ∈ is then P a a - K a * M a else P a a)
      else if a < b then (if a ∈ is then P a b - K a * M b else P a b)
      else (if b ∈ is then P b a - K b * M a else P a b) := by
  induction is generalizing P with
  | nil =>
    by_cases hab : a = b
    · subst hab; simp
    · simp [hab]
  | cons i is ih =>
    have hnd1 : is.Nodup := (List.nodup_cons.mp hnd).2
    have hi : i ∉ is := (List.nodup_cons.mp hnd).1
    rw [List.foldl_cons, ih hnd1]
    simp only [covarOuter_apply, List.mem_cons]
    rcases lt_trichotomy a b with hab | hab | hab
    · have hne : a ≠ b := ne_of_lt hab
      by_cases ha : a ∈ is
      · have hai : a ≠ i := fun h => hi (h ▸ ha)
        have hbi : ¬ (b = i ∧ i < a) := fun h => absurd (h.1 ▸ hab) (not_lt_of_gt h.2)
        simp [hne, hab, ha, hai, hbi]
      · by_cases hai : a = i
        · subst hai
          simp [hne, hab, ha, hne.symm]
        · have hbi : ¬ (b = i ∧ i < a) := fun h => absurd (h.1 ▸ hab) (not_lt_of_gt h.2)
          simp [hne, hab, ha, hai, hbi]
    · subst hab
      by_cases ha : a ∈ is
      · have hai : a ≠ i := fun h => hi (h ▸ ha)
        simp [ha, hai]
      · by_cases hai : a = i
        · subst hai; simp [ha]
        · simp [ha, hai]
    · have hne : a ≠ b := ne_of_gt hab
      have hnlt : ¬ a < b := not_lt_of_gt hab
      by_cases hb : b ∈ is
      · have hbi : b ≠ i := fun h => hi (h ▸ hb)
        have hai : ¬ (a = i ∧ i < b) := fun h => absurd (h.1 ▸ hab) (not_lt_of_gt h.2)
        simp [hne, hnlt, hb, hbi, hai]
      · by_cases hbi : b = i
        · subst hbi
          simp [hne, hnlt, hb, hab]
        · have hai : ¬ (a = i ∧ i < b) := fun h => absurd (h.1 ▸ hab) (not_lt_of_gt h.2)
          simp [hne, hnlt, hb, hbi, hai]

theorem covarUpdate_apply {n : Nat} (K M : Fin n → ℚ) (P : Fin n → Fin n → ℚ) (a b : Fin n) :
    covarUpdate K M P a b =
      if a = b then P a a - K a * M a
      else if a < b then P a b - K a * M b
      else P b a - K b * M a := by
  unfold covarUpdate
  rw [foldl_covarOuter_apply K M _ (List.nodup_finRange n)]
  simp

theorem covarUpdate_symmetric {n : Nat} (K M : Fin n → ℚ) (P : Fin n → Fin n → ℚ) :
    IsSymmetric (covarUpdate K M P) := by
  intro a b
  rw [covarUpdate_apply, covarUpdate_apply]
  rcases lt_trichotomy a b with hab | hab | hab
  · simp [ne_of_lt hab, (ne_of_lt hab).symm, hab, not_lt_of_gt hab]
  · subst hab; rfl
  · simp [ne_of_gt hab, (ne_of_gt hab).symm, hab, not_lt_of_gt hab]

theorem covarUpdate_of_symmetric {n : Nat} (K M : Fin n → ℚ) (P : Fin n → Fin n → ℚ)
    (hs : IsSymmetric P) (hKM : ∀ a b, K a * M b = K b * M a) (a b : Fin n) :
    covarUpdate K M P a b = P a b - K a * M b := by
  rw [covarUpdate_apply]
  rcases lt_trichotomy a b with hab | hab | hab
  · simp [ne_of_lt hab, hab]
  · subst hab; simp
  · simp [ne_of_gt hab, not_lt_of_gt hab, hs a b, hKM a b]

theorem rowUpdate_symmetric {n : Nat} (eq : Equation n) (z : ℚ)
    (xP : (Fin n → ℚ) × (Fin n → Fin n → ℚ)) : IsSymmetric (rowUpdate eq z xP).2 :=
  covarUpdate_symmetric _ _ _

theorem foldl_rowUpdate_symmetric {n : Nat} (eqs : List (Equation n)) (z : Equation n → ℚ)
    (xP : (Fin n → ℚ) × (Fin n → Fin n → ℚ)) (h0 : eqs ≠ [] ∨ IsSymmetric xP.2) :
    IsSymmetric (eqs.foldl (fun t e => rowUpdate e (z e) t) xP).2 := by
  induction eqs generalizing xP with
  | nil =>
    rcases h0 with h | h
    · exact absurd rfl h
    · exact h
  | cons e eqs ih =>
    rw [List.foldl_cons]
    exact ih _ (Or.inr (rowUpdate_symmetric e (z e) xP))

/-! ## The pass as a whole -/

theorem processRow_of_some {n : Nat} (eq : Equation n) (s : PassState n) (z : ℚ)
    (hz : eq.header.typeValueData eq.header.indTerm = some z) :
    processRow eq s = Except.ok (applyRow eq z s) := by
  simp [processRow, typeValueMap.getValue, hz]

theorem processRow_of_none {n : Nat} (eq : Equation n) (s : PassState n)
    (hz : eq.header.typeValueData eq.header.indTerm = none) :
    processRow eq s = Except.error Exception.TypeIDNotFound := by
  simp [processRow, typeValueMap.getValue, hz]

theorem applyRow_xhat_P {n : Nat} (eq : Equation n) (z : ℚ) (s : PassState n) :
    ((applyRow eq z s).xhat, (applyRow eq z s).P) = rowUpdate eq z (s.xhat, s.P) := rfl

theorem rowLoop_of_some {n : Nat} (eqs : List (Equation n)) (z : Equation n → ℚ)
    (hz : ∀ e ∈ eqs, e.header.typeValueData e.header.indTerm = some (z e)) (s : PassState n) :
    rowLoop eqs s = Except.ok (eqs.foldl (fun t e => applyRow e (z e) t) s) := by
  induction eqs generalizing s with
  | nil => rfl
  | cons e eqs ih =>
    rw [rowLoop, processRow_of_some e s (z e) (hz e (List.mem_cons_self _ _))]
    exact ih (fun e1 he1 => hz e1 (List.mem_cons_of_mem _ he1)) _

theorem foldl_applyRow_xhat_P {n : Nat} (eqs : List (Equation n)) (z : Equation n → ℚ)
    (s : PassState n) :
    ((eqs.foldl (fun t e => applyRow e (z e) t) s).xhat,
      (eqs.foldl (fun t e => applyRow e (z e) t) s).P) =
    eqs.foldl (fun xP e => rowUpdate e (z e) xP) (s.xhat, s.P) := by
  induction eqs generalizing s with
  | nil => rfl
  | cons e eqs ih =>
    rw [List.foldl_cons, List.foldl_cons, ih, applyRow_xhat_P]

theorem rowLoop_isSome_of_ok {n : Nat} (eqs : List (Equation n)) (s s1 : PassState n)
    (h : rowLoop eqs s = Except.ok s1) :
    ∀ e ∈ eqs, (e.header.typeValueData e.header.indTerm).isSome = true := by
  induction eqs generalizing s with
  | nil => intro e he; simp at he
  | cons e0 eqs ih =>
    intro e he
    cases hz : e0.header.typeValueData e0.header.indTerm with
    | none =>
      rw [rowLoop, processRow_of_none e0 s hz] at h
      cases h
    | some z0 =>
      rw [rowLoop, processRow_of_some e0 s z0 hz] at h
      rcases List.mem_cons.mp he with rfl | he1
      · simp [hz]
      · exact ih _ h e he1

/-- The outcome of `Process` when the two reads succeed and every independent term
    is present. -/
theorem Process_of_some {n : Nat} (getStateVector : VariableSet n → Except Exception (Fin n → ℚ))
    (getCovarMatrix : VariableSet n → Except Exception (Fin n → Fin n → ℚ))
    (sys : EquationSystem n) (x0 : Fin n → ℚ) (P0 : Fin n → Fin n → ℚ) (z : Equation n → ℚ)
    (hx : getStateVector sys.currentUnknowns = Except.ok x0)
    (hP : getCovarMatrix sys.currentUnknowns = Except.ok P0)
    (hz : ∀ e ∈ sys.equList, e.header.typeValueData e.header.indTerm = some (z e)) :
    ∃ r, Process getStateVector getCovarMatrix sys = Except.ok r ∧
      r.store =
        { numUnknowns := n,
          stateVector := (sys.equList.foldl (fun xP e => rowUpdate e (z e) xP) (x0, P0)).1,
          covarMatrix := (sys.equList.foldl (fun xP e => rowUpdate e (z e) xP) (x0, P0)).2,
          variableSet := sys.currentUnknowns } := by
  have h := foldl_applyRow_xhat_P sys.equList z
    { xhat := x0, P := P0, M := fun _ => 0, K := fun _ => 0,
      hMatrix := fun _ _ => 0, prefitResiduals := fun _ => 0, row := 0 }
  simp only [Process, hx, hP, rowLoop_of_some sys.equList z hz, ← h]
  exact ⟨_, rfl, rfl⟩

theorem Process_isSome_of_ok {n : Nat}
    (getStateVector : VariableSet n → Except Exception (Fin n → ℚ))
    (getCovarMatrix : VariableSet n → Except Exception (Fin n → Fin n → ℚ))
    (sys : EquationSystem n) (r : ProcessResult)
    (hr : Process getStateVector getCovarMatrix sys = Except.ok r) :
    ∀ e ∈ sys.equList, (e.header.typeValueData e.header.indTerm).isSome = true := by
  unfold Process at hr
  cases hx : getStateVector sys.currentUnknowns with
  | error u => simp [hx] at hr
  | ok x0 =>
    cases hP : getCovarMatrix sys.currentUnknowns with
    | error u => simp [hx, hP] at hr
    | ok P0 =>
      simp only [hx, hP] at hr
      split at hr
      · cases hr
      · next s1 hl => exact rowLoop_isSome_of_ok _ _ _ hl

/-! ## The update in matrix form -/

theorem rowUpdate_eq_kalmanRow {n : Nat} (eq : Equation n) (z : ℚ) (x : Fin n → ℚ)
    (P : Fin n → Fin n → ℚ) (hs : IsSymmetric P) :
    rowUpdate eq z (x, P) =
      kalmanRow (effectiveWeight eq.header) z (accRow (indexG eq)) (x, P) := by
  unfold rowUpdate kalmanRow
  simp only [computeM_eq_mulVec, computeDotGM_eq_dotProduct, computeDotGX_eq_dotProduct]
  refine Prod.ext rfl ?_
  funext i j
  exact covarUpdate_of_symmetric _ _ _ hs (fun a b => by ring) i j

theorem mulVec_sub_outer {n : Nat} (P : Fin n → Fin n → ℚ) (K M h : Fin n → ℚ) :
    Matrix.mulVec (Matrix.of (fun i j => P i j - K i * M j)) h =
      fun i => Matrix.mulVec (Matrix.of P) h i - K i * Matrix.dotProduct M h := by
  funext i
  simp only [Matrix.mulVec, Matrix.dotProduct, Matrix.of_apply, sub_mul, Finset.sum_sub_distrib,
    Finset.mul_sum, mul_assoc]

theorem dotProduct_sub_mul {n : Nat} (h u a : Fin n → ℚ) (c : ℚ) :
    Matrix.dotProduct h (fun i => u i - a i * c) =
      Matrix.dotProduct h u - Matrix.dotProduct h a * c := by
  simp only [Matrix.dotProduct, mul_sub, Finset.sum_sub_distrib, Finset.sum_mul, mul_assoc]

theorem dotProduct_add_mul {n : Nat} (h u a : Fin n → ℚ) (c : ℚ) :
    Matrix.dotProduct h (fun i => u i + a i * c) =
      Matrix.dotProduct h u + Matrix.dotProduct h a * c := by
  simp only [Matrix.dotProduct, mul_add, Finset.sum_add_distrib, Finset.sum_mul, mul_assoc]

theorem dotProduct_mulVec_symm {n : Nat} (P : Fin n → Fin n → ℚ) (hs : IsSymmetric P)
    (u v : Fin n → ℚ) :
    Matrix.dotProduct u (Matrix.mulVec (Matrix.of P) v) =
      Matrix.dotProduct v (Matrix.mulVec (Matrix.of P) u) := by
  simp only [Matrix.dotProduct, Matrix.mulVec, Matrix.of_apply, Finset.mul_sum]
  rw [Finset.sum_comm]
  refine Finset.sum_congr rfl (fun i _ => Finset.sum_congr rfl (fun j _ => ?_))
  rw [hs j i]
  ring

theorem posSemidef_cauchy_schwarz {n : Nat} (P : Fin n → Fin n → ℚ) (hP : IsPosSemidef P)
    (u v : Fin n → ℚ) :
    Matrix.dotProduct u (Matrix.mulVec (Matrix.of P) v) ^ 2 ≤
      Matrix.dotProduct u (Matrix.mulVec (Matrix.of P) u) *
        Matrix.dotProduct v (Matrix.mulVec (Matrix.of P) v) := by
  have hsym := dotProduct_mulVec_symm P hP.1 v u
  have hq : ∀ t : ℚ, 0 ≤ Matrix.dotProduct u (Matrix.mulVec (Matrix.of P) u) * (t * t) +
      (2 * Matrix.dotProduct u (Matrix.mulVec (Matrix.of P) v)) * t +
      Matrix.dotProduct v (Matrix.mulVec (Matrix.of P) v) := by
    intro t
    have h := hP.2 (t • u + v)
    simp only [Matrix.mulVec_add, Matrix.mulVec_smul, Matrix.dotProduct_add,
      Matrix.add_dotProduct, Matrix.smul_dotProduct, Matrix.dotProduct_smul, smul_eq_mul,
      hsym] at h
    linarith
  have hd := discrim_le_zero hq
  unfold discrim at hd
  nlinarith

theorem kalmanRow_beta_pos {n : Nat} (P : Fin n → Fin n → ℚ) (hP : IsPosSemidef P)
    (w : ℚ) (hw : 0 < w) (h : Fin n → ℚ) :
    0 < 1 / w + Matrix.dotProduct h (Matrix.mulVec (Matrix.of P) h) := by
  have h1 : 0 < 1 / w := one_div_pos.mpr hw
  have h2 := hP.2 h
  linarith

theorem kalmanRow_posSemidef {n : Nat} (w z : ℚ) (hw : 0 < w) (h x : Fin n → ℚ)
    (P : Fin n → Fin n → ℚ) (hP : IsPosSemidef P) :
    IsPosSemidef (kalmanRow w z h (x, P)).2 := by
  have hb := kalmanRow_beta_pos P hP w hw h
  constructor
  · intro i j
    simp only [kalmanRow]
    rw [hP.1 i j]
    ring
  · intro v
    simp only [kalmanRow]
    rw [mulVec_sub_outer, dotProduct_sub_mul]
    have hcs := posSemidef_cauchy_schwarz P hP v h
    have hvv := hP.2 v
    have hhh := hP.2 h
    have hsym := dotProduct_mulVec_symm P hP.1 h v
    set s := Matrix.dotProduct h (Matrix.mulVec (Matrix.of P) h) with hs
    set q := Matrix.dotProduct v (Matrix.mulVec (Matrix.of P) v) with hq
    set c := Matrix.dotProduct v (Matrix.mulVec (Matrix.of P) h) with hc
    have e1 : Matrix.dotProduct v (fun i => Matrix.mulVec (Matrix.of P) h i / (1 / w + s)) =
        c / (1 / w + s) := by
      simp only [Matrix.dotProduct, hc, Finset.sum_div, mul_div_assoc]
    have e2 : Matrix.dotProduct (Matrix.mulVec (Matrix.of P) h) v = c := by
      rw [Matrix.dotProduct_comm]
    rw [e1, e2]
    have h3 : c / (1 / w + s) * c = c ^ 2 / (1 / w + s) := by ring
    rw [h3, sub_nonneg, div_le_iff₀ hb]
    have h1 : 0 < 1 / w := one_div_pos.mpr hw
    nlinarith

theorem comm_algebra_state (xi ai bi b1 b2 s r1 r2 : ℚ) (h1 : b1 ≠ 0) (h2 : b2 ≠ 0)
    (hD : b1 * b2 - s ^ 2 ≠ 0) :
    xi + ai / b1 * r1 + (bi - ai / b1 * s) / (b2 - s / b1 * s) * (r2 - s / b1 * r1) =
      xi + bi / b2 * r2 + (ai - bi / b2 * s) / (b1 - s / b2 * s) * (r1 - s / b2 * r2) := by
  have e1 : b2 - s / b1 * s = (b1 * b2 - s ^ 2) / b1 := by field_simp; ring
  have e2 : b1 - s / b2 * s = (b1 * b2 - s ^ 2) / b2 := by field_simp; ring
  rw [e1, e2]
  field_simp
  ring

theorem comm_algebra_covar (p ai aj bi bj b1 b2 s : ℚ) (h1 : b1 ≠ 0) (h2 : b2 ≠ 0)
    (hD : b1 * b2 - s ^ 2 ≠ 0) :
    p - ai / b1 * aj - (bi - ai / b1 * s) / (b2 - s / b1 * s) * (bj - aj / b1 * s) =
      p - bi / b2 * bj - (ai - bi / b2 * s) / (b1 - s / b2 * s) * (aj - bj / b2 * s) := by
  have e1 : b2 - s / b1 * s = (b1 * b2 - s ^ 2) / b1 := by field_simp; ring
  have e2 : b1 - s / b2 * s = (b1 * b2 - s ^ 2) / b2 := by field_simp; ring
  rw [e1, e2]
  field_simp
  ring

/-- Two Kalman rows applied one after the other, in closed form. -/
theorem kalmanRow_kalmanRow {n : Nat} (w1 z1 w2 z2 : ℚ) (h1 h2 x : Fin n → ℚ)
    (P : Fin n → Fin n → ℚ) (hs : IsSymmetric P) :
    kalmanRow w2 z2 h2 (kalmanRow w1 z1 h1 (x, P)) =
      (fun i =>
        x i + Matrix.mulVec (Matrix.of P) h1 i /
              (1 / w1 + Matrix.dotProduct h1 (Matrix.mulVec (Matrix.of P) h1)) *
            (z1 - Matrix.dotProduct h1 x) +
          (Matrix.mulVec (Matrix.of P) h2 i -
              Matrix.mulVec (Matrix.of P) h1 i /
                  (1 / w1 + Matrix.dotProduct h1 (Matrix.mulVec (Matrix.of P) h1)) *
                Matrix.dotProduct h1 (Matrix.mulVec (Matrix.of P) h2)) /
            ((1 / w2 + Matrix.dotProduct h2 (Matrix.mulVec (Matrix.of P) h2)) -
              Matrix.dotProduct h1 (Matrix.mulVec (Matrix.of P) h2) /
                  (1 / w1 + Matrix.dotProduct h1 (Matrix.mulVec (Matrix.of P) h1)) *
                Matrix.dotProduct h1 (Matrix.mulVec (Matrix.of P) h2)) *
            ((z2 - Matrix.dotProduct h2 x) -
              Matrix.dotProduct h1 (Matrix.mulVec (Matrix.of P) h2) /
                  (1 / w1 + Matrix.dotProduct h1 (Matrix.mulVec (Matrix.of P) h1)) *
                (z1 - Matrix.dotProduct h1 x)),
       fun i j =>
        P i j -
          Matrix.mulVec (Matrix.of P) h1 i /
              (1 / w1 + Matrix.dotProduct h1 (Matrix.mulVec (Matrix.of P) h1)) *
            Matrix.mulVec (Matrix.of P) h1 j -
          (Matrix.mulVec (Matrix.of P) h2 i -
              Matrix.mulVec (Matrix.of P) h1 i /
                  (1 / w1 + Matrix.dotProduct h1 (Matrix.mulVec (Matrix.of P) h1)) *
                Matrix.dotProduct h1 (Matrix.mulVec (Matrix.of P) h2)) /
            ((1 / w2 + Matrix.dotProduct h2 (Matrix.mulVec (Matrix.of P) h2)) -
              Matrix.dotProduct h1 (Matrix.mulVec (Matrix.of P) h2) /
                  (1 / w1 + Matrix.dotProduct h1 (Matrix.mulVec (Matrix.of P) h1)) *
                Matrix.dotProduct h1 (Matrix.mulVec (Matrix.of P) h2)) *
            (Matrix.mulVec (Matrix.of P) h2 j -
              Matrix.mulVec (Matrix.of P) h1 j /
                  (1 / w1 + Matrix.dotProduct h1 (Matrix.mulVec (Matrix.of P) h1)) *
                Matrix.dotProduct h1 (Matrix.mulVec (Matrix.of P) h2))) := by
  have hsym := dotProduct_mulVec_symm P hs h2 h1
  have ea : Matrix.dotProduct (Matrix.mulVec (Matrix.of P) h1) h2 =
      Matrix.dotProduct h1 (Matrix.mulVec (Matrix.of P) h2) := by
    rw [Matrix.dotProduct_comm, hsym]
  have ediv : ∀ c : ℚ, Matrix.dotProduct h2 (fun i => Matrix.mulVec (Matrix.of P) h1 i / c) =
      Matrix.dotProduct h1 (Matrix.mulVec (Matrix.of P) h2) / c := by
    intro c
    rw [← hsym]
    simp only [Matrix.dotProduct, Finset.sum_div, mul_div_assoc]
  simp only [kalmanRow]
  rw [mulVec_sub_outer, dotProduct_sub_mul, dotProduct_add_mul, ediv, ea]
  refine Prod.ext ?_ ?_
  · funext i
    simp only []
    ring
  · funext i j
    simp only []
    ring

theorem kalmanRow_comm {n : Nat} (w1 z1 w2 z2 : ℚ) (hw1 : 0 < w1) (hw2 : 0 < w2)
    (h1 h2 x : Fin n → ℚ) (P : Fin n → Fin n → ℚ) (hP : IsPosSemidef P) :
    kalmanRow w2 z2 h2 (kalmanRow w1 z1 h1 (x, P)) =
      kalmanRow w1 z1 h1 (kalmanRow w2 z2 h2 (x, P)) := by
  rw [kalmanRow_kalmanRow w1 z1 w2 z2 h1 h2 x P hP.1,
    kalmanRow_kalmanRow w2 z2 w1 z1 h2 h1 x P hP.1, dotProduct_mulVec_symm P hP.1 h2 h1]
  have hb1 := kalmanRow_beta_pos P hP w1 hw1 h1
  have hb2 := kalmanRow_beta_pos P hP w2 hw2 h2
  have hcs := posSemidef_cauchy_schwarz P hP h1 h2
  have hq1 := hP.2 h1
  have hq2 := hP.2 h2
  have hi1 : 0 < 1 / w1 := one_div_pos.mpr hw1
  have hi2 : 0 < 1 / w2 := one_div_pos.mpr hw2
  have hD : (1 / w1 + Matrix.dotProduct h1 (Matrix.mulVec (Matrix.of P) h1)) *
      (1 / w2 + Matrix.dotProduct h2 (Matrix.mulVec (Matrix.of P) h2)) -
      Matrix.dotProduct h1 (Matrix.mulVec (Matrix.of P) h2) ^ 2 ≠ 0 := by
    apply ne_of_gt
    nlinarith [mul_pos hi1 hi2, mul_nonneg hi1.le hq2, mul_nonneg hi2.le hq1]
  refine Prod.ext ?_ ?_
  · funext i
    exact comm_algebra_state _ _ _ _ _ _ _ _ (ne_of_gt hb1) (ne_of_gt hb2) hD
  · funext i j
    exact comm_algebra_covar _ _ _ _ _ _ _ _ (ne_of_gt hb1) (ne_of_gt hb2) hD

theorem rowUpdate_posSemidef {n : Nat} (eq : Equation n) (z : ℚ)
    (hw : 0 < effectiveWeight eq.header) (x : Fin n → ℚ)
    (P : Fin n → Fin n → ℚ) (hP : IsPosSemidef P) :
    IsPosSemidef (rowUpdate eq z (x, P)).2 := by
  rw [rowUpdate_eq_kalmanRow eq z x P hP.1]
  exact kalmanRow_posSemidef _ z hw _ x P hP

theorem rowUpdate_comm {n : Nat} (e1 e2 : Equation n) (z1 z2 : ℚ)
    (hw1 : 0 < effectiveWeight e1.header) (hw2 : 0 < effectiveWeight e2.header)
    (x : Fin n → ℚ) (P : Fin n → Fin n → ℚ) (hP : IsPosSemidef P) :
    rowUpdate e2 z2 (rowUpdate e1 z1 (x, P)) = rowUpdate e1 z1 (rowUpdate e2 z2 (x, P)) := by
  have p1 := rowUpdate_posSemidef e1 z1 hw1 x P hP
  have p2 := rowUpdate_posSemidef e2 z2 hw2 x P hP
  have a1 : rowUpdate e2 z2 (rowUpdate e1 z1 (x, P)) =
      kalmanRow (effectiveWeight e2.header) z2 (accRow (indexG e2)) (rowUpdate e1 z1 (x, P)) :=
    rowUpdate_eq_kalmanRow e2 z2 _ _ p1.1
  have a2 : rowUpdate e1 z1 (rowUpdate e2 z2 (x, P)) =
      kalmanRow (effectiveWeight e1.header) z1 (accRow (indexG e1)) (rowUpdate e2 z2 (x, P)) :=
    rowUpdate_eq_kalmanRow e1 z1 _ _ p2.1
  rw [a1, a2, rowUpdate_eq_kalmanRow e1 z1 x P hP.1, rowUpdate_eq_kalmanRow e2 z2 x P hP.1]
  exact kalmanRow_comm _ z1 _ z2 hw1 hw2 _ _ x P hP

theorem foldl_rowUpdate_perm {n : Nat} (l1 l2 : List (Equation n)) (hperm : l1.Perm l2)
    (z : Equation n → ℚ) (hw : ∀ e ∈ l1, 0 < effectiveWeight e.header)
    (x : Fin n → ℚ) (P : Fin n → Fin n → ℚ) (hP : IsPosSemidef P) :
    l1.foldl (fun xP e => rowUpdate e (z e) xP) (x, P) =
      l2.foldl (fun xP e => rowUpdate e (z e) xP) (x, P) := by
  induction hperm generalizing x P with
  | nil => rfl
  | cons e _ ih =>
    simp only [List.foldl_cons]
    have hwe := hw e (List.mem_cons_self _ _)
    have hp := rowUpdate_posSemidef e (z e) hwe x P hP
    exact ih (fun e1 he1 => hw e1 (List.mem_cons_of_mem _ he1)) _ _ hp
  | swap e1 e2 l =>
    simp only [List.foldl_cons]
    have hw1 := hw e1 (List.mem_cons_of_mem _ (List.mem_cons_self _ _))
    have hw2 := hw e2 (List.mem_cons_self _ _)
    rw [rowUpdate_comm e2 e1 (z e2) (z e1) hw2 hw1 x P hP]
  | trans p1 _ ih1 ih2 =>
    rw [ih1 hw x P hP]
    exact ih2 (fun e he => hw e (p1.mem_iff.mpr he)) x P hP

/-! ## The update in information form -/

theorem mul_vecMulVec {n : Nat} (A : Matrix (Fin n) (Fin n) ℚ) (a b : Fin n → ℚ) :
    A * Matrix.vecMulVec a b = Matrix.vecMulVec (Matrix.mulVec A a) b := by
  ext i j
  simp only [Matrix.mul_apply, Matrix.vecMulVec_apply, Matrix.mulVec, Matrix.dotProduct,
    Finset.sum_mul, mul_assoc]

theorem vecMulVec_mul {n : Nat} (a b : Fin n → ℚ) (B : Matrix (Fin n) (Fin n) ℚ) :
    Matrix.vecMulVec a b * B = Matrix.vecMulVec a (Matrix.vecMul b B) := by
  ext i j
  simp only [Matrix.mul_apply, Matrix.vecMulVec_apply, Matrix.vecMul, Matrix.dotProduct,
    Finset.mul_sum, mul_assoc]

theorem vecMulVec_mul_vecMulVec {n : Nat} (a b c d : Fin n → ℚ) :
    Matrix.vecMulVec a b * Matrix.vecMulVec c d =
      Matrix.dotProduct b c • Matrix.vecMulVec a d := by
  ext i j
  simp only [Matrix.mul_apply, Matrix.vecMulVec_apply, Matrix.smul_apply, Matrix.dotProduct,
    smul_eq_mul, Finset.sum_mul, Finset.mul_sum]
  refine Finset.sum_congr rfl (fun k _ => ?_)
  ring

theorem vecMulVec_mulVec {n : Nat} (a b v : Fin n → ℚ) :
    Matrix.mulVec (Matrix.vecMulVec a b) v = Matrix.dotProduct b v • a := by
  funext i
  simp only [Matrix.mulVec, Matrix.vecMulVec_apply, Matrix.dotProduct, Pi.smul_apply,
    smul_eq_mul, Finset.sum_mul, Finset.mul_sum]
  refine Finset.sum_congr rfl (fun k _ => ?_)
  ring

theorem vecMul_of_symmetric {n : Nat} (P : Fin n → Fin n → ℚ) (hs : IsSymmetric P)
    (h : Fin n → ℚ) : Matrix.vecMul h (Matrix.of P) = Matrix.mulVec (Matrix.of P) h := by
  funext j
  simp only [Matrix.vecMul, Matrix.mulVec, Matrix.dotProduct, Matrix.of_apply]
  refine Finset.sum_congr rfl (fun k _ => ?_)
  rw [hs k j]
  ring

theorem kalmanRow_covar_eq {n : Nat} (w z : ℚ) (h x : Fin n → ℚ) (P : Fin n → Fin n → ℚ) :
    Matrix.of (kalmanRow w z h (x, P)).2 =
      Matrix.of P -
        (1 / (1 / w + Matrix.dotProduct h (Matrix.mulVec (Matrix.of P) h))) •
          Matrix.vecMulVec (Matrix.mulVec (Matrix.of P) h) (Matrix.mulVec (Matrix.of P) h) := by
  ext i j
  simp only [kalmanRow, Matrix.of_apply, Matrix.sub_apply, Matrix.smul_apply,
    Matrix.vecMulVec_apply, smul_eq_mul]
  ring

theorem kalmanRow_state_eq {n : Nat} (w z : ℚ) (h x : Fin n → ℚ) (P : Fin n → Fin n → ℚ) :
    (kalmanRow w z h (x, P)).1 =
      x + ((z - Matrix.dotProduct h x) /
          (1 / w + Matrix.dotProduct h (Matrix.mulVec (Matrix.of P) h))) •
        Matrix.mulVec (Matrix.of P) h := by
  funext i
  simp only [kalmanRow, Pi.add_apply, Pi.smul_apply, smul_eq_mul]
  ring

/-- One row in information form: if `A` is the inverse of `P`, then after the row
    `A + w·hᵗh` is the inverse of the new covariance and maps the new estimate
    to `A·x + w·z·hᵗ`. -/
theorem kalmanRow_information {n : Nat} (w z : ℚ) (hw : 0 < w) (h x : Fin n → ℚ)
    (P : Fin n → Fin n → ℚ) (A : Matrix (Fin n) (Fin n) ℚ)
    (hs : IsSymmetric P) (hAP : A * Matrix.of P = 1)
    (hA : ∀ v : Fin n → ℚ, 0 ≤ Matrix.dotProduct v (Matrix.mulVec A v)) :
    (A + w • Matrix.vecMulVec h h) * Matrix.of (kalmanRow w z h (x, P)).2 = 1 ∧
    Matrix.mulVec (A + w • Matrix.vecMulVec h h) (kalmanRow w z h (x, P)).1 =
      Matrix.mulVec A x + (w * z) • h := by
  set u := Matrix.mulVec (Matrix.of P) h with hu
  set s := Matrix.dotProduct h u with hsdef
  have hAu : Matrix.mulVec A u = h := by
    rw [hu, Matrix.mulVec_mulVec, hAP, Matrix.one_mulVec]
  have hs0 : 0 ≤ s := by
    have := hA u
    rw [hAu, Matrix.dotProduct_comm] at this
    exact this
  have hw0 : w ≠ 0 := ne_of_gt hw
  have hb : (1 / w + s) ≠ 0 := by
    have : 0 < 1 / w := one_div_pos.mpr hw
    exact ne_of_gt (by linarith)
  constructor
  · rw [kalmanRow_covar_eq, ← hu, ← hsdef]
    rw [mul_sub, add_mul, hAP, Matrix.mul_smul, add_mul, mul_vecMulVec, hAu,
      Matrix.smul_mul, Matrix.smul_mul, vecMulVec_mul, vecMul_of_symmetric P hs, ← hu,
      vecMulVec_mul_vecMulVec, ← hsdef]
    ext i j
    simp only [Matrix.sub_apply, Matrix.add_apply, Matrix.smul_apply, Matrix.vecMulVec_apply,
      smul_eq_mul]
    field_simp
    ring
  · rw [kalmanRow_state_eq, ← hu, ← hsdef]
    rw [Matrix.mulVec_add, Matrix.add_mulVec, Matrix.add_mulVec, Matrix.mulVec_smul, hAu,
      Matrix.smul_mulVec_assoc, Matrix.smul_mulVec_assoc, vecMulVec_mulVec, vecMulVec_mulVec,
      Matrix.dotProduct_smul, ← hsdef]
    funext i
    simp only [Pi.add_apply, Pi.smul_apply, smul_eq_mul]
    field_simp
    ring

theorem posDef_nonneg {n : Nat} (P : Fin n → Fin n → ℚ) (hP : IsPosDef P) (v : Fin n → ℚ) :
    0 ≤ Matrix.dotProduct v (Matrix.mulVec (Matrix.of P) v) := by
  by_cases hv : v = 0
  · subst hv
    simp
  · exact le_of_lt (hP.2 v hv)

theorem posDef_isUnit_det {n : Nat} (P : Fin n → Fin n → ℚ) (hP : IsPosDef P) :
    IsUnit (Matrix.of P).det := by
  rw [isUnit_iff_ne_zero]
  intro hdet
  obtain ⟨v, hv, hPv⟩ := Matrix.exists_mulVec_eq_zero_iff.mpr hdet
  have h := hP.2 v hv
  rw [hPv] at h
  simp at h

theorem posDef_inv_nonneg {n : Nat} (P : Fin n → Fin n → ℚ) (hP : IsPosDef P)
    (v : Fin n → ℚ) :
    0 ≤ Matrix.dotProduct v (Matrix.mulVec (Matrix.of P)⁻¹ v) := by
  have hu := posDef_isUnit_det P hP
  have hv : v = Matrix.mulVec (Matrix.of P) (Matrix.mulVec (Matrix.of P)⁻¹ v) := by
    rw [Matrix.mulVec_mulVec, Matrix.mul_nonsing_inv _ hu, Matrix.one_mulVec]
  have h := posDef_nonneg P hP (Matrix.mulVec (Matrix.of P)⁻¹ v)
  rw [← hv, Matrix.dotProduct_comm] at h
  exact h

theorem add_outer_nonneg {n : Nat} (A : Matrix (Fin n) (Fin n) ℚ) (w : ℚ) (hw : 0 < w)
    (h : Fin n → ℚ) (hA : ∀ v : Fin n → ℚ, 0 ≤ Matrix.dotProduct v (Matrix.mulVec A v))
    (v : Fin n → ℚ) :
    0 ≤ Matrix.dotProduct v (Matrix.mulVec (A + w • Matrix.vecMulVec h h) v) := by
  rw [Matrix.add_mulVec, Matrix.smul_mulVec_assoc, vecMulVec_mulVec, Matrix.dotProduct_add,
    Matrix.dotProduct_smul, Matrix.dotProduct_smul, Matrix.dotProduct_comm v h]
  have h1 := hA v
  have h2 : 0 ≤ w * (Matrix.dotProduct h v * Matrix.dotProduct h v) :=
    mul_nonneg hw.le (mul_self_nonneg _)
  simp only [smul_eq_mul]
  linarith

/-- The information form is kept along the rows of a pass. -/
theorem foldl_rowUpdate_information {n : Nat} (eqs : List (Equation n)) (z : Equation n → ℚ)
    (hw : ∀ e ∈ eqs, 0 < effectiveWeight e.header)
    (A : Matrix (Fin n) (Fin n) ℚ) (b x : Fin n → ℚ) (P : Fin n → Fin n → ℚ)
    (hs : IsSymmetric P) (hAP : A * Matrix.of P = 1)
    (hA : ∀ v : Fin n → ℚ, 0 ≤ Matrix.dotProduct v (Matrix.mulVec A v))
    (hb : Matrix.mulVec A x = b) :
    (A + (eqs.map (fun e => effectiveWeight e.header •
        Matrix.vecMulVec (accRow (indexG e)) (accRow (indexG e)))).sum) *
      Matrix.of (eqs.foldl (fun xP e => rowUpdate e (z e) xP) (x, P)).2 = 1 ∧
    Matrix.mulVec (A + (eqs.map (fun e => effectiveWeight e.header •
        Matrix.vecMulVec (accRow (indexG e)) (accRow (indexG e)))).sum)
      (eqs.foldl (fun xP e => rowUpdate e (z e) xP) (x, P)).1 =
      b + (eqs.map (fun e => (effectiveWeight e.header * z e) • accRow (indexG e))).sum := by
  induction eqs generalizing A b x P with
  | nil => simpa using ⟨hAP, hb⟩
  | cons e eqs ih =>
    have hwe := hw e (List.mem_cons_self _ _)
    have hstep := kalmanRow_information (effectiveWeight e.header) (z e) hwe
      (accRow (indexG e)) x P A hs hAP hA
    rw [← rowUpdate_eq_kalmanRow e (z e) x P hs] at hstep
    have hs1 : IsSymmetric (rowUpdate e (z e) (x, P)).2 := rowUpdate_symmetric e (z e) (x, P)
    have hA1 := add_outer_nonneg A _ hwe (accRow (indexG e)) hA
    have h := ih (fun e1 he1 => hw e1 (List.mem_cons_of_mem _ he1))
      (A + effectiveWeight e.header • Matrix.vecMulVec (accRow (indexG e)) (accRow (indexG e)))
      (b + (effectiveWeight e.header * z e) • accRow (indexG e))
      (rowUpdate e (z e) (x, P)).1 (rowUpdate e (z e) (x, P)).2 hs1 hstep.1 hA1
      (by rw [hstep.2, hb])
    simp only [List.foldl_cons, List.map_cons, List.sum_cons]
    rw [← add_assoc, ← add_assoc]
    exact h

/-! ## Facts about the concrete inputs -/

theorem priorAB_posSemidef : IsPosSemidef priorAB := by
  constructor
  · intro i j
    simp [priorAB, eq_comm]
  · intro v
    simp only [Matrix.dotProduct, Matrix.mulVec, Matrix.of_apply, Fin.sum_univ_two, priorAB]
    simp
    nlinarith [sq_nonneg (v 0), sq_nonneg (v 1)]

theorem priorAB_posDef : IsPosDef priorAB := by
  constructor
  · intro i j
    simp [priorAB, eq_comm]
  · intro v hv
    simp only [Matrix.dotProduct, Matrix.mulVec, Matrix.of_apply, Fin.sum_univ_two, priorAB]
    simp
    have h01 : v 0 ≠ 0 ∨ v 1 ≠ 0 := by
      by_contra hcon
      push_neg at hcon
      apply hv
      funext i
      fin_cases i
      · exact hcon.1
      · exact hcon.2
    rcases h01 with h | h
    · nlinarith [sq_nonneg (v 1), sq_pos_of_ne_zero h]
    · nlinarith [sq_nonneg (v 0), sq_pos_of_ne_zero h]

/-! ## The residual vector -/

theorem foldl_applyRow_prefit {n : Nat} (eqs : List (Equation n)) (z : Equation n → ℚ)
    (s : PassState n) (r : Nat) :
    (eqs.foldl (fun t e => applyRow e (z e) t) s).prefitResiduals r =
      if s.row ≤ r then
        (match eqs[r - s.row]? with
          | some e => z e
          | none => s.prefitResiduals r)
      else s.prefitResiduals r := by
  induction eqs generalizing s with
  | nil => simp
  | cons e eqs ih =>
    rw [List.foldl_cons, ih]
    have hrow : (applyRow e (z e) s).row = s.row + 1 := rfl
    have hpre : (applyRow e (z e) s).prefitResiduals =
        Function.update s.prefitResiduals s.row (z e) := rfl
    rw [hrow, hpre]
    rcases Nat.lt_trichotomy r s.row with hlt | heq | hgt
    · have h1 : ¬ s.row + 1 ≤ r := by omega
      have h2 : ¬ s.row ≤ r := by omega
      have h3 : r ≠ s.row := by omega
      simp [h1, h2, Function.update_noteq h3]
    · subst heq
      simp
    · have h1 : s.row + 1 ≤ r := by omega
      have h2 : s.row ≤ r := by omega
      have h3 : r ≠ s.row := by omega
      have h4 : r - s.row = (r - (s.row + 1)) + 1 := by omega
      simp only [h1, h2, if_true, Function.update_noteq h3]
      rw [h4, List.getElem?_cons_succ]

theorem foldl_applyRow_hMatrix {n : Nat} (eqs : List (Equation n)) (z : Equation n → ℚ)
    (s : PassState n) (r : Nat) :
    (eqs.foldl (fun t e => applyRow e (z e) t) s).hMatrix r =
      if s.row ≤ r then
        (match eqs[r - s.row]? with
          | some e => hRow e (s.hMatrix r)
          | none => s.hMatrix r)
      else s.hMatrix r := by
  induction eqs generalizing s with
  | nil => simp
  | cons e eqs ih =>
    rw [List.foldl_cons, ih]
    have hrow : (applyRow e (z e) s).row = s.row + 1 := rfl
    have hpre : (applyRow e (z e) s).hMatrix =
        Function.update s.hMatrix s.row (hRow e (s.hMatrix s.row)) := rfl
    rw [hrow, hpre]
    rcases Nat.lt_trichotomy r s.row with hlt | heq | hgt
    · have h1 : ¬ s.row + 1 ≤ r := by omega
      have h2 : ¬ s.row ≤ r := by omega
      have h3 : r ≠ s.row := by omega
      simp [h1, h2, Function.update_noteq h3]
    · subst heq
      simp
    · have h1 : s.row + 1 ≤ r := by omega
      have h2 : s.row ≤ r := by omega
      have h3 : r ≠ s.row := by omega
      have h4 : r - s.row = (r - (s.row + 1)) + 1 := by omega
      simp only [h1, h2, if_true, Function.update_noteq h3]
      rw [h4, List.getElem?_cons_succ]

theorem computePostfit_eq {n : Nat} (eqs : List (Equation n)) (z : Equation n → ℚ)
    (s : PassState n) (hrow : s.row = 0) (hh : s.hMatrix = fun _ _ => 0) :
    computePostfit eqs.length (eqs.foldl (fun t e => applyRow e (z e) t) s) =
      eqs.map (fun e => z e - Matrix.dotProduct (hRow e (fun _ => 0))
        (eqs.foldl (fun t e => applyRow e (z e) t) s).xhat) := by
  apply List.ext_getElem
  · simp [computePostfit]
  · intro i h1 h2
    have hi : i < eqs.length := by simpa [computePostfit] using h1
    simp only [computePostfit, List.getElem_map, List.getElem_range, foldl_add_eq_sum, zero_add]
    rw [foldl_applyRow_prefit, foldl_applyRow_hMatrix]
    simp only [hrow, Nat.zero_le, if_true, Nat.sub_zero, List.getElem?_eq_getElem hi, hh]
    rw [Matrix.dotProduct, Fin.sum_univ_def]

/-- The complete outcome of `Process` when the two reads succeed and every
    independent term is present. -/
theorem Process_of_some_full {n : Nat}
    (getStateVector : VariableSet n → Except Exception (Fin n → ℚ))
    (getCovarMatrix : VariableSet n → Except Exception (Fin n → Fin n → ℚ))
    (sys : EquationSystem n) (x0 : Fin n → ℚ) (P0 : Fin n → Fin n → ℚ) (z : Equation n → ℚ)
    (hx : getStateVector sys.currentUnknowns = Except.ok x0)
    (hP : getCovarMatrix sys.currentUnknowns = Except.ok P0)
    (hz : ∀ e ∈ sys.equList, e.header.typeValueData e.header.indTerm = some (z e)) :
    Process getStateVector getCovarMatrix sys = Except.ok
      { store :=
          { numUnknowns := n,
            stateVector := (sys.equList.foldl (fun xP e => rowUpdate e (z e) xP) (x0, P0)).1,
            covarMatrix := (sys.equList.foldl (fun xP e => rowUpdate e (z e) xP) (x0, P0)).2,
            variableSet := sys.currentUnknowns },
        postfitResiduals := sys.equList.map (fun e => z e -
          Matrix.dotProduct (hRow e (fun _ => 0))
            (sys.equList.foldl (fun xP e => rowUpdate e (z e) xP) (x0, P0)).1),
        times := 1 } := by
  have h := foldl_applyRow_xhat_P sys.equList z
    { xhat := x0, P := P0, M := fun _ => 0, K := fun _ => 0,
      hMatrix := fun _ _ => 0, prefitResiduals := fun _ => 0, row := 0 }
  have hpost := computePostfit_eq sys.equList z
    { xhat := x0, P := P0, M := fun _ => 0, K := fun _ => 0,
      hMatrix := fun _ _ => 0, prefitResiduals := fun _ => 0, row := 0 } rfl rfl
  simp only [Process, hx, hP, rowLoop_of_some sys.equList z hz, ← h, hpost]

theorem twoRows_final_estimate :
    (rowUpdate eqA 5 (rowUpdate eqAB 5 ((fun _ => 0), priorAB))).1 0 = 500100000 / 100030001 ∧
    (rowUpdate eqA 5 (rowUpdate eqAB 5 ((fun _ => 0), priorAB))).1 1 = 50000 / 100030001 ∧
    (rowUpdate eqAB 5 ((fun _ => 0), priorAB)).1 0 = 50000 / 20001 ∧
    (rowUpdate eqAB 5 ((fun _ => 0), priorAB)).1 1 = 50000 / 20001 := by
  have hwAB : effectiveWeight eqAB.header = 1 := by
    simp [effectiveWeight, eqAB, bagAB]
  have hGAB : indexG eqAB = [(0, 1), (1, 1)] := by
    simp [indexG, eqAB, tempCoef]
  have hwA : effectiveWeight eqA.header = 1 := by
    simp [effectiveWeight, eqA, bagAB]
  have hGA : indexG eqA = [(0, 1)] := by
    simp [indexG, eqA, tempCoef]
  refine ⟨?_, ?_, ?_, ?_⟩
  · simp only [rowUpdate, hwAB, hGAB, hwA, hGA, computeM, computeDotGM, computeDotGX,
      covarUpdate_apply, priorAB]
    simp
    norm_num
  · simp only [rowUpdate, hwAB, hGAB, hwA, hGA, computeM, computeDotGM, computeDotGX,
      covarUpdate_apply, priorAB]
    simp
    norm_num
  · simp only [rowUpdate, hwAB, hGAB, computeM, computeDotGM, computeDotGX, priorAB]
    simp
    norm_num
  · simp only [rowUpdate, hwAB, hGAB, computeM, computeDotGM, computeDotGX, priorAB]
    simp
    norm_num

theorem hRow_eqAB : hRow eqAB (fun _ => 0) = fun _ => 1 := by
  funext k
  fin_cases k <;> simp [hRow, eqAB, tempCoef, Function.update]

/-! ## Failing rows, empty rows and the pass loop -/

theorem rowLoop_error_of_none {n : Nat} (eqs : List (Equation n)) (s : PassState n)
    (hmiss : ∃ e ∈ eqs, e.header.typeValueData e.header.indTerm = none) :
    rowLoop eqs s = Except.error Exception.TypeIDNotFound := by
  induction eqs generalizing s with
  | nil =>
    obtain ⟨e, he, _⟩ := hmiss
    simp at he
  | cons e0 eqs ih =>
    cases hz : e0.header.typeValueData e0.header.indTerm with
    | none => rw [rowLoop, processRow_of_none e0 s hz]
    | some z0 =>
      rw [rowLoop, processRow_of_some e0 s z0 hz]
      apply ih
      obtain ⟨e, he, hnone⟩ := hmiss
      rcases List.mem_cons.mp he with rfl | he1
      · rw [hz] at hnone
        cases hnone
      · exact ⟨e, he1, hnone⟩

theorem Process_error_of_none {n : Nat}
    (getStateVector : VariableSet n → Except Exception (Fin n → ℚ))
    (getCovarMatrix : VariableSet n → Except Exception (Fin n → Fin n → ℚ))
    (sys : EquationSystem n) (x0 : Fin n → ℚ) (P0 : Fin n → Fin n → ℚ)
    (hx : getStateVector sys.currentUnknowns = Except.ok x0)
    (hP : getCovarMatrix sys.currentUnknowns = Except.ok P0)
    (hmiss : ∃ e ∈ sys.equList, e.header.typeValueData e.header.indTerm = none) :
    Process getStateVector getCovarMatrix sys =
      Except.error { cause := Exception.TypeIDNotFound } := by
  simp only [Process, hx, hP, rowLoop_error_of_none sys.equList _ hmiss]

theorem Process_error_of_read {n : Nat}
    (getStateVector : VariableSet n → Except Exception (Fin n → ℚ))
    (getCovarMatrix : VariableSet n → Except Exception (Fin n → Fin n → ℚ))
    (sys : EquationSystem n) :
    (∀ u, getStateVector sys.currentUnknowns = Except.error u →
      Process getStateVector getCovarMatrix sys = Except.error { cause := u }) ∧
    (∀ x0 u, getStateVector sys.currentUnknowns = Except.ok x0 →
      getCovarMatrix sys.currentUnknowns = Except.error u →
      Process getStateVector getCovarMatrix sys = Except.error { cause := u }) := by
  constructor
  · intro u hx
    simp only [Process, hx]
  · intro x0 u hx hP
    simp only [Process, hx, hP]

theorem rowUpdate_of_empty_body {n : Nat} (e : Equation n) (z : ℚ) (x : Fin n → ℚ)
    (P : Fin n → Fin n → ℚ) (hbody : e.body = []) (hs : IsSymmetric P) :
    rowUpdate e z (x, P) = (x, P) := by
  have hG : indexG e = [] := by simp [indexG, hbody]
  have hM : computeM P ([] : List (Fin n × ℚ)) = fun _ => 0 := by
    funext i
    simp [computeM]
  unfold rowUpdate
  simp only [hG, hM]
  refine Prod.ext ?_ ?_
  · funext i
    simp
  · funext a b
    show covarUpdate _ _ P a b = P a b
    rw [covarUpdate_of_symmetric _ _ _ hs (fun _ _ => by simp)]
    simp

theorem foldl_rowUpdate_skip_empty {n : Nat} (l1 l2 : List (Equation n)) (e : Equation n)
    (z : Equation n → ℚ) (x0 : Fin n → ℚ) (P0 : Fin n → Fin n → ℚ)
    (hbody : e.body = []) (hsym : l1 ≠ [] ∨ IsSymmetric P0) :
    (l1 ++ e :: l2).foldl (fun xP e => rowUpdate e (z e) xP) (x0, P0) =
      (l1 ++ l2).foldl (fun xP e => rowUpdate e (z e) xP) (x0, P0) := by
  rw [List.foldl_append, List.foldl_append, List.foldl_cons]
  have hs := foldl_rowUpdate_symmetric l1 z (x0, P0) hsym
  rw [rowUpdate_of_empty_body e (z e) _ _ hbody hs]

theorem doWhile_false {σ : Type} (body : σ → Except Exception σ) (fuel : Nat) (s : σ) :
    doWhile body (fun _ => false) (fuel + 1) s =
      match body s with
      | Except.error u => Except.error u
      | Except.ok s1 => Except.ok (some s1) := by
  rw [doWhile]
  cases body s <;> simp

/-! ## The loops of the outlier policy -/

theorem postfitWeight_of_hasSecondaryWeight (header : equationHeader)
    (hw : HasSecondaryWeight header) :
    postfitWeight header = Except.ok (effectiveWeight header) := by
  unfold postfitWeight effectiveWeight typeValueMap.getValue
  by_cases h1 : header.indTerm = TypeID.prefitC
  · obtain ⟨v, hv⟩ := Option.isSome_iff_exists.mp (hw.1 h1)
    simp [h1, hv]
  · by_cases h2 : header.indTerm = TypeID.prefitL
    · obtain ⟨v, hv⟩ := Option.isSome_iff_exists.mp (hw.2 h2)
      simp [h2, hv]
    · simp [h1, h2]

theorem sigmaLoop_eq {n : Nat} (residuals : List ℚ) (eqs : List (Equation n))
    (hw : ∀ e ∈ eqs, HasSecondaryWeight e.header) (s : ℚ × Nat)
    (hlen : s.2 + eqs.length ≤ residuals.length) :
    sigmaLoop residuals eqs s =
      Except.ok (s.1 + weightedSquares eqs (residuals.drop s.2), s.2 + eqs.length) := by
  induction eqs generalizing s with
  | nil => simp [sigmaLoop, weightedSquares]
  | cons e eqs ih =>
    have hlt : s.2 < residuals.length := by
      simp only [List.length_cons] at hlen
      omega
    rw [sigmaLoop, postfitWeight_of_hasSecondaryWeight e.header (hw e (List.mem_cons_self _ _))]
    simp only []
    rw [ih (fun e1 he1 => hw e1 (List.mem_cons_of_mem _ he1))]
    · have hdrop : residuals.drop s.2 = residuals[s.2] :: residuals.drop (s.2 + 1) :=
        List.drop_eq_getElem_cons hlt
      have hget : residuals.getD s.2 0 = residuals[s.2] := by
        simp [List.getD_eq_getElem?_getD, List.getElem?_eq_getElem hlt]
      simp only [weightedSquares, hdrop, List.zip_cons_cons, List.map_cons, List.sum_cons, hget,
        List.length_cons]
      refine congrArg Except.ok (Prod.ext ?_ ?_)
      · simp only []
        ring
      · simp only []
        omega
    · simp only [List.length_cons] at hlen
      simp only []
      omega

theorem postfitSigma_eq {n : Nat} (sqrt : ℚ → ℚ) (eqs : List (Equation n)) (t : Nat)
    (residuals : List ℚ) (hw : ∀ e ∈ eqs, HasSecondaryWeight e.header)
    (hres : residuals.length = eqs.length) :
    postfitSigma sqrt eqs t residuals =
      Except.ok (sqrt (weightedSquares eqs residuals / ((eqs.length : ℚ) - (t : ℚ)))) := by
  unfold postfitSigma
  rw [sigmaLoop_eq residuals eqs hw (0, 0) (by simp [hres])]
  simp

theorem hasSecondaryWeight_eqPlain (w z : ℚ) (source sat : Nat) :
    HasSecondaryWeight (eqPlain w z source sat).header := by
  constructor <;> intro h <;> simp [eqPlain] at h

theorem effectiveWeight_eqPlain (w z : ℚ) (source sat : Nat) :
    effectiveWeight (eqPlain w z source sat).header = w := by
  simp [effectiveWeight, eqPlain]

/-! ## Rejection, removal and pruning -/

theorem rejectLoop_eq {n : Nat} (sqrt : ℚ → ℚ) (sigma : ℚ) (residuals : List ℚ)
    (eqs : List (Equation n)) (hw : ∀ e ∈ eqs, HasSecondaryWeight e.header) (s : RejectState)
    (hlen : s.i + eqs.length ≤ residuals.length) :
    ∃ s1, rejectLoop sqrt sigma residuals eqs s = Except.ok s1 ∧
      s1.gdsMap = (rejectedPairs sqrt sigma eqs (residuals.drop s.i)).foldl
        (fun m p => removeSatID m p.1 p.2) s.gdsMap ∧
      (s1.isValid = true ↔
        s.isValid = true ∧ rejectedPairs sqrt sigma eqs (residuals.drop s.i) = []) := by
  induction eqs generalizing s with
  | nil => exact ⟨s, rfl, by simp [rejectedPairs], by simp [rejectedPairs]⟩
  | cons e eqs ih =>
    have hlt : s.i < residuals.length := by
      simp only [List.length_cons] at hlen
      omega
    have hdrop : residuals.drop s.i = residuals[s.i] :: residuals.drop (s.i + 1) :=
      List.drop_eq_getElem_cons hlt
    have hget : residuals.getD s.i 0 = residuals[s.i] := by
      simp [List.getD_eq_getElem?_getD, List.getElem?_eq_getElem hlt]
    have hw1 : ∀ e1 ∈ eqs, HasSecondaryWeight e1.header :=
      fun e1 he1 => hw e1 (List.mem_cons_of_mem _ he1)
    rw [rejectLoop, postfitWeight_of_hasSecondaryWeight e.header (hw e (List.mem_cons_self _ _))]
    simp only [hget]
    by_cases hv : sqrt (effectiveWeight e.header) * abs residuals[s.i] > 5 / 2 * sigma
    · rw [if_pos hv]
      obtain ⟨s1, h1, h2, h3⟩ := ih hw1
        { i := s.i + 1, isValid := false, sourceRemoved := e.header.equationSource,
          satRemoved := e.header.equationSat,
          gdsMap := removeSatID s.gdsMap e.header.equationSource e.header.equationSat }
        (by simp only [List.length_cons] at hlen; simp only []; omega)
      have hrej : rejectedPairs sqrt sigma (e :: eqs) (residuals.drop s.i) =
          (e.header.equationSource, e.header.equationSat) ::
            rejectedPairs sqrt sigma eqs (residuals.drop (s.i + 1)) := by
        rw [hdrop]
        simp only [rejectedPairs, List.zip_cons_cons, normalizedResidual]
        rw [List.filter_cons_of_pos (by simpa using hv), List.map_cons]
      refine ⟨s1, h1, ?_, ?_⟩
      · rw [h2, hrej, List.foldl_cons]
      · rw [h3, hrej]
        simp
    · rw [if_neg hv]
      obtain ⟨s1, h1, h2, h3⟩ := ih hw1
        { i := s.i + 1, isValid := s.isValid, sourceRemoved := s.sourceRemoved,
          satRemoved := s.satRemoved, gdsMap := s.gdsMap }
        (by simp only [List.length_cons] at hlen; simp only []; omega)
      have hrej : rejectedPairs sqrt sigma (e :: eqs) (residuals.drop s.i) =
          rejectedPairs sqrt sigma eqs (residuals.drop (s.i + 1)) := by
        rw [hdrop]
        simp only [rejectedPairs, List.zip_cons_cons, normalizedResidual]
        rw [List.filter_cons_of_neg (by simpa using hv)]
      refine ⟨s1, h1, ?_, ?_⟩
      · rw [h2, hrej]
      · rw [h3, hrej]

theorem mem_rejectedPairs {n : Nat} (sqrt : ℚ → ℚ) (sigma : ℚ) (eqs : List (Equation n))
    (residuals : List ℚ) (source : SourceID) (sat : SatID) :
    (source, sat) ∈ rejectedPairs sqrt sigma eqs residuals ↔
      ∃ p ∈ eqs.zip residuals, p.1.header.equationSource = source ∧
        p.1.header.equationSat = sat ∧ normalizedResidual sqrt p.1 p.2 > 5 / 2 * sigma := by
  simp only [rejectedPairs, List.mem_map, List.mem_filter, decide_eq_true_eq, Prod.mk.injEq]
  constructor
  · rintro ⟨p, ⟨hp, hv⟩, h1, h2⟩
    exact ⟨p, hp, h1, h2, hv⟩
  · rintro ⟨p, hp, h1, h2, hv⟩
    exact ⟨p, ⟨hp, hv⟩, h1, h2⟩

theorem hasPair_removeSatID (m : gnssDataMap) (source sat source1 sat1 : Nat) :
    HasPair (removeSatID m source sat) source1 sat1 ↔
      HasPair m source1 sat1 ∧ ¬ (source1 = source ∧ sat1 = sat) := by
  unfold HasPair removeSatID
  constructor
  · rintro ⟨ep, hep, c, hc, hc1, s, hs, hs1⟩
    obtain ⟨ep0, hep0, rfl⟩ := List.mem_map.mp hep
    obtain ⟨c0, hc0, rfl⟩ := List.mem_map.mp hc
    by_cases hsrc : c0.1 = source
    · simp only [hsrc, if_true] at hc1 hs
      obtain ⟨hs0, hne⟩ := List.mem_filter.mp hs
      simp only [decide_eq_true_eq] at hne
      refine ⟨⟨ep0, hep0, c0, hc0, by rw [hsrc, hc1], s, hs0, hs1⟩, ?_⟩
      rintro ⟨_, h2⟩
      exact hne (hs1.trans h2)
    · simp only [hsrc, if_false] at hc1 hs
      refine ⟨⟨ep0, hep0, c0, hc0, hc1, s, hs, hs1⟩, ?_⟩
      rintro ⟨h1, _⟩
      exact hsrc (hc1.trans h1)
  · rintro ⟨⟨ep0, hep0, c0, hc0, hc1, s, hs, hs1⟩, hne⟩
    refine ⟨_, List.mem_map_of_mem _ hep0, _, List.mem_map_of_mem _ hc0, ?_, ?_⟩
    · by_cases hsrc : c0.1 = source
      · rw [if_pos hsrc]
        exact hc1
      · rw [if_neg hsrc]
        exact hc1
    · by_cases hsrc : c0.1 = source
      · simp only [hsrc, if_true]
        refine ⟨s, List.mem_filter.mpr ⟨hs, ?_⟩, hs1⟩
        simp only [decide_eq_true_eq]
        intro hsat
        exact hne ⟨hc1.symm.trans hsrc, hs1.symm.trans hsat⟩
      · simp only [hsrc, if_false]
        exact ⟨s, hs, hs1⟩

theorem hasPair_foldl_removeSatID (pairs : List (SourceID × SatID)) (m : gnssDataMap)
    (source sat : Nat) :
    HasPair (pairs.foldl (fun m p => removeSatID m p.1 p.2) m) source sat ↔
      HasPair m source sat ∧ (source, sat) ∉ pairs := by
  induction pairs generalizing m with
  | nil => simp
  | cons p pairs ih =>
    rw [List.foldl_cons, ih, hasPair_removeSatID]
    simp only [List.mem_cons, not_or, Prod.ext_iff]
    tauto

theorem mem_pruneSources (sdm : sourceDataMap) (c : SourceID × satTypeValueMap) :
    c ∈ pruneSources sdm ↔ c ∈ sdm ∧ 4 ≤ numSats c.2 := by
  induction sdm with
  | nil => simp [pruneSources]
  | cons c0 sdm ih =>
    by_cases h : numSats c0.2 ≤ 3
    · rw [pruneSources, if_pos h, ih, List.mem_cons]
      constructor
      · rintro ⟨h1, h2⟩
        exact ⟨Or.inr h1, h2⟩
      · rintro ⟨h1 | h1, h2⟩
        · subst h1
          omega
        · exact ⟨h1, h2⟩
    · rw [pruneSources, if_neg h, List.mem_cons, ih, List.mem_cons]
      constructor
      · rintro (h1 | ⟨h1, h2⟩)
        · subst h1
          exact ⟨Or.inl rfl, by omega⟩
        · exact ⟨Or.inr h1, h2⟩
      · rintro ⟨h1 | h1, h2⟩
        · exact Or.inl h1
        · exact Or.inr ⟨h1, h2⟩

theorem mem_pruneMap (m : gnssDataMap) (ep : CommonTime × sourceDataMap) :
    ep ∈ pruneMap m ↔
      ∃ ep0 ∈ m, ep = (ep0.1, pruneSources ep0.2) ∧ pruneSources ep0.2 ≠ [] := by
  induction m with
  | nil => simp [pruneMap]
  | cons e0 m ih =>
    by_cases h : (pruneSources e0.2).length ≤ 0
    · have hnil : pruneSources e0.2 = [] := List.length_eq_zero.mp (Nat.le_zero.mp h)
      rw [pruneMap]
      simp only [h, if_true]
      rw [ih]
      constructor
      · rintro ⟨ep0, h1, h2, h3⟩
        exact ⟨ep0, List.mem_cons_of_mem _ h1, h2, h3⟩
      · rintro ⟨ep0, h1, h2, h3⟩
        rcases List.mem_cons.mp h1 with rfl | h1
        · exact absurd hnil h3
        · exact ⟨ep0, h1, h2, h3⟩
    · have hne : pruneSources e0.2 ≠ [] := by
        intro hcon
        rw [hcon] at h
        simp at h
      rw [pruneMap]
      simp only [h, if_false]
      rw [List.mem_cons, ih]
      constructor
      · rintro (h1 | ⟨ep0, h1, h2, h3⟩)
        · exact ⟨e0, List.mem_cons_self _ _, h1, hne⟩
        · exact ⟨ep0, List.mem_cons_of_mem _ h1, h2, h3⟩
      · rintro ⟨ep0, h1, h2, h3⟩
        rcases List.mem_cons.mp h1 with rfl | h1
        · exact Or.inl h2
        · exact Or.inr ⟨ep0, h1, h2, h3⟩

theorem hasPair_of_pruneMap (m : gnssDataMap) (source sat : Nat)
    (h : HasPair (pruneMap m) source sat) : HasPair m source sat := by
  obtain ⟨ep, hep, c, hc, hc1, s, hs, hs1⟩ := h
  obtain ⟨ep0, hep0, rfl, _⟩ := (mem_pruneMap m ep).mp hep
  exact ⟨ep0, hep0, c, ((mem_pruneSources ep0.2 c).mp hc).1, hc1, s, hs, hs1⟩

theorem postfitFilter_eq {n : Nat} (sqrt : ℚ → ℚ) (eqs : List (Equation n)) (t : Nat)
    (residuals : List ℚ) (gdsMap : gnssDataMap)
    (hw : ∀ e ∈ eqs, HasSecondaryWeight e.header) (hres : residuals.length = eqs.length) :
    ∃ b, postfitFilter sqrt eqs t residuals gdsMap =
        Except.ok (b, pruneMap ((rejectedPairs sqrt
          (sqrt (weightedSquares eqs residuals / ((eqs.length : ℚ) - (t : ℚ)))) eqs
          residuals).foldl (fun m p => removeSatID m p.1 p.2) gdsMap)) ∧
      (b = true ↔ rejectedPairs sqrt
        (sqrt (weightedSquares eqs residuals / ((eqs.length : ℚ) - (t : ℚ)))) eqs residuals = []) := by
  obtain ⟨s1, h1, h2, h3⟩ := rejectLoop_eq sqrt
    (sqrt (weightedSquares eqs residuals / ((eqs.length : ℚ) - (t : ℚ)))) residuals eqs hw
    { i := 0, isValid := true, sourceRemoved := 0, satRemoved := 0, gdsMap := gdsMap }
    (by simp [hres])
  simp only [List.drop_zero, true_and] at h2 h3
  refine ⟨s1.isValid, ?_, h3⟩
  unfold postfitFilter
  rw [postfitSigma_eq sqrt eqs t residuals hw hres]
  simp only [h1, h2]

theorem normalized_gt_iff_squares (s w r sigma : ℚ) (hs : IsSqrtOf s w) (hsig : 0 ≤ sigma) :
    s * abs r > 5 / 2 * sigma ↔ w * r ^ 2 > 25 / 4 * sigma ^ 2 := by
  obtain ⟨hs0, hsq⟩ := hs
  have hv0 : 0 ≤ s * abs r := mul_nonneg hs0 (abs_nonneg r)
  have hvsq : (s * abs r) ^ 2 = w * r ^ 2 := by
    rw [mul_pow, sq_abs, pow_two s, hsq]
  have hb0 : 0 ≤ 5 / 2 * sigma := by positivity
  have hbsq : (5 / 2 * sigma) ^ 2 = 25 / 4 * sigma ^ 2 := by ring
  rw [← hvsq, ← hbsq]
  constructor
  · intro h
    exact pow_lt_pow_left₀ h hb0 (by norm_num)
  · intro h
    exact lt_of_pow_lt_pow_left₀ 2 hv0 h

theorem hasSecondaryWeight_eqsOutlier : ∀ e ∈ eqsOutlier, HasSecondaryWeight e.header := by
  simp [eqsOutlier, hasSecondaryWeight_eqPlain]

theorem weightedSquares_eqsOutlier : weightedSquares eqsOutlier resOutlier = 9 := by
  simp [weightedSquares, eqsOutlier, resOutlier, effectiveWeight_eqPlain]
  norm_num

theorem sigma_eqsOutlier :
    sqrtTable (weightedSquares eqsOutlier resOutlier /
      ((eqsOutlier.length : ℚ) - ((1 : ℕ) : ℚ))) = 1 := by
  rw [weightedSquares_eqsOutlier]
  simp only [eqsOutlier, List.length_cons, List.length_nil]
  norm_num [sqrtTable]

theorem rejectedPairs_nil {n : Nat} (sqrt : ℚ → ℚ) (sigma : ℚ) (residuals : List ℚ) :
    rejectedPairs sqrt sigma ([] : List (Equation n)) residuals = [] := by
  simp [rejectedPairs]

theorem rejectedPairs_cons {n : Nat} (sqrt : ℚ → ℚ) (sigma : ℚ) (e : Equation n)
    (eqs : List (Equation n)) (r : ℚ) (rs : List ℚ) :
    rejectedPairs sqrt sigma (e :: eqs) (r :: rs) =
      if normalizedResidual sqrt e r > 5 / 2 * sigma then
        (e.header.equationSource, e.header.equationSat) :: rejectedPairs sqrt sigma eqs rs
      else rejectedPairs sqrt sigma eqs rs := by
  by_cases hv : normalizedResidual sqrt e r > 5 / 2 * sigma
  · rw [if_pos hv]
    simp only [rejectedPairs, List.zip_cons_cons]
    rw [List.filter_cons_of_pos (by simpa using hv), List.map_cons]
  · rw [if_neg hv]
    simp only [rejectedPairs, List.zip_cons_cons]
    rw [List.filter_cons_of_neg (by simpa using hv)]

theorem normalizedResidual_eqPlain (z : ℚ) (source sat : Nat) (r : ℚ) :
    normalizedResidual sqrtTable (eqPlain 1 z source sat) r = abs r := by
  simp [normalizedResidual, effectiveWeight_eqPlain, sqrtTable]

theorem rejectedPairs_eqsOutlier :
    rejectedPairs sqrtTable 1 eqsOutlier resOutlier = [(1, 1)] := by
  have h3 : abs (3 : ℚ) > 5 / 2 * 1 := by
    rw [abs_of_pos (by norm_num : (0 : ℚ) < 3)]
    norm_num
  have h0 : ¬ abs (0 : ℚ) > 5 / 2 * 1 := by
    rw [abs_zero]
    norm_num
  simp only [eqsOutlier, resOutlier, rejectedPairs_cons, rejectedPairs_nil,
    normalizedResidual_eqPlain, if_pos h3, if_neg h0]
  rfl

theorem hasPair_gdsOne : HasPair gdsOne 1 1 :=
  ⟨_, List.mem_singleton.mpr rfl, _, List.mem_singleton.mpr rfl, rfl,
    (1, bagNone), List.mem_cons_self _ _, rfl⟩

theorem hRow_eqPlain (w z : ℚ) (source sat : Nat) :
    hRow (eqPlain w z source sat) (fun _ => 0) = fun _ => 0 := by
  funext k
  simp [hRow, eqPlain, tempCoef, Function.update_apply]

theorem ProcessReturn_of_ok {n : Nat} (gdsMap : gnssDataMap)
    (getStateVector : VariableSet n → Except Exception (Fin n → ℚ))
    (getCovarMatrix : VariableSet n → Except Exception (Fin n → Fin n → ℚ))
    (sys : EquationSystem n) (r : ProcessResult)
    (hr : Process getStateVector getCovarMatrix sys = Except.ok r) :
    ProcessReturn gdsMap getStateVector getCovarMatrix sys = Except.ok gdsMap := by
  simp only [ProcessReturn, hr]

theorem Process_eqsOutlier :
    ∃ r, Process (fun _ => Except.ok (fun _ => 0)) (fun _ => Except.ok (fun _ _ => 10000))
        { currentUnknowns := [], equList := eqsOutlier } = Except.ok r ∧
      r.postfitResiduals = resOutlier := by
  have hzs : ∀ e ∈ eqsOutlier, e.header.typeValueData e.header.indTerm =
      some ((fun e : Equation 1 => (e.header.typeValueData e.header.indTerm).getD 0) e) := by
    simp [eqsOutlier, eqPlain]
  have hfull := Process_of_some_full (fun _ => Except.ok (fun _ => 0))
    (fun _ => Except.ok (fun _ _ => 10000)) { currentUnknowns := [], equList := eqsOutlier }
    (fun _ => 0) (fun _ _ => 10000)
    (fun e => (e.header.typeValueData e.header.indTerm).getD 0) rfl rfl hzs
  refine ⟨_, hfull, ?_⟩
  have hz : ∀ (z : ℚ) (source sat : Nat),
      ((eqPlain 1 z source sat).header.typeValueData
        (eqPlain 1 z source sat).header.indTerm).getD 0 = z := by
    intro z source sat
    simp [eqPlain]
  simp only [eqsOutlier, List.map_cons, List.map_nil, hRow_eqPlain, hz, resOutlier]
  simp [Matrix.dotProduct]

/-! ## Order of the outer loop, determinism, and the classes around the update -/

theorem writtenCell_disjoint {n : Nat} (i k a b : Fin n) (hik : i ≠ k)
    (hw : writtenCell i a b) : ¬ writtenCell k a b ∧ ¬ readCell k a b := by
  unfold writtenCell readCell at *
  constructor
  · rintro (⟨h1, h2⟩ | ⟨h1, h2⟩ | ⟨h1, h2⟩) <;>
      rcases hw with ⟨g1, g2⟩ | ⟨g1, g2⟩ | ⟨g1, g2⟩ <;> subst_vars <;>
      first | exact hik rfl | exact absurd h2 (lt_irrefl _) | exact absurd g2 (lt_irrefl _)
            | exact absurd (lt_trans h2 g2) (lt_irrefl _)
  · rintro ⟨h1, h2⟩
    rcases hw with ⟨g1, g2⟩ | ⟨g1, g2⟩ | ⟨g1, g2⟩ <;> subst_vars <;>
      first | exact hik rfl | exact absurd (lt_of_le_of_lt h2 g2) (lt_irrefl _)

theorem covarOuter_frame {n : Nat} (K M : Fin n → ℚ) (P : Fin n → Fin n → ℚ) (i a b : Fin n)
    (hw : ¬ writtenCell i a b) : covarOuter K M P i a b = P a b := by
  unfold writtenCell at hw
  push_neg at hw
  rw [covarOuter_apply]
  by_cases h1 : a = i ∧ b = i
  · exact absurd h1.2 (hw.1 h1.1)
  · rw [if_neg h1]
    by_cases h2 : a = i ∧ i < b
    · exact absurd h2.2 (not_lt.mpr (hw.2.1 h2.1))
    · rw [if_neg h2]
      by_cases h3 : b = i ∧ i < a
      · exact absurd h3.2 (not_lt.mpr (hw.2.2 h3.1))
      · rw [if_neg h3]

theorem covarOuter_reads {n : Nat} (K M : Fin n → ℚ) (P Q : Fin n → Fin n → ℚ) (i : Fin n)
    (hr : ∀ a b, readCell i a b → Q a b = P a b) (a b : Fin n) (hw : writtenCell i a b) :
    covarOuter K M Q i a b = covarOuter K M P i a b := by
  rw [covarOuter_apply, covarOuter_apply]
  have h0 : Q i i = P i i := hr i i ⟨rfl, le_refl _⟩
  by_cases h1 : a = i ∧ b = i
  · rw [if_pos h1, if_pos h1, h0]
  · rw [if_neg h1, if_neg h1]
    by_cases h2 : a = i ∧ i < b
    · rw [if_pos h2, if_pos h2, hr i b ⟨rfl, le_of_lt h2.2⟩]
    · rw [if_neg h2, if_neg h2]
      by_cases h3 : b = i ∧ i < a
      · rw [if_pos h3, if_pos h3, hr i a ⟨rfl, le_of_lt h3.2⟩]
      · exfalso
        rcases hw with g | g | g
        · exact h1 g
        · exact h2 g
        · exact h3 g

theorem foldl_covarOuter_perm {n : Nat} (K M : Fin n → ℚ) (P : Fin n → Fin n → ℚ)
    (is : List (Fin n)) (hp : is.Perm (List.finRange n)) :
    is.foldl (covarOuter K M) P = covarUpdate K M P := by
  funext a b
  rw [foldl_covarOuter_apply K M is (hp.nodup_iff.mpr (List.nodup_finRange n)),
    covarUpdate_apply]
  have hm : ∀ k : Fin n, k ∈ is := fun k => hp.mem_iff.mpr (List.mem_finRange k)
  simp [hm]

theorem rowLoop_xhat_P_congr {n : Nat} (eqs : List (Equation n)) (s1 s2 : PassState n)
    (hx : s1.xhat = s2.xhat) (hP : s1.P = s2.P) :
    (rowLoop eqs s1).map (fun s => (s.xhat, s.P)) =
      (rowLoop eqs s2).map (fun s => (s.xhat, s.P)) := by
  induction eqs generalizing s1 s2 with
  | nil => simp [rowLoop, Except.map, hx, hP]
  | cons e eqs ih =>
    cases hz : e.header.typeValueData e.header.indTerm with
    | none => rw [rowLoop, rowLoop, processRow_of_none e s1 hz, processRow_of_none e s2 hz]
    | some z =>
      rw [rowLoop, rowLoop, processRow_of_some e s1 z hz, processRow_of_some e s2 z hz]
      have h := applyRow_xhat_P e z s1
      rw [hx, hP, ← applyRow_xhat_P e z s2] at h
      exact ih _ _ (congrArg Prod.fst h) (congrArg Prod.snd h)

theorem loopBody_congr {n : Nat} (Prepare : Nat → Except Exception (EquationSystem n))
    (getStateVector : VariableSet n → Except Exception (Fin n → ℚ))
    (getCovarMatrix : VariableSet n → Except Exception (Fin n → Fin n → ℚ))
    (s1 s2 : LoopState n) (ht : s1.times = s2.times) :
    loopBody Prepare getStateVector getCovarMatrix s1 =
      loopBody Prepare getStateVector getCovarMatrix s2 := by
  unfold loopBody
  rw [ht]

theorem ProcessDoWhile_congr {n : Nat} (fuel1 fuel2 : Nat)
    (Prepare : Nat → Except Exception (EquationSystem n))
    (getStateVector : VariableSet n → Except Exception (Fin n → ℚ))
    (getCovarMatrix : VariableSet n → Except Exception (Fin n → Fin n → ℚ))
    (members1 members2 : LoopState n) :
    ProcessDoWhile (fuel1 + 1) Prepare getStateVector getCovarMatrix members1 =
      ProcessDoWhile (fuel2 + 1) Prepare getStateVector getCovarMatrix members2 := by
  unfold ProcessDoWhile
  rw [doWhile_false, doWhile_false,
    loopBody_congr Prepare getStateVector getCovarMatrix { members1 with times := 0 }
      { members2 with times := 0 } rfl]

theorem computed_beta_eq {n : Nat} (P : Fin n → Fin n → ℚ) (ig : List (Fin n × ℚ)) (w : ℚ) :
    1 / w + computeDotGM (computeM P ig) ig =
      1 / w + Matrix.dotProduct (accRow ig) (Matrix.mulVec (Matrix.of P) (accRow ig)) := by
  rw [computeDotGM_eq_dotProduct, computeM_eq_mulVec]

theorem getCovarMatrix_of_new_left {n : Nat} (stored : covarianceMap)
    (unknowns : Fin n → Unknown) (i j : Fin n) (hi : stored (unknowns i).ident = none) :
    StateStore.getCovarMatrix stored unknowns i j =
      if i = j then (unknowns i).defaultVariance else 0 := by
  simp [StateStore.getCovarMatrix, hi]

theorem getCovarMatrix_of_new_right {n : Nat} (stored : covarianceMap)
    (unknowns : Fin n → Unknown) (i j : Fin n) (hj : stored (unknowns j).ident = none) :
    StateStore.getCovarMatrix stored unknowns i j =
      if i = j then (unknowns i).defaultVariance else 0 := by
  unfold StateStore.getCovarMatrix
  rw [hj]
  cases stored (unknowns i).ident <;> rfl

theorem getCovarMatrix_of_retained {n : Nat} (stored : covarianceMap)
    (unknowns : Fin n → Unknown) (i j : Fin n) (row rowj : Nat × Nat → ℚ)
    (hi : stored (unknowns i).ident = some row) (hj : stored (unknowns j).ident = some rowj) :
    StateStore.getCovarMatrix stored unknowns i j = row (unknowns j).ident := by
  simp [StateStore.getCovarMatrix, hi, hj]

theorem getCovarMatrix_storedNone :
    StateStore.getCovarMatrix storedNone unknownsAB = priorAB := by
  funext i j
  simp [StateStore.getCovarMatrix, storedNone, unknownsAB, priorAB]

theorem getValue_ok_iff (tData : typeValueMap) (t : TypeID) (v : ℚ) :
    tData.getValue t = Except.ok v ↔ tData t = some v := by
  unfold typeValueMap.getValue
  cases tData t <;> simp

theorem mem_checkSatellites (checkValue : ℚ → Bool) (pos : TypeID) (gData : satTypeValueMap)
    (satRejectedSet : List SatID) (sat : SatID) :
    sat ∈ checkSatellites checkValue pos gData satRejectedSet ↔
      sat ∈ satRejectedSet ∨ ∃ it ∈ gData, it.1 = sat ∧ ¬ PassesType checkValue it.2 pos := by
  induction gData generalizing satRejectedSet with
  | nil => simp [checkSatellites]
  | cons it rest ih =>
    unfold checkSatellites
    cases hv : it.2 pos with
    | none =>
      have hg : it.2.getValue pos = Except.error Exception.TypeIDNotFound := by
        simp [typeValueMap.getValue, hv]
      have hp : ¬ PassesType checkValue it.2 pos := by
        rintro ⟨v, h1, _⟩
        rw [hv] at h1
        cases h1
      rw [hg]
      simp only [ih, List.mem_insert_iff, List.mem_cons, exists_eq_or_imp]
      constructor
      · rintro ((h | h) | h)
        · exact Or.inr (Or.inl ⟨h.symm, hp⟩)
        · exact Or.inl h
        · exact Or.inr (Or.inr h)
      · rintro (h | ⟨h, _⟩ | h)
        · exact Or.inl (Or.inr h)
        · exact Or.inl (Or.inl h.symm)
        · exact Or.inr h
    | some v =>
      have hg : it.2.getValue pos = Except.ok v := (getValue_ok_iff _ _ _).mpr hv
      rw [hg]
      by_cases hc : checkValue v = true
      · have hp : PassesType checkValue it.2 pos := ⟨v, hv, hc⟩
        simp only [hc, Bool.not_true, Bool.false_eq_true, if_false, ih, List.mem_cons,
          exists_eq_or_imp]
        constructor
        · rintro (h | h)
          · exact Or.inl h
          · exact Or.inr (Or.inr h)
        · rintro (h | ⟨_, h⟩ | h)
          · exact Or.inl h
          · exact absurd hp h
          · exact Or.inr h
      · have hp : ¬ PassesType checkValue it.2 pos := by
          rintro ⟨v1, h1, h2⟩
          rw [hv] at h1
          cases h1
          exact hc h2
        have hc1 : checkValue v = false := by simpa using hc
        simp only [hc1, Bool.not_false, if_true, ih, List.mem_insert_iff, List.mem_cons,
          exists_eq_or_imp]
        constructor
        · rintro ((h | h) | h)
          · exact Or.inr (Or.inl ⟨h.symm, hp⟩)
          · exact Or.inl h
          · exact Or.inr (Or.inr h)
        · rintro (h | ⟨h, _⟩ | h)
          · exact Or.inl (Or.inr h)
          · exact Or.inl (Or.inl h.symm)
          · exact Or.inr h

theorem mem_removeSatIDSet (gData : satTypeValueMap) (satSet : List SatID)
    (it : SatID × typeValueMap) :
    it ∈ gData.removeSatID satSet ↔ it ∈ gData ∧ it.1 ∉ satSet := by
  simp [satTypeValueMap.removeSatID, List.mem_filter]

theorem checkTypes_sublist (checkValue : ℚ → Bool) (ts : List TypeID)
    (st : satTypeValueMap × List SatID) :
    List.Sublist (checkTypes checkValue ts st).1 st.1 := by
  induction ts generalizing st with
  | nil => exact List.Sublist.refl _
  | cons pos rest ih =>
    unfold checkTypes
    exact (ih _).trans (List.filter_sublist _)

theorem mem_checkTypes (checkValue : ℚ → Bool) (ts : List TypeID)
    (st : satTypeValueMap × List SatID) (hinv : ∀ it ∈ st.1, it.1 ∉ st.2)
    (it : SatID × typeValueMap) :
    it ∈ (checkTypes checkValue ts st).1 ↔
      it ∈ st.1 ∧ ∀ it1 ∈ st.1, it1.1 = it.1 → ∀ t ∈ ts, PassesType checkValue it1.2 t := by
  induction ts generalizing st with
  | nil => simp [checkTypes]
  | cons pos rest ih =>
    unfold checkTypes
    have hinv1 : ∀ it1 ∈ (st.1.removeSatID (checkSatellites checkValue pos st.1 st.2)),
        it1.1 ∉ checkSatellites checkValue pos st.1 st.2 :=
      fun it1 h1 => ((mem_removeSatIDSet _ _ _).mp h1).2
    rw [ih (st.1.removeSatID (checkSatellites checkValue pos st.1 st.2),
      checkSatellites checkValue pos st.1 st.2) hinv1]
    simp only [mem_removeSatIDSet, mem_checkSatellites]
    constructor
    · rintro ⟨⟨hmem, hrej⟩, hrest⟩
      refine ⟨hmem, fun it1 h1 hk t ht => ?_⟩
      rcases List.mem_cons.mp ht with rfl | ht
      · by_contra hp
        exact hrej (Or.inr ⟨it1, h1, hk, hp⟩)
      · exact hrest it1 ⟨h1, by rw [hk]; exact hrej⟩ hk t ht
    · rintro ⟨hmem, hall⟩
      have hrej : ¬ (it.1 ∈ st.2 ∨ ∃ it1 ∈ st.1, it1.1 = it.1 ∧ ¬ PassesType checkValue it1.2 pos) := by
        rintro (h | ⟨it1, h1, hk, hp⟩)
        · exact hinv it hmem h
        · exact hp (hall it1 h1 hk pos (List.mem_cons_self _ _))
      exact ⟨⟨hmem, hrej⟩, fun it1 h1 hk t ht =>
        hall it1 h1.1 hk t (List.mem_cons_of_mem _ ht)⟩

theorem mem_SimpleFilter_Process (checkValue : ℚ → Bool) (filterTypeSet : List TypeID)
    (gData : satTypeValueMap) (hkeys : (gData.map Prod.fst).Nodup)
    (it : SatID × typeValueMap) :
    it ∈ SimpleFilter.Process checkValue filterTypeSet gData ↔
      it ∈ gData ∧ ∀ t ∈ filterTypeSet, PassesType checkValue it.2 t := by
  unfold SimpleFilter.Process
  rw [mem_checkTypes checkValue filterTypeSet (gData, []) (fun _ _ => List.not_mem_nil _)]
  constructor
  · rintro ⟨hmem, hall⟩
    exact ⟨hmem, hall it hmem rfl⟩
  · rintro ⟨hmem, hall⟩
    refine ⟨hmem, fun it1 h1 hk => ?_⟩
    have : it1 = it := List.inj_on_of_nodup_map hkeys h1 hmem hk
    rw [this]
    exact hall

theorem GPS2UTC_stepTable (T L : ℚ) (hL : 19 ≤ L) (g : ReferenceSystem.CommonTime) :
    ReferenceSystem.GPS2UTC (stepTable T L) g =
      { seconds := if T ≤ g.seconds - (L + 1 - 19) then g.seconds - (L + 1 - 19)
          else g.seconds - (L - 19),
        timeSystem := TimeSystem.UTC } := by
  simp only [ReferenceSystem.GPS2UTC, ReferenceSystem.CommonTime.sub, stepTable]
  by_cases h1 : g.seconds < T
  · have h2 : g.seconds - (L - 19) < T := by linarith
    have h3 : ¬ T ≤ g.seconds - (L + 1 - 19) := by
      intro h
      linarith
    simp only [if_pos h1, if_pos h2, if_neg h3]
  · simp only [if_neg h1]
    by_cases h2 : g.seconds - (L + 1 - 19) < T
    · simp only [if_pos h2, if_neg (not_le.mpr h2)]
    · simp only [if_neg h2, if_pos (not_lt.mp h2)]

theorem fmod_eq (x y : ℚ) : fmod x y - x = ((-truncQ (x / y) : ℤ) : ℚ) * y := by
  unfold fmod
  push_cast
  ring

theorem fmod_of_nonneg (x y : ℚ) (hx : 0 ≤ x) (hy : 0 < y) :
    0 ≤ fmod x y ∧ fmod x y < y := by
  have hq : 0 ≤ x / y := div_nonneg hx (le_of_lt hy)
  have hxy : x = y * (x / y) := by field_simp
  have h1 : (⌊x / y⌋ : ℚ) ≤ x / y := Int.floor_le _
  have h2 : x / y < ⌊x / y⌋ + 1 := Int.lt_floor_add_one _
  unfold fmod truncQ
  rw [if_pos hq]
  constructor
  · nlinarith
  · nlinarith

theorem fmod_of_neg (x y : ℚ) (hx : x < 0) (hy : 0 < y) :
    -y < fmod x y ∧ fmod x y ≤ 0 := by
  have hq : ¬ 0 ≤ x / y := not_le.mpr (div_neg_of_neg_of_pos hx hy)
  have hxy : x = y * (x / y) := by field_simp
  have h1 : x / y ≤ (⌈x / y⌉ : ℚ) := Int.le_ceil _
  have h2 : (⌈x / y⌉ : ℚ) < x / y + 1 := Int.ceil_lt_add_one _
  unfold fmod truncQ
  rw [if_neg hq]
  constructor
  · nlinarith
  · nlinarith

theorem Anpm_range (PI TWO_PI : ℚ) (hPI : 0 < PI) (hTWO : TWO_PI = 2 * PI) (a : ℚ) :
    -PI ≤ ReferenceSystem.Anpm PI TWO_PI a ∧ ReferenceSystem.Anpm PI TWO_PI a ≤ PI := by
  have hy : 0 < TWO_PI := by rw [hTWO]; linarith
  unfold ReferenceSystem.Anpm
  simp only []
  by_cases hw : |fmod a TWO_PI| ≥ PI
  · rw [if_pos hw]
    by_cases ha : a > 0
    · rw [if_pos ha]
      obtain ⟨h1, h2⟩ := fmod_of_nonneg a TWO_PI (le_of_lt ha) hy
      rw [abs_of_nonneg h1] at hw
      constructor <;> linarith
    · rw [if_neg ha]
      rcases eq_or_lt_of_le (not_lt.mp ha) with h0 | hneg
      · exfalso
        have : fmod a TWO_PI = 0 := by
          rw [h0]
          simp [fmod, truncQ]
        rw [this, abs_zero] at hw
        linarith
      · obtain ⟨h1, h2⟩ := fmod_of_neg a TWO_PI hneg hy
        rw [abs_of_nonpos h2] at hw
        constructor <;> linarith
  · rw [if_neg hw]
    have h := abs_lt.mp (not_le.mp hw)
    exact ⟨le_of_lt h.1, le_of_lt h.2⟩

theorem Anpm_congruent (PI TWO_PI : ℚ) (hTWO : TWO_PI = 2 * PI) (a : ℚ) :
    ∃ k : ℤ, ReferenceSystem.Anpm PI TWO_PI a - a = (k : ℚ) * (2 * PI) := by
  unfold ReferenceSystem.Anpm
  simp only []
  have h := fmod_eq a TWO_PI
  rw [hTWO] at h ⊢
  by_cases hw : |fmod a (2 * PI)| ≥ PI
  · rw [if_pos hw]
    by_cases ha : a > 0
    · rw [if_pos ha]
      refine ⟨-truncQ (a / (2 * PI)) - 1, ?_⟩
      push_cast at h ⊢
      linarith
    · rw [if_neg ha]
      refine ⟨-truncQ (a / (2 * PI)) + 1, ?_⟩
      push_cast at h ⊢
      linarith
  · rw [if_neg hw]
    exact ⟨-truncQ (a / (2 * PI)), h⟩

theorem asString_mem_corrNames (c : IonoCorr) (ht : c.type ≠ CorrType.Unknown) :
    c.asString ∈ corrNames := by
  cases c with
  | mk t p =>
    cases t <;> first | exact absurd rfl ht | (simp only [IonoCorr.asString, corrNames]; decide)

theorem upperCase_asString (c : IonoCorr) : upperCase c.asString = c.asString := by
  cases c with
  | mk t p => cases t <;> (simp only [IonoCorr.asString]; decide)

theorem fromString_of_upperCase_eq (self c : IonoCorr) (str : String)
    (ht : c.type ≠ CorrType.Unknown) (hs : upperCase str = c.asString) :
    self.fromString str = Except.ok { self with type := c.type } := by
  cases c with
  | mk t p =>
    unfold IonoCorr.fromString
    simp only [hs]
    cases t <;> first | exact absurd rfl ht | (simp only [IonoCorr.asString]; simp; try decide)

theorem fromString_error_iff (self : IonoCorr) (str : String) :
    (∃ e, self.fromString str = Except.error e) ↔ upperCase str ∉ corrNames := by
  unfold IonoCorr.fromString corrNames
  simp only [List.mem_cons, List.mem_singleton, List.not_mem_nil, or_false, not_or]
  constructor
  · rintro ⟨e, he⟩
    refine ⟨?_, ?_, ?_, ?_, ?_, ?_, ?_, ?_, ?_⟩ <;> intro h <;> simp [h] at he
  · rintro ⟨h1, h2, h3, h4, h5, h6, h7, h8, h9⟩
    simp only [if_neg h1, if_neg h2, if_neg h3, if_neg h4, if_neg h5, if_neg h6,
      if_neg h7, if_neg h8, if_neg h9]
    exact ⟨_, rfl⟩

theorem fromString_asString_unknown (self c : IonoCorr) (ht : c.type = CorrType.Unknown) :
    ∃ e, self.fromString c.asString = Except.error e := by
  rw [fromString_error_iff]
  cases c with
  | mk t p =>
    simp only at ht
    subst ht
    simp only [IonoCorr.asString]
    decide

theorem getLinearCombinations_addLinear_same {C : Type} (self : ComputeLinear C)
    (sys : SatelliteSystem) (hsys : IsListedSystem sys) (linear : C) :
    (self.addLinear sys linear).getLinearCombinations sys =
      (self.getLinearCombinations sys).map (fun l => l ++ [linear]) := by
  rcases hsys with h | h | h <;> subst h <;>
    simp [ComputeLinear.addLinear, ComputeLinear.getLinearCombinations]

theorem getLinearCombinations_addLinear_other {C : Type} (self : ComputeLinear C)
    (sys other : SatelliteSystem) (hne : other ≠ sys) (linear : C) :
    (self.addLinear sys linear).getLinearCombinations other =
      self.getLinearCombinations other := by
  unfold ComputeLinear.addLinear
  by_cases h1 : sys = SatelliteSystem.systemGPS
  · subst h1
    simp [ComputeLinear.getLinearCombinations, hne]
  · rw [if_neg h1]
    by_cases h2 : sys = SatelliteSystem.systemGalileo
    · subst h2
      simp [ComputeLinear.getLinearCombinations, hne]
    · rw [if_neg h2]
      by_cases h3 : sys = SatelliteSystem.systemBDS
      · subst h3
        simp [ComputeLinear.getLinearCombinations, hne]
      · rw [if_neg h3]

theorem getLinearCombinations_foldl_same {C : Type} (sys : SatelliteSystem)
    (hsys : IsListedSystem sys) (cs : List C) (self : ComputeLinear C) :
    (cs.foldl (fun obj c => obj.addLinear sys c) self).getLinearCombinations sys =
      (self.getLinearCombinations sys).map (fun l => l ++ cs) := by
  induction cs generalizing self with
  | nil => simp
  | cons c cs ih =>
    rw [List.foldl_cons, ih, getLinearCombinations_addLinear_same self sys hsys]
    cases self.getLinearCombinations sys <;> simp

theorem getLinearCombinations_foldl_other {C : Type} (sys other : SatelliteSystem)
    (hne : other ≠ sys) (cs : List C) (self : ComputeLinear C) :
    (cs.foldl (fun obj c => obj.addLinear sys c) self).getLinearCombinations other =
      self.getLinearCombinations other := by
  induction cs generalizing self with
  | nil => rfl
  | cons c cs ih =>
    rw [List.foldl_cons, ih, getLinearCombinations_addLinear_other self sys other hne]

theorem getLinearCombinations_new {C : Type} (sys : SatelliteSystem)
    (hsys : IsListedSystem sys) :
    (ComputeLinear.new C).getLinearCombinations sys = some [] := by
  rcases hsys with h | h | h <;> subst h <;>
    simp [ComputeLinear.new, ComputeLinear.clearAll, ComputeLinear.getLinearCombinations]

theorem kalmanRow_quadForm {n : Nat} (w z : ℚ) (h x v : Fin n → ℚ) (P : Fin n → Fin n → ℚ) :
    Matrix.dotProduct v (Matrix.mulVec (Matrix.of (kalmanRow w z h (x, P)).2) v) =
      Matrix.dotProduct v (Matrix.mulVec (Matrix.of P) v) -
        Matrix.dotProduct v (Matrix.mulVec (Matrix.of P) h) ^ 2 /
          (1 / w + Matrix.dotProduct h (Matrix.mulVec (Matrix.of P) h)) := by
  simp only [kalmanRow]
  rw [mulVec_sub_outer, dotProduct_sub_mul]
  have e1 : Matrix.dotProduct v (fun i => Matrix.mulVec (Matrix.of P) h i /
      (1 / w + Matrix.dotProduct h (Matrix.mulVec (Matrix.of P) h))) =
      Matrix.dotProduct v (Matrix.mulVec (Matrix.of P) h) /
        (1 / w + Matrix.dotProduct h (Matrix.mulVec (Matrix.of P) h)) := by
    simp only [Matrix.dotProduct, Finset.sum_div, mul_div_assoc]
  have e2 : Matrix.dotProduct (Matrix.mulVec (Matrix.of P) h) v =
      Matrix.dotProduct v (Matrix.mulVec (Matrix.of P) h) := by
    rw [Matrix.dotProduct_comm]
  rw [e1, e2]
  ring

theorem posDef_posSemidef {n : Nat} (P : Fin n → Fin n → ℚ) (hP : IsPosDef P) :
    IsPosSemidef P :=
  ⟨hP.1, posDef_nonneg P hP⟩

theorem kalmanRow_posDef {n : Nat} (w z : ℚ) (hw : 0 < w) (h x : Fin n → ℚ)
    (P : Fin n → Fin n → ℚ) (hP : IsPosDef P) :
    IsPosDef (kalmanRow w z h (x, P)).2 := by
  have hsd := posDef_posSemidef P hP
  refine ⟨(kalmanRow_posSemidef w z hw h x P hsd).1, fun v hv => ?_⟩
  rw [kalmanRow_quadForm]
  have hb := kalmanRow_beta_pos P hsd w hw h
  have hcs := posSemidef_cauchy_schwarz P hsd v h
  have hvv := hP.2 v hv
  have hhh := hsd.2 h
  have h1 : 0 < 1 / w := one_div_pos.mpr hw
  rw [sub_pos, div_lt_iff₀ hb]
  nlinarith [mul_pos hvv h1]

theorem rowUpdate_posDef {n : Nat} (eq : Equation n) (z : ℚ)
    (hw : 0 < effectiveWeight eq.header) (x : Fin n → ℚ)
    (P : Fin n → Fin n → ℚ) (hP : IsPosDef P) :
    IsPosDef (rowUpdate eq z (x, P)).2 := by
  rw [rowUpdate_eq_kalmanRow eq z x P hP.1]
  exact kalmanRow_posDef _ z hw _ x P hP

theorem applyRow_P {n : Nat} (eq : Equation n) (z : ℚ) (s : PassState n) :
    (applyRow eq z s).P = (rowUpdate eq z (s.xhat, s.P)).2 :=
  congrArg Prod.snd (applyRow_xhat_P eq z s)

theorem computed_dotGM_nonneg {n : Nat} (P : Fin n → Fin n → ℚ) (hP : IsPosSemidef P)
    (ig : List (Fin n × ℚ)) : 0 ≤ computeDotGM (computeM P ig) ig := by
  rw [computeDotGM_eq_dotProduct, computeM_eq_mulVec]
  exact hP.2 _

theorem quadForm_single {n : Nat} (P : Fin n → Fin n → ℚ) (i : Fin n) :
    Matrix.dotProduct (Pi.single i 1) (Matrix.mulVec (Matrix.of P) (Pi.single i 1)) = P i i := by
  simp [Matrix.mulVec_single_one, Matrix.single_dotProduct]

theorem applyRow_P_diag {n : Nat} (eq : Equation n) (z : ℚ) (s : PassState n) (i : Fin n) :
    (applyRow eq z s).P i i =
      s.P i i - computeM s.P (indexG eq) i ^ 2 /
        (1 / effectiveWeight eq.header +
          computeDotGM (computeM s.P (indexG eq)) (indexG eq)) := by
  show covarUpdate _ _ s.P i i = _
  rw [covarUpdate_apply, if_pos rfl]
  ring

theorem accRow_dotProduct_gain {n : Nat} (ig : List (Fin n × ℚ)) (M : Fin n → ℚ) (beta : ℚ) :
    computeDotGX (fun i => M i / beta) ig = computeDotGM M ig / beta := by
  rw [computeDotGX_eq_dotProduct, computeDotGM_eq_dotProduct]
  simp only [Matrix.dotProduct, Finset.sum_div, mul_div_assoc]

theorem computeDotGX_add_mul {n : Nat} (ig : List (Fin n × ℚ)) (x K : Fin n → ℚ) (c : ℚ) :
    computeDotGX (fun i => x i + K i * c) ig = computeDotGX x ig + computeDotGX K ig * c := by
  rw [computeDotGX_eq_dotProduct, computeDotGX_eq_dotProduct, computeDotGX_eq_dotProduct,
    dotProduct_add_mul]

theorem applyRow_residual {n : Nat} (eq : Equation n) (z : ℚ) (s : PassState n)
    (hb : 1 / effectiveWeight eq.header +
      computeDotGM (computeM s.P (indexG eq)) (indexG eq) ≠ 0) :
    z - computeDotGX (applyRow eq z s).xhat (indexG eq) =
      (z - computeDotGX s.xhat (indexG eq)) * (1 / effectiveWeight eq.header) /
        (1 / effectiveWeight eq.header +
          computeDotGM (computeM s.P (indexG eq)) (indexG eq)) := by
  show z - computeDotGX (fun i => s.xhat i + computeM s.P (indexG eq) i /
      (1 / effectiveWeight eq.header + computeDotGM (computeM s.P (indexG eq)) (indexG eq)) *
      (z - computeDotGX s.xhat (indexG eq))) (indexG eq) = _
  rw [computeDotGX_add_mul, accRow_dotProduct_gain]
  generalize 1 / effectiveWeight eq.header = a at hb ⊢
  generalize computeDotGM (computeM s.P (indexG eq)) (indexG eq) = d at hb ⊢
  generalize computeDotGX s.xhat (indexG eq) = g
  field_simp
  ring

theorem Double_add_mul_finite (x k r : ℚ) :
    (Double.finite x).add ((Double.finite k).mul (Double.finite r)) =
      Double.finite (x + k * r) := rfl

theorem Double_isFinite_add_mul_div_zero (x m r : ℚ) :
    ((Double.finite x).add
      (((Double.finite m).div (Double.finite 0)).mul (Double.finite r))).isFinite = false := by
  by_cases hM : m = 0
  · simp [Double.div, Double.mul, Double.add, Double.isFinite, hM]
  · by_cases hr : r = 0
    · simp [Double.div, Double.mul, Double.add, Double.isFinite, hM, hr]
    · simp [Double.div, Double.mul, Double.add, Double.isFinite, hM, hr]

theorem betaDouble_of_weight_ne_zero {n : Nat} (eq : Equation n) (P : Fin n → Fin n → ℚ)
    (hw : effectiveWeight eq.header ≠ 0) :
    betaDouble eq P =
      Double.finite (1 / effectiveWeight eq.header +
        computeDotGM (computeM P (indexG eq)) (indexG eq)) := by
  simp [betaDouble, hw, Double.div, Double.add]

theorem rowUpdateDouble_of_beta_zero {n : Nat} (eq : Equation n) (z : ℚ)
    (xP : (Fin n → ℚ) × (Fin n → Fin n → ℚ)) (hw : effectiveWeight eq.header ≠ 0)
    (hb : 1 / effectiveWeight eq.header +
      computeDotGM (computeM xP.2 (indexG eq)) (indexG eq) = 0) (i : Fin n) :
    ((rowUpdateDouble eq z xP).1 i).isFinite = false := by
  unfold rowUpdateDouble
  simp only [betaDouble_of_weight_ne_zero eq xP.2 hw, hb]
  exact Double_isFinite_add_mul_div_zero _ _ _

theorem rowUpdateFinite_of_beta_zero {n : Nat} (eq : Equation n) (z : ℚ)
    (xP : (Fin n → ℚ) × (Fin n → Fin n → ℚ)) (hw : effectiveWeight eq.header ≠ 0)
    (hb : 1 / effectiveWeight eq.header +
      computeDotGM (computeM xP.2 (indexG eq)) (indexG eq) = 0) (i : Fin n) :
    rowUpdateFinite eq z xP = none := by
  unfold rowUpdateFinite
  have h := rowUpdateDouble_of_beta_zero eq z xP hw hb i
  have hno : ¬ ((∀ k, ((rowUpdateDouble eq z xP).1 k).isFinite = true) ∧
      (∀ k j, ((rowUpdateDouble eq z xP).2 k j).isFinite = true)) := by
    rintro ⟨h1, _⟩
    rw [h1 i] at h
    cases h
  simp only [hno, if_false]

/-- C1: single-row state update.  For an equation whose independent term resolves
    to `z`, with effective weight `w`, whose variables have pairwise distinct
    indices, and for the full-length row `h` (holding `G(j)` at `index(j)` and `0`
    elsewhere), the row of `Process` completes and leaves `M = P·hᵗ`,
    `K = M/β` with `β = 1/w + h·M`, and `x' = x + (P·hᵗ)·(z − h·x)/(1/w + h·P·hᵗ)`. -/
theorem processRow_state_update {n : Nat} (eq : Equation n) (s : PassState n) (z : ℚ)
    (h : Fin n → ℚ)
    (hz : eq.header.typeValueData eq.header.indTerm = some z)
    (hdistinct : (eq.body.map (fun vc => vc.1.nowIndex)).Nodup)
    (hh : IsFullRow (indexG eq) h) :
    ∃ s1, processRow eq s = Except.ok s1 ∧
      s1.M = Matrix.mulVec (Matrix.of s.P) h ∧
      (∀ i, s1.K i = s1.M i / (1 / effectiveWeight eq.header + Matrix.dotProduct h s1.M)) ∧
      (∀ i, s1.xhat i = s.xhat i + s1.K i * (z - Matrix.dotProduct h s.xhat)) ∧
      ∀ i, s1.xhat i = s.xhat i +
        Matrix.mulVec (Matrix.of s.P) h i * (z - Matrix.dotProduct h s.xhat) /
          (1 / effectiveWeight eq.header +
            Matrix.dotProduct h (Matrix.mulVec (Matrix.of s.P) h)) := by
  have hacc : accRow (indexG eq) = h :=
    accRow_eq_of_isFullRow _ _ (by rw [indexG_map_fst]; exact hdistinct) hh
  have hM : (applyRow eq z s).M = Matrix.mulVec (Matrix.of s.P) h := by
    rw [← hacc]; exact computeM_eq_mulVec s.P (indexG eq)
  have hK : ∀ i, (applyRow eq z s).K i =
      (applyRow eq z s).M i / (1 / effectiveWeight eq.header + Matrix.dotProduct h (applyRow eq z s).M) := by
    intro i
    rw [← hacc, ← computeDotGM_eq_dotProduct]
    rfl
  have hx : ∀ i, (applyRow eq z s).xhat i =
      s.xhat i + (applyRow eq z s).K i * (z - Matrix.dotProduct h s.xhat) := by
    intro i
    rw [← hacc, ← computeDotGX_eq_dotProduct]
    rfl
  refine ⟨applyRow eq z s, processRow_of_some eq s z hz, hM, hK, hx, ?_⟩
  intro i
  rw [hx i, hK i, hM]
  ring

theorem processRow_state_update_witness :
    eqAB.header.typeValueData eqAB.header.indTerm = some 5 ∧
    (eqAB.body.map (fun vc => vc.1.nowIndex)).Nodup ∧
    IsFullRow (indexG eqAB) (fun _ => 1) ∧
    ∃ s1, processRow eqAB stateAB = Except.ok s1 ∧
      s1.M = Matrix.mulVec (Matrix.of stateAB.P) (fun _ => 1) ∧
      (∀ i, s1.K i = s1.M i / (1 / effectiveWeight eqAB.header + Matrix.dotProduct (fun _ => 1) s1.M)) ∧
      (∀ i, s1.xhat i = stateAB.xhat i + s1.K i * (5 - Matrix.dotProduct (fun _ => 1) stateAB.xhat)) ∧
      ∀ i, s1.xhat i = stateAB.xhat i +
        Matrix.mulVec (Matrix.of stateAB.P) (fun _ => 1) i *
            (5 - Matrix.dotProduct (fun _ => 1) stateAB.xhat) /
          (1 / effectiveWeight eqAB.header +
            Matrix.dotProduct (fun _ => 1) (Matrix.mulVec (Matrix.of stateAB.P) (fun _ => 1))) :=
  have h1 : eqAB.header.typeValueData eqAB.header.indTerm = some 5 := by
    simp [eqAB, bagAB]
  have h2 : (eqAB.body.map (fun vc => vc.1.nowIndex)).Nodup := by
    simp [eqAB]
  have h3 : IsFullRow (indexG eqAB) (fun _ => 1) := by
    constructor
    · intro p hp
      simp [indexG, eqAB, tempCoef] at hp
      rcases hp with rfl | rfl <;> rfl
    · intro k hk
      exfalso
      fin_cases k
      · exact hk (0, 1) (by simp [indexG, eqAB, tempCoef]) rfl
      · exact hk (1, 1) (by simp [indexG, eqAB, tempCoef]) rfl
  ⟨h1, h2, h3, processRow_state_update eqAB stateAB 5 (fun _ => 1) h1 h2 h3⟩

/-- C2: single-row covariance update.  For a symmetric `P` and a gain
    `K = M/β`, the triangular in-place loop of lines 397-408 produces the full
    matrix `P − K·Mᵗ` (outer product) on every entry `(i,j)`. -/
theorem covarUpdate_eq_sub_outer {n : Nat} (P : Fin n → Fin n → ℚ) (M : Fin n → ℚ) (beta : ℚ)
    (hs : IsSymmetric P) (i j : Fin n) :
    covarUpdate (fun k => M k / beta) M P i j =
      (Matrix.of P - Matrix.vecMulVec (fun k => M k / beta) M) i j := by
  rw [covarUpdate_of_symmetric _ _ _ hs (fun a b => by ring)]
  simp [Matrix.vecMulVec_apply]

theorem covarUpdate_eq_sub_outer_witness :
    IsSymmetric priorAB ∧
    covarUpdate (fun k => gainAB k / 20001) gainAB priorAB 1 0 =
      (Matrix.of priorAB - Matrix.vecMulVec (fun k => gainAB k / 20001) gainAB) 1 0 :=
  have h1 : IsSymmetric priorAB := by
    intro i j
    simp [priorAB, eq_comm]
  ⟨h1, covarUpdate_eq_sub_outer priorAB gainAB 20001 h1 1 0⟩

/-- C3: covariance symmetry invariant.  Every single-row update performed by
    `Process` leaves `P(i,j) = P(j,i)` for all `i, j` (whatever the matrix was
    before the row), and the covariance matrix committed after a pass is
    symmetric (for an empty equation list: as symmetric as the matrix read from
    the State Store). -/
theorem covariance_symmetric {n : Nat}
    (getStateVector : VariableSet n → Except Exception (Fin n → ℚ))
    (getCovarMatrix : VariableSet n → Except Exception (Fin n → Fin n → ℚ))
    (sys : EquationSystem n) (x0 : Fin n → ℚ) (P0 : Fin n → Fin n → ℚ) (z : Equation n → ℚ)
    (hx : getStateVector sys.currentUnknowns = Except.ok x0)
    (hP : getCovarMatrix sys.currentUnknowns = Except.ok P0)
    (hz : ∀ e ∈ sys.equList, e.header.typeValueData e.header.indTerm = some (z e))
    (h0 : sys.equList ≠ [] ∨ IsSymmetric P0) :
    (∀ e ∈ sys.equList, ∀ s : PassState n,
      ∃ s1, processRow e s = Except.ok s1 ∧ ∀ i j, s1.P i j = s1.P j i) ∧
    ∃ r, Process getStateVector getCovarMatrix sys = Except.ok r ∧
      ∀ i j, r.store.covarMatrix i j = r.store.covarMatrix j i := by
  constructor
  · intro e he s
    exact ⟨_, processRow_of_some e s (z e) (hz e he), covarUpdate_symmetric _ _ _⟩
  · obtain ⟨r, hr, hstore⟩ := Process_of_some getStateVector getCovarMatrix sys x0 P0 z hx hP hz
    refine ⟨r, hr, ?_⟩
    rw [hstore]
    exact foldl_rowUpdate_symmetric sys.equList z (x0, P0) h0

theorem covariance_symmetric_witness :
    (fun _ : VariableSet 2 => (Except.ok (fun _ => 0) : Except Exception (Fin 2 → ℚ)))
        ([] : VariableSet 2) = Except.ok (fun _ => 0) ∧
    (fun _ : VariableSet 2 => (Except.ok priorAB : Except Exception (Fin 2 → Fin 2 → ℚ)))
        ([] : VariableSet 2) = Except.ok priorAB ∧
    (∀ e ∈ [eqAB], e.header.typeValueData e.header.indTerm = some ((fun _ => (5 : ℚ)) e)) ∧
    ([eqAB] ≠ [] ∨ IsSymmetric priorAB) ∧
    ((∀ e ∈ [eqAB], ∀ s : PassState 2,
      ∃ s1, processRow e s = Except.ok s1 ∧ ∀ i j, s1.P i j = s1.P j i) ∧
    ∃ r, Process (fun _ => Except.ok (fun _ => 0)) (fun _ => Except.ok priorAB)
        { currentUnknowns := [], equList := [eqAB] } = Except.ok r ∧
      ∀ i j, r.store.covarMatrix i j = r.store.covarMatrix j i) :=
  have h3 : ∀ e ∈ [eqAB],
      e.header.typeValueData e.header.indTerm = some ((fun _ => (5 : ℚ)) e) := by
    intro e he
    rw [List.mem_singleton.mp he]
    simp [eqAB, bagAB]
  have h4 : [eqAB] ≠ [] ∨ IsSymmetric priorAB := Or.inl (by simp)
  ⟨rfl, rfl, h3, h4,
    covariance_symmetric (fun _ => Except.ok (fun _ => 0)) (fun _ => Except.ok priorAB)
      { currentUnknowns := [], equList := [eqAB] } (fun _ => 0) priorAB (fun _ => 5)
      rfl rfl h3 h4⟩

/-- C4: ordering guarantee.  When the two reads of the State Store give `x0` and
    `P0`, the state vector and covariance matrix that `Process` commits are the
    left fold of the single-row update over the equation list in its input
    order, started from `(x0, P0)`: each row works on the `x` and `P` left by all
    earlier rows.  `Process` commits exactly when every independent term
    resolves. -/
theorem Process_commits_foldl {n : Nat}
    (getStateVector : VariableSet n → Except Exception (Fin n → ℚ))
    (getCovarMatrix : VariableSet n → Except Exception (Fin n → Fin n → ℚ))
    (sys : EquationSystem n) (x0 : Fin n → ℚ) (P0 : Fin n → Fin n → ℚ)
    (hx : getStateVector sys.currentUnknowns = Except.ok x0)
    (hP : getCovarMatrix sys.currentUnknowns = Except.ok P0) :
    (∀ z : Equation n → ℚ,
      (∀ e ∈ sys.equList, e.header.typeValueData e.header.indTerm = some (z e)) →
      ∃ r, Process getStateVector getCovarMatrix sys = Except.ok r ∧
        r.store =
          { numUnknowns := n,
            stateVector := (sys.equList.foldl (fun xP e => rowUpdate e (z e) xP) (x0, P0)).1,
            covarMatrix := (sys.equList.foldl (fun xP e => rowUpdate e (z e) xP) (x0, P0)).2,
            variableSet := sys.currentUnknowns }) ∧
    (∀ r, Process getStateVector getCovarMatrix sys = Except.ok r →
      ∃ z : Equation n → ℚ,
        (∀ e ∈ sys.equList, e.header.typeValueData e.header.indTerm = some (z e)) ∧
        r.store =
          { numUnknowns := n,
            stateVector := (sys.equList.foldl (fun xP e => rowUpdate e (z e) xP) (x0, P0)).1,
            covarMatrix := (sys.equList.foldl (fun xP e => rowUpdate e (z e) xP) (x0, P0)).2,
            variableSet := sys.currentUnknowns }) := by
  constructor
  · intro z hz
    exact Process_of_some getStateVector getCovarMatrix sys x0 P0 z hx hP hz
  · intro r hr
    have hsome := Process_isSome_of_ok getStateVector getCovarMatrix sys r hr
    let z : Equation n → ℚ := fun e => (e.header.typeValueData e.header.indTerm).getD 0
    have hz : ∀ e ∈ sys.equList, e.header.typeValueData e.header.indTerm = some (z e) := by
      intro e he
      obtain ⟨v, hv⟩ := Option.isSome_iff_exists.mp (hsome e he)
      simp [z, hv]
    obtain ⟨r1, hr1, hstore⟩ :=
      Process_of_some getStateVector getCovarMatrix sys x0 P0 z hx hP hz
    rw [hr] at hr1
    cases hr1
    exact ⟨z, hz, hstore⟩

theorem Process_commits_foldl_witness :
    ∃ r, Process (fun _ => Except.ok (fun _ => 0)) (fun _ => Except.ok priorAB)
        { currentUnknowns := [], equList := [eqAB, eqAB] } = Except.ok r ∧
      r.store =
        { numUnknowns := 2,
          stateVector := (([eqAB, eqAB] : List (Equation 2)).foldl
            (fun xP e => rowUpdate e ((fun _ => (5 : ℚ)) e) xP) ((fun _ => 0), priorAB)).1,
          covarMatrix := (([eqAB, eqAB] : List (Equation 2)).foldl
            (fun xP e => rowUpdate e ((fun _ => (5 : ℚ)) e) xP) ((fun _ => 0), priorAB)).2,
          variableSet := [] } :=
  (Process_commits_foldl (fun _ => Except.ok (fun _ => 0)) (fun _ => Except.ok priorAB)
    { currentUnknowns := [], equList := [eqAB, eqAB] } (fun _ => 0) priorAB rfl rfl).1
    (fun _ => 5)
    (by
      intro e he
      have he1 : e = eqAB := by simpa using he
      rw [he1]
      simp [eqAB, bagAB])

/-- C5: equivalence with weighted least squares.  For a symmetric
    positive-definite prior covariance `P0`, prior estimate `x0` and an equation
    list with positive effective weights `w_r`, coefficient rows `h_r` (distinct
    indices within each row) and independent terms `z_r`, the pass of `Process`
    commits `P = (P0⁻¹ + Σ_r w_r·h_rᵗ·h_r)⁻¹` and
    `x = P·(P0⁻¹·x0 + Σ_r w_r·h_rᵗ·z_r)`, the batch weighted-least-squares
    solution with diagonal weights; the inverses are genuine inverses. -/
theorem sequential_eq_weighted_least_squares {n : Nat}
    (getStateVector : VariableSet n → Except Exception (Fin n → ℚ))
    (getCovarMatrix : VariableSet n → Except Exception (Fin n → Fin n → ℚ))
    (sys : EquationSystem n) (x0 : Fin n → ℚ) (P0 : Fin n → Fin n → ℚ) (z : Equation n → ℚ)
    (hx : getStateVector sys.currentUnknowns = Except.ok x0)
    (hP : getCovarMatrix sys.currentUnknowns = Except.ok P0)
    (hpd : IsPosDef P0)
    (hw : ∀ e ∈ sys.equList, 0 < effectiveWeight e.header)
    (hz : ∀ e ∈ sys.equList, e.header.typeValueData e.header.indTerm = some (z e))
    (hdistinct : ∀ e ∈ sys.equList, (e.body.map (fun vc => vc.1.nowIndex)).Nodup) :
    ∃ r, Process getStateVector getCovarMatrix sys = Except.ok r ∧
      ∃ (x : Fin n → ℚ) (P : Fin n → Fin n → ℚ),
        r.store = { numUnknowns := n, stateVector := x, covarMatrix := P,
                    variableSet := sys.currentUnknowns } ∧
        Matrix.of P0 * (Matrix.of P0)⁻¹ = 1 ∧
        ((Matrix.of P0)⁻¹ + (sys.equList.map (fun e => effectiveWeight e.header •
            Matrix.vecMulVec (hRow e (fun _ => 0)) (hRow e (fun _ => 0)))).sum) *
          Matrix.of P = 1 ∧
        Matrix.of P =
          ((Matrix.of P0)⁻¹ + (sys.equList.map (fun e => effectiveWeight e.header •
            Matrix.vecMulVec (hRow e (fun _ => 0)) (hRow e (fun _ => 0)))).sum)⁻¹ ∧
        x = Matrix.mulVec (Matrix.of P)
          (Matrix.mulVec (Matrix.of P0)⁻¹ x0 +
            (sys.equList.map (fun e => (effectiveWeight e.header * z e) •
              hRow e (fun _ => 0))).sum) := by
  obtain ⟨r, hr, hstore⟩ :=
    Process_of_some getStateVector getCovarMatrix sys x0 P0 z hx hP hz
  have hu := posDef_isUnit_det P0 hpd
  have hinfo := foldl_rowUpdate_information sys.equList z hw (Matrix.of P0)⁻¹
    (Matrix.mulVec (Matrix.of P0)⁻¹ x0) x0 P0 hpd.1 (Matrix.nonsing_inv_mul _ hu)
    (posDef_inv_nonneg P0 hpd) rfl
  have hrow : ∀ e ∈ sys.equList, accRow (indexG e) = hRow e (fun _ => 0) := by
    intro e he
    have hnd : ((indexG e).map Prod.fst).Nodup := by
      rw [indexG_map_fst]
      exact hdistinct e he
    exact accRow_eq_of_isFullRow _ _ hnd (hRow_isFullRow e hnd)
  have hsumA : (sys.equList.map (fun e => effectiveWeight e.header •
        Matrix.vecMulVec (accRow (indexG e)) (accRow (indexG e)))) =
      (sys.equList.map (fun e => effectiveWeight e.header •
        Matrix.vecMulVec (hRow e (fun _ => 0)) (hRow e (fun _ => 0)))) :=
    List.map_congr_left (fun e he => by rw [hrow e he])
  have hsumb : (sys.equList.map (fun e => (effectiveWeight e.header * z e) •
        accRow (indexG e))) =
      (sys.equList.map (fun e => (effectiveWeight e.header * z e) • hRow e (fun _ => 0))) :=
    List.map_congr_left (fun e he => by rw [hrow e he])
  rw [hsumA, hsumb] at hinfo
  refine ⟨r, hr, _, _, hstore, Matrix.mul_nonsing_inv _ hu, hinfo.1,
    (Matrix.inv_eq_right_inv hinfo.1).symm, ?_⟩
  rw [← hinfo.2, Matrix.mulVec_mulVec, Matrix.mul_eq_one_comm.mp hinfo.1, Matrix.one_mulVec]

theorem sequential_eq_weighted_least_squares_witness :
    IsPosDef priorAB ∧
    (∀ e ∈ [eqAB, eqA], 0 < effectiveWeight e.header) ∧
    (∀ e ∈ [eqAB, eqA], e.header.typeValueData e.header.indTerm = some ((fun _ => (5 : ℚ)) e)) ∧
    (∀ e ∈ [eqAB, eqA], (e.body.map (fun vc => vc.1.nowIndex)).Nodup) ∧
    ∃ r, Process (fun _ => Except.ok (fun _ => 0)) (fun _ => Except.ok priorAB)
        { currentUnknowns := [], equList := [eqAB, eqA] } = Except.ok r ∧
      ∃ (x : Fin 2 → ℚ) (P : Fin 2 → Fin 2 → ℚ),
        r.store = { numUnknowns := 2, stateVector := x, covarMatrix := P,
                    variableSet := [] } ∧
        Matrix.of priorAB * (Matrix.of priorAB)⁻¹ = 1 ∧
        ((Matrix.of priorAB)⁻¹ + (([eqAB, eqA] : List (Equation 2)).map
            (fun e => effectiveWeight e.header •
              Matrix.vecMulVec (hRow e (fun _ => 0)) (hRow e (fun _ => 0)))).sum) *
          Matrix.of P = 1 ∧
        Matrix.of P =
          ((Matrix.of priorAB)⁻¹ + (([eqAB, eqA] : List (Equation 2)).map
            (fun e => effectiveWeight e.header •
              Matrix.vecMulVec (hRow e (fun _ => 0)) (hRow e (fun _ => 0)))).sum)⁻¹ ∧
        x = Matrix.mulVec (Matrix.of P)
          (Matrix.mulVec (Matrix.of priorAB)⁻¹ (fun _ => 0) +
            (([eqAB, eqA] : List (Equation 2)).map
              (fun e => (effectiveWeight e.header * (fun _ => (5 : ℚ)) e) •
                hRow e (fun _ => 0))).sum) :=
  have hw : ∀ e ∈ [eqAB, eqA], 0 < effectiveWeight e.header := by
    intro e he
    rcases List.mem_cons.mp he with rfl | he1
    · simp [effectiveWeight, eqAB, bagAB]
    · rw [List.mem_singleton.mp he1]
      simp [effectiveWeight, eqA, bagAB]
  have hz : ∀ e ∈ [eqAB, eqA],
      e.header.typeValueData e.header.indTerm = some ((fun _ => (5 : ℚ)) e) := by
    intro e he
    rcases List.mem_cons.mp he with rfl | he1
    · simp [eqAB, bagAB]
    · rw [List.mem_singleton.mp he1]
      simp [eqA, bagAB]
  have hd : ∀ e ∈ [eqAB, eqA], (e.body.map (fun vc => vc.1.nowIndex)).Nodup := by
    intro e he
    rcases List.mem_cons.mp he with rfl | he1
    · simp [eqAB]
    · rw [List.mem_singleton.mp he1]
      simp [eqA]
  ⟨priorAB_posDef, hw, hz, hd,
    sequential_eq_weighted_least_squares (fun _ => Except.ok (fun _ => 0))
      (fun _ => Except.ok priorAB) { currentUnknowns := [], equList := [eqAB, eqA] }
      (fun _ => 0) priorAB (fun _ => 5) rfl rfl priorAB_posDef hw hz hd⟩

/-- C6: new-unknown closed form.  A pass of one equation over a single unknown
    with coefficient `1`, weight `w > 0` and independent term `z`, started from
    `x = [0]` and `P = [[v]]` with `v > 0`, commits the variance `1/(1/v + w)`
    and the mean `z·w·v/(1 + w·v)`. -/
theorem new_unknown_closed_form
    (getStateVector : VariableSet 1 → Except Exception (Fin 1 → ℚ))
    (getCovarMatrix : VariableSet 1 → Except Exception (Fin 1 → Fin 1 → ℚ))
    (sys : EquationSystem 1) (eq : Equation 1) (v w z : ℚ)
    (hv : 0 < v) (hw : 0 < w)
    (hx : getStateVector sys.currentUnknowns = Except.ok (fun _ => 0))
    (hP : getCovarMatrix sys.currentUnknowns = Except.ok (fun _ _ => v))
    (hl : sys.equList = [eq])
    (hz : eq.header.typeValueData eq.header.indTerm = some z)
    (hweight : effectiveWeight eq.header = w)
    (hG : indexG eq = [(0, 1)]) :
    ∃ r, Process getStateVector getCovarMatrix sys = Except.ok r ∧
      ∃ (x : Fin 1 → ℚ) (P : Fin 1 → Fin 1 → ℚ),
        r.store = { numUnknowns := 1, stateVector := x, covarMatrix := P,
                    variableSet := sys.currentUnknowns } ∧
        P 0 0 = 1 / (1 / v + w) ∧ x 0 = z * w * v / (1 + w * v) := by
  have hzs : ∀ e ∈ sys.equList,
      e.header.typeValueData e.header.indTerm = some ((fun _ => z) e) := by
    intro e he
    rw [hl] at he
    rw [List.mem_singleton.mp he]
    exact hz
  obtain ⟨r, hr, hstore⟩ :=
    Process_of_some getStateVector getCovarMatrix sys _ _ (fun _ => z) hx hP hzs
  refine ⟨r, hr, _, _, hstore, ?_, ?_⟩
  · have hv0 : v ≠ 0 := ne_of_gt hv
    have hw0 : w ≠ 0 := ne_of_gt hw
    have h1 : 1 + w * v ≠ 0 := by positivity
    have h2 : 1 + v * w ≠ 0 := by positivity
    have h3 : v + w⁻¹ ≠ 0 := by positivity
    simp only [hl, List.foldl_cons, List.foldl_nil, rowUpdate, hweight, hG, covarUpdate_apply,
      computeM, computeDotGM]
    simp
    field_simp
    ring
  · have hv0 : v ≠ 0 := ne_of_gt hv
    have hw0 : w ≠ 0 := ne_of_gt hw
    have h1 : 1 + w * v ≠ 0 := by positivity
    simp only [hl, List.foldl_cons, List.foldl_nil, rowUpdate, hweight, hG,
      computeM, computeDotGM, computeDotGX]
    simp
    field_simp
    ring

theorem new_unknown_closed_form_witness :
    (0 : ℚ) < 10000 ∧ (0 : ℚ) < 1 ∧
    eqNew.header.typeValueData eqNew.header.indTerm = some 5 ∧
    effectiveWeight eqNew.header = 1 ∧ indexG eqNew = [(0, 1)] ∧
    ∃ r, Process (fun _ => Except.ok (fun _ => 0)) (fun _ => Except.ok (fun _ _ => 10000))
        { currentUnknowns := [], equList := [eqNew] } = Except.ok r ∧
      ∃ (x : Fin 1 → ℚ) (P : Fin 1 → Fin 1 → ℚ),
        r.store = { numUnknowns := 1, stateVector := x, covarMatrix := P,
                    variableSet := [] } ∧
        P 0 0 = 1 / (1 / 10000 + 1) ∧ x 0 = 5 * 1 * 10000 / (1 + 1 * 10000) :=
  have h1 : (0 : ℚ) < 10000 := by norm_num
  have h2 : (0 : ℚ) < 1 := by norm_num
  have h3 : eqNew.header.typeValueData eqNew.header.indTerm = some 5 := by
    simp [eqNew, bagAB]
  have h4 : effectiveWeight eqNew.header = 1 := by
    simp [effectiveWeight, eqNew, bagAB]
  have h5 : indexG eqNew = [(0, 1)] := by
    simp [indexG, eqNew, tempCoef]
  ⟨h1, h2, h3, h4, h5,
    new_unknown_closed_form (fun _ => Except.ok (fun _ => 0))
      (fun _ => Except.ok (fun _ _ => 10000)) { currentUnknowns := [], equList := [eqNew] }
      eqNew 10000 1 5 h1 h2 rfl rfl rfl h3 h4 h5⟩

/-- C7: permutation equivalence in exact arithmetic.  For a symmetric
    positive-semidefinite `P`, any `x`, and two equations with positive weights
    whose sets of referenced unknowns are disjoint, the two single-row updates
    give the same estimate and the same covariance in either order; hence
    `Process` commits the same state for any permutation of a list of
    pairwise-disjoint equations.  (The proof does not use disjointness.) -/
theorem disjoint_updates_commute {n : Nat} :
    (∀ (x : Fin n → ℚ) (P : Fin n → Fin n → ℚ) (e1 e2 : Equation n) (z1 z2 : ℚ),
      IsPosSemidef P → 0 < effectiveWeight e1.header → 0 < effectiveWeight e2.header →
      DisjointUnknowns e1 e2 →
      rowUpdate e2 z2 (rowUpdate e1 z1 (x, P)) = rowUpdate e1 z1 (rowUpdate e2 z2 (x, P))) ∧
    (∀ (getStateVector : VariableSet n → Except Exception (Fin n → ℚ))
      (getCovarMatrix : VariableSet n → Except Exception (Fin n → Fin n → ℚ))
      (sys sys1 : EquationSystem n) (x0 : Fin n → ℚ) (P0 : Fin n → Fin n → ℚ)
      (z : Equation n → ℚ),
      getStateVector sys.currentUnknowns = Except.ok x0 →
      getCovarMatrix sys.currentUnknowns = Except.ok P0 →
      sys1.currentUnknowns = sys.currentUnknowns →
      sys.equList.Perm sys1.equList →
      IsPosSemidef P0 →
      (∀ e ∈ sys.equList, 0 < effectiveWeight e.header) →
      (∀ e ∈ sys.equList, e.header.typeValueData e.header.indTerm = some (z e)) →
      sys.equList.Pairwise DisjointUnknowns →
      ∃ r r1, Process getStateVector getCovarMatrix sys = Except.ok r ∧
        Process getStateVector getCovarMatrix sys1 = Except.ok r1 ∧
        r.store = r1.store) := by
  constructor
  · intro x P e1 e2 z1 z2 hP hw1 hw2 _
    exact rowUpdate_comm e1 e2 z1 z2 hw1 hw2 x P hP
  · intro getStateVector getCovarMatrix sys sys1 x0 P0 z hx hP hu hperm hpsd hw hz _
    have hz1 : ∀ e ∈ sys1.equList, e.header.typeValueData e.header.indTerm = some (z e) :=
      fun e he => hz e (hperm.mem_iff.mpr he)
    obtain ⟨r, hr, hstore⟩ :=
      Process_of_some getStateVector getCovarMatrix sys x0 P0 z hx hP hz
    obtain ⟨r1, hr1, hstore1⟩ :=
      Process_of_some getStateVector getCovarMatrix sys1 x0 P0 z (hu ▸ hx) (hu ▸ hP) hz1
    refine ⟨r, r1, hr, hr1, ?_⟩
    rw [hstore, hstore1, hu, foldl_rowUpdate_perm _ _ hperm z hw x0 P0 hpsd]

theorem disjoint_updates_commute_witness :
    IsPosSemidef priorAB ∧ 0 < effectiveWeight eqA.header ∧ 0 < effectiveWeight eqB.header ∧
    DisjointUnknowns eqA eqB ∧
    rowUpdate eqB 7 (rowUpdate eqA 5 ((fun _ => 0), priorAB)) =
      rowUpdate eqA 5 (rowUpdate eqB 7 ((fun _ => 0), priorAB)) ∧
    ∃ r r1,
      Process (fun _ => Except.ok (fun _ => 0)) (fun _ => Except.ok priorAB)
        { currentUnknowns := [], equList := [eqA, eqB] } = Except.ok r ∧
      Process (fun _ => Except.ok (fun _ => 0)) (fun _ => Except.ok priorAB)
        { currentUnknowns := [], equList := [eqB, eqA] } = Except.ok r1 ∧
      r.store = r1.store :=
  have hA : 0 < effectiveWeight eqA.header := by
    simp [effectiveWeight, eqA, bagAB]
  have hB : 0 < effectiveWeight eqB.header := by
    simp [effectiveWeight, eqB, headerL, bagW]
  have hd : DisjointUnknowns eqA eqB := by
    simp [DisjointUnknowns, eqA, eqB]
  have hw : ∀ e ∈ [eqA, eqB], 0 < effectiveWeight e.header := by
    intro e he
    rcases List.mem_cons.mp he with rfl | he1
    · exact hA
    · rw [List.mem_singleton.mp he1]
      exact hB
  have hz : ∀ e ∈ [eqA, eqB], e.header.typeValueData e.header.indTerm =
      some ((fun e : Equation 2 => (e.header.typeValueData e.header.indTerm).getD 0) e) := by
    intro e he
    rcases List.mem_cons.mp he with rfl | he1
    · simp [eqA, bagAB]
    · rw [List.mem_singleton.mp he1]
      simp [eqB, headerL, bagW]
  have hpw : ([eqA, eqB] : List (Equation 2)).Pairwise DisjointUnknowns := by
    simp [hd]
  ⟨priorAB_posSemidef, hA, hB, hd,
    disjoint_updates_commute.1 (fun _ => 0) priorAB eqA eqB 5 7 priorAB_posSemidef hA hB hd,
    disjoint_updates_commute.2 (fun _ => Except.ok (fun _ => 0)) (fun _ => Except.ok priorAB)
      { currentUnknowns := [], equList := [eqA, eqB] }
      { currentUnknowns := [], equList := [eqB, eqA] } (fun _ => 0) priorAB
      (fun e => (e.header.typeValueData e.header.indTerm).getD 0)
      rfl rfl rfl (List.Perm.swap eqB eqA []) priorAB_posSemidef hw hz hpw⟩

/-- C8: end-to-end epoch 1.  From `x = [0, 0]` and `P = diag(10000, 10000)` the
    equation `z = 5, w = 1, G = [1, 1]` over `(A, B)` commits the equal
    estimates `50000/20001` for `A` and `B`, whose sum `100000/20001` explains
    `z = 5` up to the residual `5/20001`; more generally, with equal prior
    variances, zero cross-covariance, zero prior mean and equal coefficients
    the two committed estimates are equal. -/
theorem epoch1_equal_split :
    (∃ r, Process (fun _ => Except.ok (fun _ => 0)) (fun _ => Except.ok priorAB)
        { currentUnknowns := [], equList := [eqAB] } = Except.ok r ∧
      ∃ (x : Fin 2 → ℚ) (P : Fin 2 → Fin 2 → ℚ),
        r.store = { numUnknowns := 2, stateVector := x, covarMatrix := P,
                    variableSet := [] } ∧
        x 0 = 50000 / 20001 ∧ x 1 = 50000 / 20001 ∧ x 0 = x 1 ∧
        x 0 + x 1 = 100000 / 20001 ∧ 5 - (x 0 + x 1) = 5 / 20001) ∧
    ∀ (getStateVector : VariableSet 2 → Except Exception (Fin 2 → ℚ))
      (getCovarMatrix : VariableSet 2 → Except Exception (Fin 2 → Fin 2 → ℚ))
      (sys : EquationSystem 2) (eq : Equation 2) (v g z : ℚ),
      getStateVector sys.currentUnknowns = Except.ok (fun _ => 0) →
      getCovarMatrix sys.currentUnknowns = Except.ok (fun i j => if i = j then v else 0) →
      sys.equList = [eq] →
      eq.header.typeValueData eq.header.indTerm = some z →
      indexG eq = [(0, g), (1, g)] →
      ∃ r, Process getStateVector getCovarMatrix sys = Except.ok r ∧
        ∃ (x : Fin 2 → ℚ) (P : Fin 2 → Fin 2 → ℚ),
          r.store = { numUnknowns := 2, stateVector := x, covarMatrix := P,
                      variableSet := sys.currentUnknowns } ∧
          x 0 = x 1 := by
  constructor
  · have hzs : ∀ e ∈ [eqAB],
        e.header.typeValueData e.header.indTerm = some ((fun _ => (5 : ℚ)) e) := by
      intro e he
      rw [List.mem_singleton.mp he]
      simp [eqAB, bagAB]
    obtain ⟨r, hr, hstore⟩ :=
      Process_of_some (fun _ => Except.ok (fun _ => 0)) (fun _ => Except.ok priorAB)
        { currentUnknowns := [], equList := [eqAB] } (fun _ => 0) priorAB (fun _ => 5)
        rfl rfl hzs
    have hw : effectiveWeight eqAB.header = 1 := by
      simp [effectiveWeight, eqAB, bagAB]
    have hG : indexG eqAB = [(0, 1), (1, 1)] := by
      simp [indexG, eqAB, tempCoef]
    have e0 : (rowUpdate eqAB 5 ((fun _ => 0), priorAB)).1 0 = 50000 / 20001 := by
      simp only [rowUpdate, hw, hG, computeM, computeDotGM, computeDotGX, priorAB]
      simp
      norm_num
    have e1 : (rowUpdate eqAB 5 ((fun _ => 0), priorAB)).1 1 = 50000 / 20001 := by
      simp only [rowUpdate, hw, hG, computeM, computeDotGM, computeDotGX, priorAB]
      simp
      norm_num
    refine ⟨r, hr, _, _, hstore, e0, e1, ?_, ?_, ?_⟩
    · exact e0.trans e1.symm
    · show (rowUpdate eqAB 5 ((fun _ => 0), priorAB)).1 0 +
        (rowUpdate eqAB 5 ((fun _ => 0), priorAB)).1 1 = 100000 / 20001
      rw [e0, e1]; norm_num
    · show 5 - ((rowUpdate eqAB 5 ((fun _ => 0), priorAB)).1 0 +
        (rowUpdate eqAB 5 ((fun _ => 0), priorAB)).1 1) = 5 / 20001
      rw [e0, e1]; norm_num
  · intro getStateVector getCovarMatrix sys eq v g z hx hP hl hz hG
    have hzs : ∀ e ∈ sys.equList,
        e.header.typeValueData e.header.indTerm = some ((fun _ => z) e) := by
      intro e he
      rw [hl] at he
      rw [List.mem_singleton.mp he]
      exact hz
    obtain ⟨r, hr, hstore⟩ :=
      Process_of_some getStateVector getCovarMatrix sys _ _ (fun _ => z) hx hP hzs
    refine ⟨r, hr, _, _, hstore, ?_⟩
    simp only [hl, List.foldl_cons, List.foldl_nil, rowUpdate, hG,
      computeM, computeDotGM, computeDotGX]
    simp

theorem epoch1_equal_split_witness :
    ∃ r, Process (fun _ => Except.ok (fun _ => 0))
        (fun _ => Except.ok (fun i j => if i = j then 10000 else 0))
        { currentUnknowns := [], equList := [eqAB] } = Except.ok r ∧
      ∃ (x : Fin 2 → ℚ) (P : Fin 2 → Fin 2 → ℚ),
        r.store = { numUnknowns := 2, stateVector := x, covarMatrix := P,
                    variableSet := [] } ∧
        x 0 = x 1 :=
  epoch1_equal_split.2 (fun _ => Except.ok (fun _ => 0))
    (fun _ => Except.ok (fun i j => if i = j then 10000 else 0))
    { currentUnknowns := [], equList := [eqAB] } eqAB 10000 1 5 rfl rfl rfl
    (by simp [eqAB, bagAB]) (by simp [indexG, eqAB, tempCoef])

/-- C9: effective weight dispatch.  The weight used for a row is
    `constWeight * bag[weightC]` for a `prefitC` equation whose bag holds
    `weightC`, `constWeight * bag[weightL]` for a `prefitL` equation whose bag
    holds `weightL`, and `constWeight` in every other case. -/
theorem effectiveWeight_dispatch (header : equationHeader) :
    (∀ v, header.indTerm = TypeID.prefitC → header.typeValueData TypeID.weightC = some v →
      effectiveWeight header = header.constWeight * v) ∧
    (∀ v, header.indTerm = TypeID.prefitL → header.typeValueData TypeID.weightL = some v →
      effectiveWeight header = header.constWeight * v) ∧
    ((header.indTerm = TypeID.prefitC → header.typeValueData TypeID.weightC = none) →
      (header.indTerm = TypeID.prefitL → header.typeValueData TypeID.weightL = none) →
      effectiveWeight header = header.constWeight) ∧
    ∀ {n : Nat} (body : List (Variable n × Coefficient)) (z : ℚ) (s : PassState n) (i : Fin n),
      (applyRow { header := header, body := body } z s).K i =
        (applyRow { header := header, body := body } z s).M i /
          (1 / effectiveWeight header +
            computeDotGM (applyRow { header := header, body := body } z s).M
              (indexG { header := header, body := body })) := by
  refine ⟨?_, ?_, ?_, ?_⟩
  · intro v h1 h2
    simp [effectiveWeight, h1, h2]
  · intro v h1 h2
    simp [effectiveWeight, h1, h2]
  · intro hC hL
    unfold effectiveWeight
    by_cases h1 : header.indTerm = TypeID.prefitC
    · simp [h1, hC h1]
    · by_cases h2 : header.indTerm = TypeID.prefitL
      · simp [h2, hL h2]
      · simp [h1, h2]
  · intro n body z s i
    rfl

theorem effectiveWeight_dispatch_witness :
    effectiveWeight headerC = headerC.constWeight * 3 ∧
    effectiveWeight headerL = headerL.constWeight * 4 ∧
    effectiveWeight eqAB.header = eqAB.header.constWeight :=
  ⟨(effectiveWeight_dispatch headerC).1 3 rfl (by simp [headerC, bagW]),
   (effectiveWeight_dispatch headerL).2.1 4 rfl (by simp [headerL, bagW]),
   (effectiveWeight_dispatch eqAB.header).2.2.1 (fun _ => by simp [eqAB, bagAB])
     (fun h => by simp [eqAB] at h)⟩

/-- C10: coefficient resolution.  For every variable of every equation of the
    list, the coefficient used is `defaultCoefficient` when `forceDefault` is set;
    otherwise it is the bag value stored under the type of the variable when
    present and `defaultCoefficient` when absent.  A missing coefficient type
    never makes the pass fail: once the two reads of the State Store succeeded,
    `Process` completes exactly when every independent term resolves. -/
theorem coefficient_resolution {n : Nat}
    (getStateVector : VariableSet n → Except Exception (Fin n → ℚ))
    (getCovarMatrix : VariableSet n → Except Exception (Fin n → Fin n → ℚ))
    (sys : EquationSystem n) (x0 : Fin n → ℚ) (P0 : Fin n → Fin n → ℚ)
    (hx : getStateVector sys.currentUnknowns = Except.ok x0)
    (hP : getCovarMatrix sys.currentUnknowns = Except.ok P0) :
    (∀ e ∈ sys.equList, ∀ vc ∈ e.body,
      (vc.2.forceDefault = true →
        tempCoef e.header.typeValueData vc.1 vc.2 = vc.2.defaultCoefficient) ∧
      (∀ v, vc.2.forceDefault = false → e.header.typeValueData vc.1.varType = some v →
        tempCoef e.header.typeValueData vc.1 vc.2 = v) ∧
      (vc.2.forceDefault = false → e.header.typeValueData vc.1.varType = none →
        tempCoef e.header.typeValueData vc.1 vc.2 = vc.2.defaultCoefficient)) ∧
    (∀ e ∈ sys.equList,
      indexG e = e.body.map (fun vc => (vc.1.nowIndex, tempCoef e.header.typeValueData vc.1 vc.2))) ∧
    ((∃ r, Process getStateVector getCovarMatrix sys = Except.ok r) ↔
      ∀ e ∈ sys.equList, (e.header.typeValueData e.header.indTerm).isSome = true) := by
  refine ⟨?_, fun _ _ => rfl, ?_⟩
  · intro e _ vc _
    refine ⟨?_, ?_, ?_⟩
    · intro hf
      simp [tempCoef, hf]
    · intro v hf hv
      simp [tempCoef, hf, hv]
    · intro hf hv
      simp [tempCoef, hf, hv]
  · constructor
    · rintro ⟨r, hr⟩
      exact Process_isSome_of_ok getStateVector getCovarMatrix sys r hr
    · intro hsome
      have hz : ∀ e ∈ sys.equList, e.header.typeValueData e.header.indTerm =
          some ((fun e : Equation n => (e.header.typeValueData e.header.indTerm).getD 0) e) := by
        intro e he
        obtain ⟨v, hv⟩ := Option.isSome_iff_exists.mp (hsome e he)
        simp [hv]
      obtain ⟨r, hr, _⟩ := Process_of_some getStateVector getCovarMatrix sys x0 P0 _ hx hP hz
      exact ⟨r, hr⟩

theorem coefficient_resolution_witness :
    tempCoef eqLookup.header.typeValueData varAbsent coefLookup = coefLookup.defaultCoefficient ∧
    ∃ r, Process (fun _ => Except.ok (fun _ => 0)) (fun _ => Except.ok priorAB)
        { currentUnknowns := [], equList := [eqLookup] } = Except.ok r :=
  have h := coefficient_resolution (fun _ => Except.ok (fun _ => 0))
    (fun _ => Except.ok priorAB) { currentUnknowns := [], equList := [eqLookup] }
    (fun _ => 0) priorAB rfl rfl
  ⟨(h.1 eqLookup (List.mem_singleton.mpr rfl) (varAbsent, coefLookup)
      (by simp [eqLookup])).2.2 rfl (by simp [eqLookup, bagAB, varAbsent]),
   h.2.2.mpr (by
     intro e he
     rw [List.mem_singleton.mp he]
     simp [eqLookup, bagAB])⟩

/-! ## Residuals, failures and the outlier policy -/

/-- C11, as stated, fails: in the pass over `[eqAB, eqA]` from `x = [0, 0]`,
    `P = diag(10000, 10000)`, the residual recorded for row 0 is `5/100030001`,
    whereas `z − G·x` with the estimate right after the update of row 0 is
    `5/20001`. -/
theorem postfit_own_row_counterexample :
    ∃ r, Process (fun _ => Except.ok (fun _ => 0)) (fun _ => Except.ok priorAB)
        { currentUnknowns := [], equList := [eqAB, eqA] } = Except.ok r ∧
      r.postfitResiduals.length = 2 ∧
      r.postfitResiduals.getD 0 0 = 5 / 100030001 ∧
      (5 : ℚ) - Matrix.dotProduct (hRow eqAB (fun _ => 0))
        (rowUpdate eqAB 5 ((fun _ => 0), priorAB)).1 = 5 / 20001 ∧
      r.postfitResiduals.getD 0 0 ≠
        5 - Matrix.dotProduct (hRow eqAB (fun _ => 0))
          (rowUpdate eqAB 5 ((fun _ => 0), priorAB)).1 := by
  have hzs : ∀ e ∈ [eqAB, eqA],
      e.header.typeValueData e.header.indTerm = some ((fun _ => (5 : ℚ)) e) := by
    intro e he
    rcases List.mem_cons.mp he with rfl | he1
    · simp [eqAB, bagAB]
    · rw [List.mem_singleton.mp he1]
      simp [eqA, bagAB]
  have hfull := Process_of_some_full (fun _ => Except.ok (fun _ => 0))
    (fun _ => Except.ok priorAB) { currentUnknowns := [], equList := [eqAB, eqA] }
    (fun _ => 0) priorAB (fun _ => 5) rfl rfl hzs
  obtain ⟨f0, f1, a0, a1⟩ := twoRows_final_estimate
  have hown : (5 : ℚ) - Matrix.dotProduct (hRow eqAB (fun _ => 0))
      (rowUpdate eqAB 5 ((fun _ => 0), priorAB)).1 = 5 / 20001 := by
    rw [hRow_eqAB]
    simp only [Matrix.dotProduct, Fin.sum_univ_two, a0, a1]
    norm_num
  have hrec : (5 : ℚ) - Matrix.dotProduct (hRow eqAB (fun _ => 0))
      (rowUpdate eqA 5 (rowUpdate eqAB 5 ((fun _ => 0), priorAB))).1 = 5 / 100030001 := by
    rw [hRow_eqAB]
    simp only [Matrix.dotProduct, Fin.sum_univ_two, f0, f1]
    norm_num
  refine ⟨_, hfull, by simp, ?_, hown, ?_⟩
  · simp only [List.map_cons, List.getD_cons_zero, List.foldl_cons, List.foldl_nil]
    exact hrec
  · simp only [List.map_cons, List.getD_cons_zero, List.foldl_cons, List.foldl_nil]
    rw [hrec, hown]
    norm_num

/-- C11 (amended): the residual vector has one entry per equation, and the entry
    recorded for row `r` is `z_r − h_r·x` where `h_r` is the row of `hMatrix`
    written for that equation and `x` is the estimate at the end of the pass,
    after all rows have been applied (the committed estimate). -/
theorem postfit_residual_final_estimate {n : Nat}
    (getStateVector : VariableSet n → Except Exception (Fin n → ℚ))
    (getCovarMatrix : VariableSet n → Except Exception (Fin n → Fin n → ℚ))
    (sys : EquationSystem n) (x0 : Fin n → ℚ) (P0 : Fin n → Fin n → ℚ) (z : Equation n → ℚ)
    (hx : getStateVector sys.currentUnknowns = Except.ok x0)
    (hP : getCovarMatrix sys.currentUnknowns = Except.ok P0)
    (hz : ∀ e ∈ sys.equList, e.header.typeValueData e.header.indTerm = some (z e)) :
    ∃ r, Process getStateVector getCovarMatrix sys = Except.ok r ∧
      r.postfitResiduals.length = sys.equList.length ∧
      ∃ (x : Fin n → ℚ) (P : Fin n → Fin n → ℚ),
        r.store = { numUnknowns := n, stateVector := x, covarMatrix := P,
                    variableSet := sys.currentUnknowns } ∧
        x = (sys.equList.foldl (fun xP e => rowUpdate e (z e) xP) (x0, P0)).1 ∧
        r.postfitResiduals =
          sys.equList.map (fun e => z e - Matrix.dotProduct (hRow e (fun _ => 0)) x) :=
  ⟨_, Process_of_some_full getStateVector getCovarMatrix sys x0 P0 z hx hP hz,
    by simp, _, _, rfl, rfl, rfl⟩

theorem postfit_residual_final_estimate_witness :
    ∃ r, Process (fun _ => Except.ok (fun _ => 0)) (fun _ => Except.ok priorAB)
        { currentUnknowns := [], equList := [eqAB, eqA] } = Except.ok r ∧
      r.postfitResiduals.length = ([eqAB, eqA] : List (Equation 2)).length ∧
      ∃ (x : Fin 2 → ℚ) (P : Fin 2 → Fin 2 → ℚ),
        r.store = { numUnknowns := 2, stateVector := x, covarMatrix := P,
                    variableSet := [] } ∧
        x = (([eqAB, eqA] : List (Equation 2)).foldl
          (fun xP e => rowUpdate e ((fun _ => (5 : ℚ)) e) xP) ((fun _ => 0), priorAB)).1 ∧
        r.postfitResiduals =
          ([eqAB, eqA] : List (Equation 2)).map
            (fun e => (fun _ => (5 : ℚ)) e - Matrix.dotProduct (hRow e (fun _ => 0)) x) :=
  postfit_residual_final_estimate (fun _ => Except.ok (fun _ => 0))
    (fun _ => Except.ok priorAB) { currentUnknowns := [], equList := [eqAB, eqA] }
    (fun _ => 0) priorAB (fun _ => 5) rfl rfl
    (by
      intro e he
      rcases List.mem_cons.mp he with rfl | he1
      · simp [eqAB, bagAB]
      · rw [List.mem_singleton.mp he1]
        simp [eqA, bagAB])

/-- C13, as stated, fails: the independent-term type of `eqUnresolved` has no
    entry in its bag, and the pass over `[eqUnresolved, eqA]` does not skip the
    row: `Process` fails with a `ProcessingException` and commits nothing. -/
theorem unresolved_term_counterexample :
    eqUnresolved.header.typeValueData eqUnresolved.header.indTerm = none ∧
    Process (fun _ => Except.ok (fun _ => 0)) (fun _ => Except.ok priorAB)
        { currentUnknowns := [], equList := [eqUnresolved, eqA] } =
      Except.error { cause := Exception.TypeIDNotFound } ∧
    ¬ ∃ r, Process (fun _ => Except.ok (fun _ => 0)) (fun _ => Except.ok priorAB)
        { currentUnknowns := [], equList := [eqUnresolved, eqA] } = Except.ok r := by
  have hnone : eqUnresolved.header.typeValueData eqUnresolved.header.indTerm = none := by
    simp [eqUnresolved, bagAB]
  have herr := Process_error_of_none (fun _ => Except.ok (fun _ => 0))
    (fun _ => Except.ok priorAB) { currentUnknowns := [], equList := [eqUnresolved, eqA] }
    (fun _ => 0) priorAB rfl rfl ⟨eqUnresolved, List.mem_cons_self _ _, hnone⟩
  refine ⟨hnone, herr, ?_⟩
  rintro ⟨r, hr⟩
  rw [herr] at hr
  cases hr

/-- C13 (amended): an equation whose independent-term type has no entry in its
    bag is not skipped.  The lookup of line 219 throws, the row loop stops
    there, and `Process` fails with a `ProcessingException` (cause: type not
    found) without committing anything; this holds for every equation list
    that contains such an equation, wherever it stands in the list. -/
theorem unresolved_term_is_fatal {n : Nat}
    (getStateVector : VariableSet n → Except Exception (Fin n → ℚ))
    (getCovarMatrix : VariableSet n → Except Exception (Fin n → Fin n → ℚ))
    (sys : EquationSystem n) (x0 : Fin n → ℚ) (P0 : Fin n → Fin n → ℚ)
    (hx : getStateVector sys.currentUnknowns = Except.ok x0)
    (hP : getCovarMatrix sys.currentUnknowns = Except.ok P0)
    (hmiss : ∃ e ∈ sys.equList, e.header.typeValueData e.header.indTerm = none) :
    Process getStateVector getCovarMatrix sys =
      Except.error { cause := Exception.TypeIDNotFound } ∧
    (∀ s : PassState n, rowLoop sys.equList s = Except.error Exception.TypeIDNotFound) ∧
    ¬ ∃ r, Process getStateVector getCovarMatrix sys = Except.ok r := by
  have herr := Process_error_of_none getStateVector getCovarMatrix sys x0 P0 hx hP hmiss
  refine ⟨herr, fun s => rowLoop_error_of_none sys.equList s hmiss, ?_⟩
  rintro ⟨r, hr⟩
  rw [herr] at hr
  cases hr

theorem unresolved_term_is_fatal_witness :
    (∃ e ∈ [eqA, eqUnresolved], e.header.typeValueData e.header.indTerm = none) ∧
    Process (fun _ => Except.ok (fun _ => 0)) (fun _ => Except.ok priorAB)
        { currentUnknowns := [], equList := [eqA, eqUnresolved] } =
      Except.error { cause := Exception.TypeIDNotFound } :=
  have hmiss : ∃ e ∈ [eqA, eqUnresolved],
      e.header.typeValueData e.header.indTerm = none :=
    ⟨eqUnresolved, by simp, by simp [eqUnresolved, bagAB]⟩
  ⟨hmiss, (unresolved_term_is_fatal (fun _ => Except.ok (fun _ => 0))
    (fun _ => Except.ok priorAB) { currentUnknowns := [], equList := [eqA, eqUnresolved] }
    (fun _ => 0) priorAB rfl rfl hmiss).1⟩

/-- C14: no commit on failure.  Whenever the call ends with an error, the State
    Store is the one from before the call (none of the three `set...` calls was
    executed) and the error is a `ProcessingException`; this is the case when
    `Prepare` throws, when one of the two reads of the prior state throws, and
    when a row throws. -/
theorem no_commit_on_failure {n : Nat} (Prepare : Except Exception (EquationSystem n))
    (getStateVector : StateStore → VariableSet n → Except Exception (Fin n → ℚ))
    (getCovarMatrix : StateStore → VariableSet n → Except Exception (Fin n → Fin n → ℚ))
    (store : StateStore) :
    (∀ e : ProcessingException,
      (ProcessOnStore Prepare getStateVector getCovarMatrix store).2 = Except.error e →
      (ProcessOnStore Prepare getStateVector getCovarMatrix store).1 = store) ∧
    (∀ u, Prepare = Except.error u →
      ProcessOnStore Prepare getStateVector getCovarMatrix store =
        (store, Except.error { cause := u })) ∧
    (∀ sys u, Prepare = Except.ok sys →
      getStateVector store sys.currentUnknowns = Except.error u →
      ProcessOnStore Prepare getStateVector getCovarMatrix store =
        (store, Except.error { cause := u })) ∧
    (∀ sys x0 u, Prepare = Except.ok sys →
      getStateVector store sys.currentUnknowns = Except.ok x0 →
      getCovarMatrix store sys.currentUnknowns = Except.error u →
      ProcessOnStore Prepare getStateVector getCovarMatrix store =
        (store, Except.error { cause := u })) ∧
    (∀ sys x0 P0, Prepare = Except.ok sys →
      getStateVector store sys.currentUnknowns = Except.ok x0 →
      getCovarMatrix store sys.currentUnknowns = Except.ok P0 →
      (∃ e ∈ sys.equList, e.header.typeValueData e.header.indTerm = none) →
      ProcessOnStore Prepare getStateVector getCovarMatrix store =
        (store, Except.error { cause := Exception.TypeIDNotFound })) := by
  refine ⟨?_, ?_, ?_, ?_, ?_⟩
  · intro e he
    unfold ProcessOnStore at he ⊢
    cases hprep : Prepare with
    | error u => rfl
    | ok sys =>
      simp only [hprep] at he ⊢
      cases hproc : Process (getStateVector store) (getCovarMatrix store) sys with
      | error e1 => rfl
      | ok r =>
        simp only [hproc] at he
        cases he
  · intro u hprep
    simp only [ProcessOnStore, hprep]
  · intro sys u hprep hx
    simp only [ProcessOnStore, hprep,
      (Process_error_of_read (getStateVector store) (getCovarMatrix store) sys).1 u hx]
  · intro sys x0 u hprep hx hP
    simp only [ProcessOnStore, hprep,
      (Process_error_of_read (getStateVector store) (getCovarMatrix store) sys).2 x0 u hx hP]
  · intro sys x0 P0 hprep hx hP hmiss
    simp only [ProcessOnStore, hprep,
      Process_error_of_none (getStateVector store) (getCovarMatrix store) sys x0 P0 hx hP hmiss]

theorem no_commit_on_failure_witness :
    (ProcessOnStore (Except.ok { currentUnknowns := [], equList := [eqA, eqUnresolved] })
        (fun _ _ => Except.ok (fun _ => 0)) (fun _ _ => Except.ok priorAB) storeOld).2 =
      Except.error { cause := Exception.TypeIDNotFound } ∧
    (ProcessOnStore (Except.ok { currentUnknowns := [], equList := [eqA, eqUnresolved] })
        (fun _ _ => Except.ok (fun _ => 0)) (fun _ _ => Except.ok priorAB) storeOld).1 =
      storeOld :=
  have h := no_commit_on_failure
    (Except.ok { currentUnknowns := [], equList := [eqA, eqUnresolved] })
    (fun _ _ => Except.ok (fun _ => 0)) (fun _ _ => Except.ok priorAB) storeOld
  have hrow := h.2.2.2.2 { currentUnknowns := [], equList := [eqA, eqUnresolved] }
    (fun _ => 0) priorAB rfl rfl rfl
    ⟨eqUnresolved, by simp, by simp [eqUnresolved, bagAB]⟩
  have h2 : (ProcessOnStore (Except.ok { currentUnknowns := [], equList := [eqA, eqUnresolved] })
        (fun _ _ => Except.ok (fun _ => 0)) (fun _ _ => Except.ok priorAB) storeOld).2 =
      Except.error { cause := Exception.TypeIDNotFound } := by
    rw [hrow]
  ⟨h2, h.1 _ h2⟩

/-- C15, as stated, fails: the body of `eqEmpty` is empty, and the pass over
    `[eqEmpty]` from `x = [0, 0]`, `P = diag(10000, 10000)` does not fail:
    `Process` completes and commits the unchanged `x` and `P`. -/
theorem empty_body_counterexample :
    eqEmpty.body = [] ∧
    ∃ r, Process (fun _ => Except.ok (fun _ => 0)) (fun _ => Except.ok priorAB)
        { currentUnknowns := [], equList := [eqEmpty] } = Except.ok r ∧
      r.store = { numUnknowns := 2, stateVector := (fun _ => 0), covarMatrix := priorAB,
                  variableSet := [] } := by
  have hzs : ∀ e ∈ [eqEmpty],
      e.header.typeValueData e.header.indTerm = some ((fun _ => (5 : ℚ)) e) := by
    intro e he
    rw [List.mem_singleton.mp he]
    simp [eqEmpty, bagAB]
  have hfull := Process_of_some_full (fun _ => Except.ok (fun _ => 0))
    (fun _ => Except.ok priorAB) { currentUnknowns := [], equList := [eqEmpty] }
    (fun _ => 0) priorAB (fun _ => 5) rfl rfl hzs
  refine ⟨rfl, _, hfull, ?_⟩
  simp only [List.foldl_cons, List.foldl_nil]
  rw [rowUpdate_of_empty_body eqEmpty 5 _ _ rfl priorAB_posSemidef.1]

/-- C15 (amended): an equation that references no unknown is not fatal.  When the
    independent terms of the list resolve, `Process` completes also when an
    equation of the list has an empty body; for that row `M = 0` and `K = 0`, so
    it leaves `x` and a symmetric `P` unchanged, and `Process` commits the same
    state as for the list without that equation. -/
theorem empty_body_row_is_noop {n : Nat}
    (getStateVector : VariableSet n → Except Exception (Fin n → ℚ))
    (getCovarMatrix : VariableSet n → Except Exception (Fin n → Fin n → ℚ))
    (sys : EquationSystem n) (l1 l2 : List (Equation n)) (e : Equation n)
    (x0 : Fin n → ℚ) (P0 : Fin n → Fin n → ℚ) (z : Equation n → ℚ)
    (hx : getStateVector sys.currentUnknowns = Except.ok x0)
    (hP : getCovarMatrix sys.currentUnknowns = Except.ok P0)
    (hl : sys.equList = l1 ++ e :: l2)
    (hbody : e.body = [])
    (hz : ∀ e1 ∈ sys.equList, e1.header.typeValueData e1.header.indTerm = some (z e1))
    (hsym : l1 ≠ [] ∨ IsSymmetric P0) :
    (∀ (x : Fin n → ℚ) (P : Fin n → Fin n → ℚ), IsSymmetric P →
      computeM P (indexG e) = (fun _ => 0) ∧ rowUpdate e (z e) (x, P) = (x, P)) ∧
    ∃ r, Process getStateVector getCovarMatrix sys = Except.ok r ∧
      r.store =
        { numUnknowns := n,
          stateVector := ((l1 ++ l2).foldl (fun xP e => rowUpdate e (z e) xP) (x0, P0)).1,
          covarMatrix := ((l1 ++ l2).foldl (fun xP e => rowUpdate e (z e) xP) (x0, P0)).2,
          variableSet := sys.currentUnknowns } := by
  constructor
  · intro x P hs
    refine ⟨?_, rowUpdate_of_empty_body e (z e) x P hbody hs⟩
    funext i
    simp [computeM, indexG, hbody]
  · obtain ⟨r, hr, hstore⟩ :=
      Process_of_some getStateVector getCovarMatrix sys x0 P0 z hx hP hz
    refine ⟨r, hr, ?_⟩
    rw [hstore, hl, foldl_rowUpdate_skip_empty l1 l2 e z x0 P0 hbody hsym]

theorem empty_body_row_is_noop_witness :
    eqEmpty.body = [] ∧
    (∀ e1 ∈ [eqAB, eqEmpty, eqA],
      e1.header.typeValueData e1.header.indTerm = some ((fun _ => (5 : ℚ)) e1)) ∧
    ∃ r, Process (fun _ => Except.ok (fun _ => 0)) (fun _ => Except.ok priorAB)
        { currentUnknowns := [], equList := [eqAB, eqEmpty, eqA] } = Except.ok r ∧
      r.store =
        { numUnknowns := 2,
          stateVector := (([eqAB] ++ [eqA] : List (Equation 2)).foldl
            (fun xP e => rowUpdate e ((fun _ => (5 : ℚ)) e) xP) ((fun _ => 0), priorAB)).1,
          covarMatrix := (([eqAB] ++ [eqA] : List (Equation 2)).foldl
            (fun xP e => rowUpdate e ((fun _ => (5 : ℚ)) e) xP) ((fun _ => 0), priorAB)).2,
          variableSet := [] } :=
  have hz : ∀ e1 ∈ [eqAB, eqEmpty, eqA],
      e1.header.typeValueData e1.header.indTerm = some ((fun _ => (5 : ℚ)) e1) := by
    intro e1 he
    simp only [List.mem_cons, List.mem_singleton, List.not_mem_nil, or_false] at he
    rcases he with rfl | rfl | rfl
    · simp [eqAB, bagAB]
    · simp [eqEmpty, bagAB]
    · simp [eqA, bagAB]
  ⟨rfl, hz,
    (empty_body_row_is_noop (fun _ => Except.ok (fun _ => 0)) (fun _ => Except.ok priorAB)
      { currentUnknowns := [], equList := [eqAB, eqEmpty, eqA] } [eqAB] [eqA] eqEmpty
      (fun _ => 0) priorAB (fun _ => 5) rfl rfl rfl rfl hz (Or.inl (by simp))).2⟩

/-- C17, as stated, fails: in `eqsOutlier` the second equation has the normalized
    residual `0`, which is not greater than `2.5·σ = 2.5`, and yet its pair
    (source `1`, satellite `1`) is removed from the data map, because the first
    equation, of the same pair, has the normalized residual `3`. -/
theorem shared_pair_counterexample :
    (eqPlain 1 0 1 1, (0 : ℚ)) ∈ eqsOutlier.zip resOutlier ∧
    (eqPlain 1 0 1 1).header.equationSource = 1 ∧
    (eqPlain 1 0 1 1).header.equationSat = 1 ∧
    postfitSigma sqrtTable eqsOutlier 1 resOutlier = Except.ok 1 ∧
    ¬ normalizedResidual sqrtTable (eqPlain 1 0 1 1) 0 > 5 / 2 * 1 ∧
    HasPair gdsOne 1 1 ∧
    ¬ HasPair (removeSatID gdsOne 1 1) 1 1 ∧
    ∃ b, postfitFilter sqrtTable eqsOutlier 1 resOutlier gdsOne =
        Except.ok (b, pruneMap (removeSatID gdsOne 1 1)) ∧
      ¬ HasPair (pruneMap (removeSatID gdsOne 1 1)) 1 1 := by
  have hsig : postfitSigma sqrtTable eqsOutlier 1 resOutlier = Except.ok 1 := by
    rw [postfitSigma_eq sqrtTable eqsOutlier 1 resOutlier hasSecondaryWeight_eqsOutlier rfl,
      sigma_eqsOutlier]
  have hnot : ¬ HasPair (removeSatID gdsOne 1 1) 1 1 := by
    intro h
    exact ((hasPair_removeSatID gdsOne 1 1 1 1).mp h).2 ⟨rfl, rfl⟩
  obtain ⟨b, hb, _⟩ := postfitFilter_eq sqrtTable eqsOutlier 1 resOutlier gdsOne
    hasSecondaryWeight_eqsOutlier rfl
  rw [sigma_eqsOutlier, rejectedPairs_eqsOutlier] at hb
  refine ⟨by simp [eqsOutlier, resOutlier], rfl, rfl, hsig, ?_, hasPair_gdsOne, hnot,
    b, hb, fun h => hnot (hasPair_of_pruneMap _ 1 1 h)⟩
  rw [normalizedResidual_eqPlain, abs_zero]
  norm_num

/-- C17 (amended): an equation triggers the removal of its (source, satellite)
    pair if and only if its normalized residual `v = sqrt(w)·|residual|` is
    strictly greater than `2.5·σ`; an equation with `v ≤ 2.5·σ` triggers no
    removal itself.  Hence, after the rejection loop, a pair is in the data map
    if and only if it was in it before and no equation of that pair has
    `v > 2.5·σ`, and `postfitFilter` returns `true` exactly when no equation
    exceeds the threshold.  For `σ ≥ 0` and an exact square root of `w`,
    `v > 2.5·σ` is equivalent to `w·residual² > 6.25·σ²`. -/
theorem hard_rejection_threshold {n : Nat} (sqrt : ℚ → ℚ) (eqs : List (Equation n)) (t : Nat)
    (residuals : List ℚ) (gdsMap : gnssDataMap)
    (hw : ∀ e ∈ eqs, HasSecondaryWeight e.header) (hres : residuals.length = eqs.length) :
    ∃ sigma b s,
      postfitSigma sqrt eqs t residuals = Except.ok sigma ∧
      rejectLoop sqrt sigma residuals eqs
        { i := 0, isValid := true, sourceRemoved := 0, satRemoved := 0, gdsMap := gdsMap } =
        Except.ok s ∧
      postfitFilter sqrt eqs t residuals gdsMap = Except.ok (b, pruneMap s.gdsMap) ∧
      s.gdsMap = (rejectedPairs sqrt sigma eqs residuals).foldl
        (fun m p => removeSatID m p.1 p.2) gdsMap ∧
      (∀ source sat, (source, sat) ∈ rejectedPairs sqrt sigma eqs residuals ↔
        ∃ p ∈ eqs.zip residuals, p.1.header.equationSource = source ∧
          p.1.header.equationSat = sat ∧ normalizedResidual sqrt p.1 p.2 > 5 / 2 * sigma) ∧
      (∀ source sat, HasPair s.gdsMap source sat ↔
        HasPair gdsMap source sat ∧
        ¬ ∃ p ∈ eqs.zip residuals, p.1.header.equationSource = source ∧
          p.1.header.equationSat = sat ∧ normalizedResidual sqrt p.1 p.2 > 5 / 2 * sigma) ∧
      (b = true ↔
        ∀ p ∈ eqs.zip residuals, ¬ normalizedResidual sqrt p.1 p.2 > 5 / 2 * sigma) ∧
      (∀ p ∈ eqs.zip residuals, 0 ≤ sigma →
        IsSqrtOf (sqrt (effectiveWeight p.1.header)) (effectiveWeight p.1.header) →
        (normalizedResidual sqrt p.1 p.2 > 5 / 2 * sigma ↔
          effectiveWeight p.1.header * p.2 ^ 2 > 25 / 4 * sigma ^ 2)) := by
  obtain ⟨s, h1, h2, _⟩ := rejectLoop_eq sqrt
    (sqrt (weightedSquares eqs residuals / ((eqs.length : ℚ) - (t : ℚ)))) residuals eqs hw
    { i := 0, isValid := true, sourceRemoved := 0, satRemoved := 0, gdsMap := gdsMap }
    (by simp [hres])
  simp only [List.drop_zero] at h2
  obtain ⟨b, hb, hvalid⟩ := postfitFilter_eq sqrt eqs t residuals gdsMap hw hres
  refine ⟨_, b, s, postfitSigma_eq sqrt eqs t residuals hw hres, h1, ?_, h2,
    fun source sat => mem_rejectedPairs sqrt _ eqs residuals source sat, ?_, ?_, ?_⟩
  · rw [hb, h2]
  · intro source sat
    rw [h2, hasPair_foldl_removeSatID, mem_rejectedPairs]
  · rw [hvalid, List.eq_nil_iff_forall_not_mem]
    constructor
    · intro h p hp hv
      exact h (p.1.header.equationSource, p.1.header.equationSat)
        ((mem_rejectedPairs sqrt _ eqs residuals _ _).mpr ⟨p, hp, rfl, rfl, hv⟩)
    · intro h q hq
      obtain ⟨p, hp, _, _, hv⟩ := (mem_rejectedPairs sqrt _ eqs residuals q.1 q.2).mp hq
      exact h p hp hv
  · intro p _ hsig hsq
    exact normalized_gt_iff_squares _ _ _ _ hsq hsig

theorem hard_rejection_threshold_witness :
    (∀ e ∈ eqsOutlier, HasSecondaryWeight e.header) ∧
    resOutlier.length = eqsOutlier.length ∧
    ∃ sigma b s,
      postfitSigma sqrtTable eqsOutlier 1 resOutlier = Except.ok sigma ∧
      rejectLoop sqrtTable sigma resOutlier eqsOutlier
        { i := 0, isValid := true, sourceRemoved := 0, satRemoved := 0, gdsMap := gdsOne } =
        Except.ok s ∧
      postfitFilter sqrtTable eqsOutlier 1 resOutlier gdsOne = Except.ok (b, pruneMap s.gdsMap) ∧
      s.gdsMap = (rejectedPairs sqrtTable sigma eqsOutlier resOutlier).foldl
        (fun m p => removeSatID m p.1 p.2) gdsOne :=
  have h := hard_rejection_threshold sqrtTable eqsOutlier 1 resOutlier gdsOne
    hasSecondaryWeight_eqsOutlier rfl
  ⟨hasSecondaryWeight_eqsOutlier, rfl,
    h.elim (fun sigma h1 => h1.elim (fun b h2 => h2.elim (fun s h3 =>
      ⟨sigma, b, s, h3.1, h3.2.1, h3.2.2.1, h3.2.2.2.1⟩)))⟩

/-- C19, as stated, fails: after the pass over `eqsOutlier` the first equation has
    the normalized postfit residual `3 > 2.5·σ = 2.5`, and yet its pair (source
    `1`, satellite `1`) is still in the data map that `Process` returns. -/
theorem no_exclusion_counterexample :
    ∃ r, Process (fun _ => Except.ok (fun _ => 0)) (fun _ => Except.ok (fun _ _ => 10000))
        { currentUnknowns := [], equList := eqsOutlier } = Except.ok r ∧
      (eqPlain 1 3 1 1, (3 : ℚ)) ∈ eqsOutlier.zip r.postfitResiduals ∧
      postfitSigma sqrtTable eqsOutlier 1 r.postfitResiduals = Except.ok 1 ∧
      normalizedResidual sqrtTable (eqPlain 1 3 1 1) 3 > 5 / 2 * 1 ∧
      ProcessReturn gdsOne (fun _ => Except.ok (fun _ => 0))
          (fun _ => Except.ok (fun _ _ => 10000))
          { currentUnknowns := [], equList := eqsOutlier } = Except.ok gdsOne ∧
      HasPair gdsOne (eqPlain 1 3 1 1).header.equationSource
        (eqPlain 1 3 1 1).header.equationSat := by
  obtain ⟨r, hr, hres⟩ := Process_eqsOutlier
  refine ⟨r, hr, ?_, ?_, ?_, ProcessReturn_of_ok gdsOne _ _ _ r hr, hasPair_gdsOne⟩
  · rw [hres]
    simp [eqsOutlier, resOutlier]
  · rw [hres, postfitSigma_eq sqrtTable eqsOutlier 1 resOutlier hasSecondaryWeight_eqsOutlier rfl,
      sigma_eqsOutlier]
  · rw [normalizedResidual_eqPlain, abs_of_pos (by norm_num : (0 : ℚ) < 3)]
    norm_num

/-- C19 (amended): `Process` itself excludes nothing: when the pass completes it
    returns the data map unchanged, whatever the residuals are (the call of
    `postfitFilter` in the loop condition is disabled).  When `postfitFilter`
    is run on that map with the residuals of the pass, the (source, satellite)
    pair of every equation whose normalized residual exceeds `2.5·σ` is absent
    from the resulting data map, and `postfitFilter` returns `false`. -/
theorem exclusion_by_postfitFilter_only {n : Nat} (gdsMap : gnssDataMap)
    (getStateVector : VariableSet n → Except Exception (Fin n → ℚ))
    (getCovarMatrix : VariableSet n → Except Exception (Fin n → Fin n → ℚ))
    (sys : EquationSystem n) (x0 : Fin n → ℚ) (P0 : Fin n → Fin n → ℚ) (z : Equation n → ℚ)
    (hx : getStateVector sys.currentUnknowns = Except.ok x0)
    (hP : getCovarMatrix sys.currentUnknowns = Except.ok P0)
    (hz : ∀ e ∈ sys.equList, e.header.typeValueData e.header.indTerm = some (z e))
    (hw : ∀ e ∈ sys.equList, HasSecondaryWeight e.header) :
    ProcessReturn gdsMap getStateVector getCovarMatrix sys = Except.ok gdsMap ∧
    ∃ r, Process getStateVector getCovarMatrix sys = Except.ok r ∧
      ∀ sqrt : ℚ → ℚ, ∃ sigma b m,
        postfitSigma sqrt sys.equList n r.postfitResiduals = Except.ok sigma ∧
        postfitFilter sqrt sys.equList n r.postfitResiduals gdsMap = Except.ok (b, m) ∧
        ∀ p ∈ sys.equList.zip r.postfitResiduals,
          normalizedResidual sqrt p.1 p.2 > 5 / 2 * sigma →
          ¬ HasPair m p.1.header.equationSource p.1.header.equationSat ∧ b = false := by
  have hfull := Process_of_some_full getStateVector getCovarMatrix sys x0 P0 z hx hP hz
  refine ⟨ProcessReturn_of_ok gdsMap _ _ _ _ hfull, _, hfull, ?_⟩
  intro sqrt
  have hres : (sys.equList.map (fun e => z e - Matrix.dotProduct (hRow e (fun _ => 0))
      (sys.equList.foldl (fun xP e => rowUpdate e (z e) xP) (x0, P0)).1)).length =
      sys.equList.length := by simp
  obtain ⟨b, hb, hvalid⟩ := postfitFilter_eq sqrt sys.equList n _ gdsMap hw hres
  refine ⟨_, b, _, postfitSigma_eq sqrt sys.equList n _ hw hres, hb, ?_⟩
  intro p hp hv
  have hmem := (mem_rejectedPairs sqrt _ sys.equList _ p.1.header.equationSource
    p.1.header.equationSat).mpr ⟨p, hp, rfl, rfl, hv⟩
  constructor
  · intro hpair
    have h1 := hasPair_of_pruneMap _ _ _ hpair
    exact ((hasPair_foldl_removeSatID _ gdsMap _ _).mp h1).2 hmem
  · cases hbv : b with
    | false => rfl
    | true =>
      rw [hvalid.mp hbv] at hmem
      simp at hmem

theorem exclusion_by_postfitFilter_only_witness :
    (∀ e ∈ eqsOutlier, HasSecondaryWeight e.header) ∧
    ProcessReturn gdsOne (fun _ => Except.ok (fun _ => 0))
        (fun _ => Except.ok (fun _ _ => 10000))
        { currentUnknowns := [], equList := eqsOutlier } = Except.ok gdsOne :=
  ⟨hasSecondaryWeight_eqsOutlier,
    (exclusion_by_postfitFilter_only gdsOne (fun _ => Except.ok (fun _ => 0))
      (fun _ => Except.ok (fun _ _ => 10000)) { currentUnknowns := [], equList := eqsOutlier }
      (fun _ => 0) (fun _ _ => 10000)
      (fun e => (e.header.typeValueData e.header.indTerm).getD 0) rfl rfl
      (by simp [eqsOutlier, eqPlain]) hasSecondaryWeight_eqsOutlier).1⟩

/-- C20: single pass by default.  With the loop of lines 157-447 spelled out,
    every call that is given at least one round runs the body exactly once: it
    uses only the first outcome of `Prepare`, its result is that of the single
    pass `Process` over that equation system, the counter `times` ends at `1`,
    and no second round is started whatever the residuals are. -/
theorem single_pass {n : Nat} (fuel : Nat) (Prepare : Nat → Except Exception (EquationSystem n))
    (getStateVector : VariableSet n → Except Exception (Fin n → ℚ))
    (getCovarMatrix : VariableSet n → Except Exception (Fin n → Fin n → ℚ))
    (members : LoopState n) :
    ProcessDoWhile (fuel + 1) Prepare getStateVector getCovarMatrix members =
      (match Prepare 0 with
        | Except.error u => Except.error { cause := u }
        | Except.ok sys =>
          match Process getStateVector getCovarMatrix sys with
          | Except.error e => Except.error e
          | Except.ok r => Except.ok (some r)) ∧
    (∀ r, ProcessDoWhile (fuel + 1) Prepare getStateVector getCovarMatrix members =
        Except.ok (some r) → r.times = 1) ∧
    ProcessDoWhile (fuel + 1) Prepare getStateVector getCovarMatrix members ≠ Except.ok none ∧
    (∀ sys r, Process getStateVector getCovarMatrix sys = Except.ok r → r.times = 1) := by
  have hmain : ProcessDoWhile (fuel + 1) Prepare getStateVector getCovarMatrix members =
      (match Prepare 0 with
        | Except.error u => Except.error { cause := u }
        | Except.ok sys =>
          match Process getStateVector getCovarMatrix sys with
          | Except.error e => Except.error e
          | Except.ok r => Except.ok (some r)) := by
    unfold ProcessDoWhile
    rw [doWhile_false]
    unfold loopBody
    simp only []
    cases hprep : Prepare 0 with
    | error u => rfl
    | ok sys =>
      simp only [Process]
      cases hx : getStateVector sys.currentUnknowns with
      | error u => rfl
      | ok x0 =>
        cases hP : getCovarMatrix sys.currentUnknowns with
        | error u => rfl
        | ok P0 =>
          simp only []
          cases hl : rowLoop sys.equList
            { xhat := x0, P := P0, M := (fun _ => 0), K := (fun _ => 0),
              hMatrix := (fun _ _ => 0), prefitResiduals := (fun _ => 0), row := 0 } with
          | error u => rfl
          | ok p => rfl
  have htimes : ∀ sys r, Process getStateVector getCovarMatrix sys = Except.ok r →
      r.times = 1 := by
    intro sys r hr
    unfold Process at hr
    cases hx : getStateVector sys.currentUnknowns with
    | error u => simp [hx] at hr
    | ok x0 =>
      cases hP : getCovarMatrix sys.currentUnknowns with
      | error u => simp [hx, hP] at hr
      | ok P0 =>
        simp only [hx, hP] at hr
        split at hr
        · cases hr
        · cases hr
          rfl
  refine ⟨hmain, ?_, ?_, htimes⟩
  · intro r hr
    rw [hmain] at hr
    cases hprep : Prepare 0 with
    | error u => simp [hprep] at hr
    | ok sys =>
      simp only [hprep] at hr
      cases hproc : Process getStateVector getCovarMatrix sys with
      | error e => simp [hproc] at hr
      | ok r1 =>
        simp only [hproc] at hr
        cases hr
        exact htimes sys r hproc
  · rw [hmain]
    cases hprep : Prepare 0 with
    | error u => simp
    | ok sys =>
      cases hproc : Process getStateVector getCovarMatrix sys with
      | error e => simp [hproc]
      | ok r1 => simp [hproc]

theorem single_pass_witness :
    ∃ r, ProcessDoWhile 3
        (fun k => if k = 0 then Except.ok { currentUnknowns := [], equList := [eqAB] }
          else Except.error (Exception.other 0))
        (fun _ => Except.ok (fun _ => 0)) (fun _ => Except.ok priorAB) membersAB =
        Except.ok (some r) ∧ r.times = 1 :=
  have h := single_pass 2
    (fun k => if k = 0 then Except.ok { currentUnknowns := [], equList := [eqAB] }
      else Except.error (Exception.other 0))
    (fun _ => Except.ok (fun _ => 0)) (fun _ => Except.ok priorAB) membersAB
  have hzs : ∀ e ∈ [eqAB],
      e.header.typeValueData e.header.indTerm = some ((fun _ => (5 : ℚ)) e) := by
    intro e he
    rw [List.mem_singleton.mp he]
    simp [eqAB, bagAB]
  have hfull := Process_of_some_full (fun _ => Except.ok (fun _ => 0))
    (fun _ => Except.ok priorAB) { currentUnknowns := [], equList := [eqAB] }
    (fun _ => 0) priorAB (fun _ => 5) rfl rfl hzs
  have heq := h.1
  ⟨_, by rw [heq]; simp only [if_true, hfull], h.2.2.2 _ _ hfull⟩

/-- C21: independence of the outer covariance loop.  For two distinct outer
    indices the cells assigned by one iteration are neither assigned nor read by
    the other; an iteration changes no other cell and its assignments depend on
    the cells it reads only; and running the iterations in any order (any
    permutation of `0 .. numUnknowns-1`) gives the matrix of the loop in index
    order. -/
theorem outer_loop_order_independent {n : Nat} (K M : Fin n → ℚ) (P : Fin n → Fin n → ℚ) :
    (∀ i k a b : Fin n, i ≠ k → writtenCell i a b → ¬ writtenCell k a b ∧ ¬ readCell k a b) ∧
    (∀ i a b : Fin n, ¬ writtenCell i a b → covarOuter K M P i a b = P a b) ∧
    (∀ (i : Fin n) (Q : Fin n → Fin n → ℚ), (∀ a b, readCell i a b → Q a b = P a b) →
      ∀ a b, writtenCell i a b → covarOuter K M Q i a b = covarOuter K M P i a b) ∧
    (∀ is : List (Fin n), is.Perm (List.finRange n) →
      is.foldl (covarOuter K M) P = covarUpdate K M P) :=
  ⟨fun i k a b => writtenCell_disjoint i k a b,
   fun i a b => covarOuter_frame K M P i a b,
   fun i Q hr a b => covarOuter_reads K M P Q i hr a b,
   fun is hp => foldl_covarOuter_perm K M P is hp⟩

theorem outer_loop_order_independent_witness :
    covarOuter gainAB gainAB (covarOuter gainAB gainAB priorAB 1) 0 =
      covarUpdate gainAB gainAB priorAB :=
  (outer_loop_order_independent gainAB gainAB priorAB).2.2.2 [1, 0]
    (List.Perm.swap 0 1 [])

/-- C22: new-unknown covariance policy of the State Store.  In the matrix that
    `getCovarMatrix` returns for an ordered unknown set, an unknown that is not
    found in the stored covariance map has its default variance on the diagonal
    and zero in every other entry of its row and of its column, whether the
    other unknown is retained or new; an entry between two retained unknowns is
    the stored value. -/
theorem new_unknown_covariance_policy {n : Nat} (stored : covarianceMap)
    (unknowns : Fin n → Unknown) :
    (∀ i, stored (unknowns i).ident = none →
      StateStore.getCovarMatrix stored unknowns i i = (unknowns i).defaultVariance ∧
      ∀ j, j ≠ i → StateStore.getCovarMatrix stored unknowns i j = 0 ∧
        StateStore.getCovarMatrix stored unknowns j i = 0) ∧
    (∀ i j row rowj, stored (unknowns i).ident = some row →
      stored (unknowns j).ident = some rowj →
      StateStore.getCovarMatrix stored unknowns i j = row (unknowns j).ident) := by
  refine ⟨fun i hi => ⟨?_, fun j hj => ⟨?_, ?_⟩⟩, fun i j row rowj hi hj => ?_⟩
  · rw [getCovarMatrix_of_new_left stored unknowns i i hi, if_pos rfl]
  · rw [getCovarMatrix_of_new_left stored unknowns i j hi, if_neg (Ne.symm hj)]
  · rw [getCovarMatrix_of_new_right stored unknowns j i hi, if_neg hj]
  · exact getCovarMatrix_of_retained stored unknowns i j row rowj hi hj

theorem new_unknown_covariance_policy_witness :
    StateStore.getCovarMatrix storedA unknownsAB 1 1 = 10000 ∧
    StateStore.getCovarMatrix storedA unknownsAB 1 0 = 0 ∧
    StateStore.getCovarMatrix storedA unknownsAB 0 1 = 0 ∧
    StateStore.getCovarMatrix storedA unknownsAB 0 0 = 2 :=
  ⟨((new_unknown_covariance_policy storedA unknownsAB).1 1 (by simp [storedA, unknownsAB])).1,
   (((new_unknown_covariance_policy storedA unknownsAB).1 1 (by simp [storedA, unknownsAB])).2 0
      (by decide)).1,
   (((new_unknown_covariance_policy storedA unknownsAB).1 1 (by simp [storedA, unknownsAB])).2 0
      (by decide)).2,
   (new_unknown_covariance_policy storedA unknownsAB).2 0 0 (fun _ => 2) (fun _ => 2)
      (by simp [storedA, unknownsAB]) (by simp [storedA, unknownsAB])⟩

/-- C23: determinism.  The final estimate and covariance of the loop over the
    equation list are determined by the prior `(x, P)` and the list: two runs
    that start from the same `(x, P)` end alike (both fail, or both give the same
    estimate and covariance), whatever the other working variables hold at the
    start; and the call as a whole gives the same outcome whatever the members of
    the object hold before it. -/
theorem pass_deterministic {n : Nat} (eqs : List (Equation n)) (s1 s2 : PassState n)
    (hx : s1.xhat = s2.xhat) (hP : s1.P = s2.P) (fuel1 fuel2 : Nat)
    (Prepare : Nat → Except Exception (EquationSystem n))
    (getStateVector : VariableSet n → Except Exception (Fin n → ℚ))
    (getCovarMatrix : VariableSet n → Except Exception (Fin n → Fin n → ℚ))
    (members1 members2 : LoopState n) :
    (rowLoop eqs s1).map (fun s => (s.xhat, s.P)) =
      (rowLoop eqs s2).map (fun s => (s.xhat, s.P)) ∧
    ProcessDoWhile (fuel1 + 1) Prepare getStateVector getCovarMatrix members1 =
      ProcessDoWhile (fuel2 + 1) Prepare getStateVector getCovarMatrix members2 :=
  ⟨rowLoop_xhat_P_congr eqs s1 s2 hx hP,
   ProcessDoWhile_congr fuel1 fuel2 Prepare getStateVector getCovarMatrix members1 members2⟩

theorem pass_deterministic_witness :
    (rowLoop [eqAB] stateAB).map (fun s => (s.xhat, s.P)) =
      (rowLoop [eqAB] { stateAB with row := 5, M := (fun _ => 7) }).map
        (fun s => (s.xhat, s.P)) ∧
    ProcessDoWhile (0 + 1) (fun _ => Except.ok { currentUnknowns := [], equList := [eqAB] })
        (fun _ => Except.ok stateAB.xhat) (fun _ => Except.ok priorAB) membersAB =
      ProcessDoWhile (3 + 1) (fun _ => Except.ok { currentUnknowns := [], equList := [eqAB] })
        (fun _ => Except.ok stateAB.xhat) (fun _ => Except.ok priorAB)
        { membersAB with xhat := (fun _ => 9) } :=
  pass_deterministic [eqAB] stateAB { stateAB with row := 5, M := (fun _ => 7) } rfl rfl 0 3
    (fun _ => Except.ok { currentUnknowns := [], equList := [eqAB] })
    (fun _ => Except.ok stateAB.xhat) (fun _ => Except.ok priorAB) membersAB
    { membersAB with xhat := (fun _ => 9) }

/-- C24: `SimpleFilter::Process(satTypeValueMap&)`.  For a data map (one entry per
    satellite) and a filter type set, an entry is in the result if and only if it
    is in the input and, for every type of `filterTypeSet`, the satellite holds a
    value of that type that `checkValue` accepts; so a satellite is present in
    the result exactly in that case, with the typed values it had; and the
    result is the input with entries left out, in the same order. -/
theorem SimpleFilter_keeps_passing_satellites (checkValue : ℚ → Bool)
    (filterTypeSet : List TypeID) (gData : satTypeValueMap)
    (hkeys : (gData.map Prod.fst).Nodup) :
    (∀ sat tData, (sat, tData) ∈ SimpleFilter.Process checkValue filterTypeSet gData ↔
      (sat, tData) ∈ gData ∧ ∀ t ∈ filterTypeSet, PassesType checkValue tData t) ∧
    (∀ sat, sat ∈ (SimpleFilter.Process checkValue filterTypeSet gData).map Prod.fst ↔
      ∃ tData, (sat, tData) ∈ gData ∧ ∀ t ∈ filterTypeSet, PassesType checkValue tData t) ∧
    List.Sublist (SimpleFilter.Process checkValue filterTypeSet gData) gData := by
  refine ⟨fun sat tData => mem_SimpleFilter_Process checkValue filterTypeSet gData hkeys _,
    fun sat => ?_, checkTypes_sublist checkValue filterTypeSet (gData, [])⟩
  rw [List.mem_map]
  constructor
  · rintro ⟨it, hit, rfl⟩
    exact ⟨it.2, (mem_SimpleFilter_Process checkValue filterTypeSet gData hkeys it).mp hit⟩
  · rintro ⟨tData, h⟩
    exact ⟨(sat, tData),
      (mem_SimpleFilter_Process checkValue filterTypeSet gData hkeys _).mpr h, rfl⟩

theorem SimpleFilter_keeps_passing_satellites_witness :
    (1, bagAB) ∈ SimpleFilter.Process checkRange [TypeID.prefitC] gDataTwo ∧
    (2, bagNone) ∉ SimpleFilter.Process checkRange [TypeID.prefitC] gDataTwo :=
  ⟨((SimpleFilter_keeps_passing_satellites checkRange [TypeID.prefitC] gDataTwo
      (by simp [gDataTwo])).1 1 bagAB).mpr
      ⟨List.mem_cons_self _ _, fun t ht => by
        rw [List.mem_singleton.mp ht]
        exact ⟨5, by simp [bagAB], by simp [checkRange]; norm_num⟩⟩,
   fun h => by
    obtain ⟨v, hv, _⟩ := (((SimpleFilter_keeps_passing_satellites checkRange [TypeID.prefitC]
      gDataTwo (by simp [gDataTwo])).1 2 bagNone).mp h).2 TypeID.prefitC
      (List.mem_singleton_self _)
    simp [bagNone] at hv⟩

/-- C25: leap-second handling of `GPS2UTC`.  For the leap-second table that is `L`
    before the UTC instant `T` and `L + 1` from `T` on, with `L ≥ 19`, a GPS time
    `g` is mapped to `g - (L + 1 - 19)` when that instant is not before `T`, and
    to `g - (L - 19)` otherwise; the result is tagged UTC. -/
theorem GPS2UTC_leap_second (T L : ℚ) (hL : 19 ≤ L) (g : ReferenceSystem.CommonTime) :
    (T ≤ g.seconds - (L + 1 - 19) →
      ReferenceSystem.GPS2UTC (stepTable T L) g =
        { seconds := g.seconds - (L + 1 - 19), timeSystem := TimeSystem.UTC }) ∧
    (¬ T ≤ g.seconds - (L + 1 - 19) →
      ReferenceSystem.GPS2UTC (stepTable T L) g =
        { seconds := g.seconds - (L - 19), timeSystem := TimeSystem.UTC }) := by
  constructor
  · intro h
    rw [GPS2UTC_stepTable T L hL g, if_pos h]
  · intro h
    rw [GPS2UTC_stepTable T L hL g, if_neg h]

theorem GPS2UTC_leap_second_witness :
    ReferenceSystem.GPS2UTC (stepTable 0 27) (gpsInstant 9) = utcInstant 0 ∧
    ReferenceSystem.GPS2UTC (stepTable 0 27) (gpsInstant 8) = utcInstant 0 ∧
    ReferenceSystem.GPS2UTC (stepTable 0 27) (gpsInstant 7) = utcInstant (-1) :=
  ⟨((GPS2UTC_leap_second 0 27 (by norm_num) (gpsInstant 9)).1
      (by simp [gpsInstant]; norm_num)).trans (by simp [gpsInstant, utcInstant]; norm_num),
   ((GPS2UTC_leap_second 0 27 (by norm_num) (gpsInstant 8)).2
      (by simp [gpsInstant]; norm_num)).trans (by simp [gpsInstant, utcInstant]; norm_num),
   ((GPS2UTC_leap_second 0 27 (by norm_num) (gpsInstant 7)).2
      (by simp [gpsInstant]; norm_num)).trans (by simp [gpsInstant, utcInstant]; norm_num)⟩

/-- C27: `Anpm` normalizes into `[-PI, +PI]`.  With `PI > 0`, `TWO_PI = 2·PI` and
    `fmod` the truncated remainder, for every angle `a` the result `w` satisfies
    `-PI ≤ w ≤ PI`, and `w - a` is an integer multiple of `2·PI`. -/
theorem Anpm_normalizes (PI TWO_PI : ℚ) (hPI : 0 < PI) (hTWO : TWO_PI = 2 * PI) (a : ℚ) :
    -PI ≤ ReferenceSystem.Anpm PI TWO_PI a ∧ ReferenceSystem.Anpm PI TWO_PI a ≤ PI ∧
    ∃ k : ℤ, ReferenceSystem.Anpm PI TWO_PI a - a = (k : ℚ) * (2 * PI) :=
  ⟨(Anpm_range PI TWO_PI hPI hTWO a).1, (Anpm_range PI TWO_PI hPI hTWO a).2,
    Anpm_congruent PI TWO_PI hTWO a⟩

theorem Anpm_normalizes_witness :
    -3 ≤ ReferenceSystem.Anpm 3 6 10 ∧ ReferenceSystem.Anpm 3 6 10 ≤ 3 ∧
    ∃ k : ℤ, ReferenceSystem.Anpm 3 6 10 - 10 = (k : ℚ) * (2 * 3) :=
  Anpm_normalizes 3 6 (by norm_num) (by norm_num) 10

/-- C28: string round trip of `IonoCorr`.  For each of the nine correction types,
    `fromString` applied to the name given by `asString` sets that type, and so
    does `fromString` on any string whose upper-cased form is that name;
    `fromString` throws exactly when the upper-cased string is none of the nine
    names, which is the case for the string `"ERROR"` that `asString` gives for
    the type `Unknown`. -/
theorem IonoCorr_round_trip (self c : IonoCorr) (str : String) :
    (c.type ≠ CorrType.Unknown →
      self.fromString c.asString = Except.ok { self with type := c.type }) ∧
    (c.type ≠ CorrType.Unknown → upperCase str = c.asString →
      self.fromString str = Except.ok { self with type := c.type }) ∧
    ((∃ e, self.fromString str = Except.error e) ↔ upperCase str ∉ corrNames) ∧
    (c.type = CorrType.Unknown → ∃ e, self.fromString c.asString = Except.error e) :=
  ⟨fun ht => fromString_of_upperCase_eq self c c.asString ht (upperCase_asString c),
   fun ht hs => fromString_of_upperCase_eq self c str ht hs,
   fromString_error_iff self str,
   fun ht => fromString_asString_unknown self c ht⟩

theorem IonoCorr_round_trip_witness :
    ionoDefault.fromString lowerGPSA = Except.ok { ionoDefault with type := CorrType.GPSA } ∧
    ionoDefault.fromString ionoGPSA.asString =
      Except.ok { ionoDefault with type := CorrType.GPSA } ∧
    ∃ e, ionoGPSA.fromString ionoDefault.asString = Except.error e :=
  ⟨(IonoCorr_round_trip ionoDefault ionoGPSA lowerGPSA).2.1 (by decide) (by decide),
   (IonoCorr_round_trip ionoDefault ionoGPSA lowerGPSA).1 (by decide),
   (IonoCorr_round_trip ionoGPSA ionoDefault lowerGPSA).2.2.2 rfl⟩

/-- C29: `ComputeLinear` keeps the combinations in the order they were added.
    For a system among GPS, Galileo and BDS, after the calls
    `addLinear(sys, c1)`, ..., `addLinear(sys, ck)` on a freshly constructed
    object, `getLinearCombinations(sys)` returns `[c1, ..., ck]`, and for each of
    the other two systems it returns what it returned before the calls, the
    empty list. -/
theorem ComputeLinear_fifo {C : Type} (sys : SatelliteSystem) (hsys : IsListedSystem sys)
    (cs : List C) :
    ((cs.foldl (fun obj c => obj.addLinear sys c) (ComputeLinear.new C)).getLinearCombinations
      sys = some cs) ∧
    (∀ other, IsListedSystem other → other ≠ sys →
      (cs.foldl (fun obj c => obj.addLinear sys c) (ComputeLinear.new C)).getLinearCombinations
          other = (ComputeLinear.new C).getLinearCombinations other ∧
      (ComputeLinear.new C).getLinearCombinations other = some []) := by
  constructor
  · rw [getLinearCombinations_foldl_same sys hsys, getLinearCombinations_new sys hsys]
    simp
  · intro other hother hne
    exact ⟨getLinearCombinations_foldl_other sys other hne cs _,
      getLinearCombinations_new other hother⟩

theorem ComputeLinear_fifo_witness :
    (((ComputeLinear.new Nat).addLinear SatelliteSystem.systemGalileo 7).addLinear
      SatelliteSystem.systemGalileo 3).getLinearCombinations SatelliteSystem.systemGalileo =
        some [7, 3] :=
  (ComputeLinear_fifo SatelliteSystem.systemGalileo (Or.inr (Or.inl rfl)) [7, 3]).1

/-- C30: the gain division is well defined.  For a symmetric positive-semidefinite
    `P` and an equation with effective weight `w > 0`, the value
    `beta = 1/w + G·P·Gᵗ` computed at lines 333-352 satisfies `beta ≥ 1/w > 0`, so
    the divisor of line 357 is not zero and `K(i)·beta = M(i)` for every `i`. -/
theorem gain_division_well_defined {n : Nat} (eq : Equation n) (z : ℚ) (s : PassState n)
    (hP : IsPosSemidef s.P) (hw : 0 < effectiveWeight eq.header) :
    0 < 1 / effectiveWeight eq.header ∧
    1 / effectiveWeight eq.header ≤
      1 / effectiveWeight eq.header + computeDotGM (computeM s.P (indexG eq)) (indexG eq) ∧
    0 < 1 / effectiveWeight eq.header + computeDotGM (computeM s.P (indexG eq)) (indexG eq) ∧
    (∀ i, (applyRow eq z s).K i =
      (applyRow eq z s).M i /
        (1 / effectiveWeight eq.header + computeDotGM (computeM s.P (indexG eq)) (indexG eq))) ∧
    (∀ i, (applyRow eq z s).K i *
        (1 / effectiveWeight eq.header + computeDotGM (computeM s.P (indexG eq)) (indexG eq)) =
      (applyRow eq z s).M i) := by
  have h1 : 0 < 1 / effectiveWeight eq.header := one_div_pos.mpr hw
  have h2 : 0 ≤ computeDotGM (computeM s.P (indexG eq)) (indexG eq) := by
    rw [computeDotGM_eq_dotProduct, computeM_eq_mulVec]
    exact hP.2 _
  have h3 : 0 < 1 / effectiveWeight eq.header +
      computeDotGM (computeM s.P (indexG eq)) (indexG eq) := by linarith
  refine ⟨h1, by linarith, h3, fun i => rfl, fun i => ?_⟩
  show (computeM s.P (indexG eq)) i /
      (1 / effectiveWeight eq.header + computeDotGM (computeM s.P (indexG eq)) (indexG eq)) *
      (1 / effectiveWeight eq.header + computeDotGM (computeM s.P (indexG eq)) (indexG eq)) =
    (computeM s.P (indexG eq)) i
  exact div_mul_cancel₀ _ (ne_of_gt h3)

theorem gain_division_well_defined_witness :
    0 < 1 / effectiveWeight eqAB.header + computeDotGM (computeM stateAB.P (indexG eqAB)) (indexG eqAB) :=
  (gain_division_well_defined eqAB 0 stateAB
    (by rw [show stateAB.P = priorAB from rfl]; exact priorAB_posSemidef)
    (by simp [effectiveWeight, eqAB, bagAB])).2.2.1

/-- C31: positive semidefiniteness is preserved.  For a symmetric
    positive-semidefinite `P` and an equation with effective weight `w > 0`, the
    covariance after the update of one row (lines 337-408) is again symmetric
    positive-semidefinite, and it is positive-definite when `P` is. -/
theorem covariance_stays_posSemidef {n : Nat} (eq : Equation n) (z : ℚ) (s : PassState n)
    (hw : 0 < effectiveWeight eq.header) (hP : IsPosSemidef s.P) :
    IsPosSemidef (applyRow eq z s).P ∧ (IsPosDef s.P → IsPosDef (applyRow eq z s).P) := by
  rw [applyRow_P]
  exact ⟨rowUpdate_posSemidef eq z hw s.xhat s.P hP,
    fun hd => rowUpdate_posDef eq z hw s.xhat s.P hd⟩

theorem covariance_stays_posSemidef_witness :
    IsPosSemidef (applyRow eqAB 5 stateAB).P ∧ IsPosDef (applyRow eqAB 5 stateAB).P :=
  ⟨(covariance_stays_posSemidef eqAB 5 stateAB (by simp [effectiveWeight, eqAB, bagAB])
      priorAB_posSemidef).1,
   (covariance_stays_posSemidef eqAB 5 stateAB (by simp [effectiveWeight, eqAB, bagAB])
      priorAB_posSemidef).2 priorAB_posDef⟩

/-- C32: variances never grow.  For a symmetric positive-semidefinite `P` and an
    equation with effective weight `w > 0`, each diagonal entry after the update
    of one row is `P(i,i) - M(i)²/beta` and satisfies `0 ≤ P'(i,i) ≤ P(i,i)`. -/
theorem variances_never_grow {n : Nat} (eq : Equation n) (z : ℚ) (s : PassState n)
    (hw : 0 < effectiveWeight eq.header) (hP : IsPosSemidef s.P) (i : Fin n) :
    (applyRow eq z s).P i i =
      s.P i i - computeM s.P (indexG eq) i ^ 2 /
        (1 / effectiveWeight eq.header +
          computeDotGM (computeM s.P (indexG eq)) (indexG eq)) ∧
    0 ≤ (applyRow eq z s).P i i ∧ (applyRow eq z s).P i i ≤ s.P i i := by
  have h1 : 0 < 1 / effectiveWeight eq.header := one_div_pos.mpr hw
  have h2 := computed_dotGM_nonneg s.P hP (indexG eq)
  have hb : 0 < 1 / effectiveWeight eq.header +
      computeDotGM (computeM s.P (indexG eq)) (indexG eq) := by linarith
  refine ⟨applyRow_P_diag eq z s i, ?_, ?_⟩
  · have hpsd := (rowUpdate_posSemidef eq z hw s.xhat s.P hP).2 (Pi.single i 1)
    rw [quadForm_single, ← applyRow_P] at hpsd
    exact hpsd
  · rw [applyRow_P_diag]
    have : 0 ≤ computeM s.P (indexG eq) i ^ 2 /
        (1 / effectiveWeight eq.header +
          computeDotGM (computeM s.P (indexG eq)) (indexG eq)) :=
      div_nonneg (sq_nonneg _) (le_of_lt hb)
    linarith

theorem variances_never_grow_witness :
    0 ≤ (applyRow eqAB 5 stateAB).P 0 0 ∧ (applyRow eqAB 5 stateAB).P 0 0 ≤ stateAB.P 0 0 :=
  (variances_never_grow eqAB 5 stateAB (by simp [effectiveWeight, eqAB, bagAB])
    priorAB_posSemidef 0).2

/-- C33: residual contraction of one row.  For a symmetric positive-semidefinite
    `P` and an equation with effective weight `w > 0`, the residual of the row
    right after its own update is the innovation scaled by `(1/w)/beta`:
    `z - G·x' = (z - G·x)·(1/w)/(1/w + G·P·Gᵗ)`, and its absolute value is at
    most that of the innovation. -/
theorem residual_contraction {n : Nat} (eq : Equation n) (z : ℚ) (s : PassState n)
    (hw : 0 < effectiveWeight eq.header) (hP : IsPosSemidef s.P) :
    z - computeDotGX (applyRow eq z s).xhat (indexG eq) =
      (z - computeDotGX s.xhat (indexG eq)) * (1 / effectiveWeight eq.header) /
        (1 / effectiveWeight eq.header +
          computeDotGM (computeM s.P (indexG eq)) (indexG eq)) ∧
    |z - computeDotGX (applyRow eq z s).xhat (indexG eq)| ≤
      |z - computeDotGX s.xhat (indexG eq)| := by
  have h1 : 0 < 1 / effectiveWeight eq.header := one_div_pos.mpr hw
  have h2 := computed_dotGM_nonneg s.P hP (indexG eq)
  have hb : 0 < 1 / effectiveWeight eq.header +
      computeDotGM (computeM s.P (indexG eq)) (indexG eq) := by linarith
  have hres := applyRow_residual eq z s (ne_of_gt hb)
  refine ⟨hres, ?_⟩
  rw [hres, mul_div_assoc, abs_mul]
  have hr0 : 0 ≤ 1 / effectiveWeight eq.header /
      (1 / effectiveWeight eq.header +
        computeDotGM (computeM s.P (indexG eq)) (indexG eq)) :=
    div_nonneg (le_of_lt h1) (le_of_lt hb)
  have hr1 : 1 / effectiveWeight eq.header /
      (1 / effectiveWeight eq.header +
        computeDotGM (computeM s.P (indexG eq)) (indexG eq)) ≤ 1 := by
    rw [div_le_one hb]
    linarith
  rw [abs_of_nonneg hr0]
  exact mul_le_of_le_one_right (abs_nonneg _) hr1

theorem residual_contraction_witness :
    |5 - computeDotGX (applyRow eqAB 5 stateAB).xhat (indexG eqAB)| ≤
      |5 - computeDotGX stateAB.xhat (indexG eqAB)| :=
  (residual_contraction eqAB 5 stateAB (by simp [effectiveWeight, eqAB, bagAB])
    priorAB_posSemidef).2

/-- C35: the weight of the outlier test for an equation without secondary weight.
    The equation `eqAB` has the independent term `prefitC`, the base weight `1`
    and a bag without `weightC`.  `Process` applies it with the weight `1` (the
    lookup of lines 239-245 is guarded by `find`), whereas the lookup of
    `postfitFilter` (lines 496-499 and 533-536) is not guarded and throws, so
    `postfitFilter` gives no weight at all and fails for every list holding such
    an equation.  For the header `headerC`, whose bag holds `weightC`, the two
    weights are the same. -/
theorem postfitWeight_missing_entry (sqrt : ℚ → ℚ) (postfitResiduals : List ℚ)
    (gdsMap : gnssDataMap) :
    processRow eqAB stateAB = Except.ok (applyRow eqAB 5 stateAB) ∧
    effectiveWeight eqAB.header = 1 ∧
    postfitWeight eqAB.header = Except.error Exception.TypeIDNotFound ∧
    postfitFilter sqrt [eqAB] 2 postfitResiduals gdsMap =
      Except.error Exception.TypeIDNotFound ∧
    postfitWeight headerC = Except.ok (effectiveWeight headerC) := by
  have hw : postfitWeight eqAB.header = Except.error Exception.TypeIDNotFound := by
    simp [postfitWeight, typeValueMap.getValue, eqAB, bagAB]
  refine ⟨?_, ?_, hw, ?_, ?_⟩
  · exact processRow_of_some eqAB stateAB 5 (by simp [eqAB, bagAB])
  · simp [effectiveWeight, eqAB, bagAB]
  · simp [postfitFilter, postfitSigma, sigmaLoop, hw]
  · exact postfitWeight_of_hasSecondaryWeight headerC
      ⟨fun _ => by simp [headerC, bagW], fun _ => by simp [headerC, bagW]⟩

end gpstk
